import Mathlib

/-!
Verification of the hybridAllocator repository (Go) against its
natural-language specification.

The Go sources are shallowly embedded as executable Lean definitions:

* `src/hybrid/types.go`   — constants and data structures,
* `src/hybrid/buddy.go`   — region-based binary-buddy allocator,
* `src/hybrid/slab.go`    — slab allocator layered above buddy,
* `src/hybrid/allocator.go` — the dispatcher,
* `src/mpool/mpool.go`    — the front-cache memory pool.

Machine integers: all Go values involved are `uint64`; the embedding uses
`Nat`.  This is exact wherever no wrap-around occurs, and every guard of
the Go code (`start >= slab.start` before `start - slab.start`, the
allocated-size lookup before `used -= size`, …) is modelled before the
corresponding subtraction, so truncated `Nat` subtraction agrees with the
Go value on all code paths that the theorems talk about.  `getOrder`'s
`int(math.Log2(float64(m)))` equals `Nat.log2 m` for every `m < 2 ^ 44`
(Go's `Log2` special-cases exact powers of two via `Frexp`, and for other
`m` the distance from `log2 m` to the nearest integer far exceeds the
rounding error), which covers every size below `2 ^ 63` after division by
the 1 MiB unit.  One genuine wrap-around remains: `getOrder`'s rounding
`size + BuddyStartSize - 1` overflows `uint64` for
`size > 2 ^ 64 - BuddyStartSize`, the mask then clears the rounded size
to 0 and `int(math.Log2(0))` is negative, so `BuddyRegion.allocate`
panics indexing `r.blocks` instead of returning an error.
`roundedSizeU64` embeds that rounding with its `% 2 ^ 64` reduction, and
every theorem that quantifies over sizes beyond the dispatcher's
`MaxBlockSize` cap carries the explicit no-wrap bound
`size + BuddyStartSize - 1 < 2 ^ 64`.

Go maps are embedded as association lists with unique keys, Go slices and
intrusive linked lists as Lean lists (`head` = list head, insertion at the
head or by `append` exactly as the Go code does).  The `blockMap` of a
region mirrors the per-order linked list (the Go code keeps them in sync);
both are embedded as the single per-order list, and a map lookup is a
search of that list.  Shared mutable `*Slab` pointers are embedded as
indices into an append-only store (`SlabAllocator.store`); Go pointer
equality becomes index equality.  Goroutine-based deferred merging
(`mergeChan`) is embedded synchronously: the Go `Free` either performs
`mergeBlockLocked` inline or enqueues the identical call, and all claims
are about quiescent states of sequential runs.  Go `panic`s (double
allocation, `%` by zero, negative slice index) are embedded as dedicated
error values that the surrounding code never catches.
-/

namespace HybridAlloc

/-! ### Constants (src/hybrid/types.go, and the region constants of the
current types file whose copy in the repo snapshot is src/unnamed/part_005) -/

def MaxBlockSize : Nat := 1024 * 1024 * 1024 * 1024

def BuddyStartSize : Nat := 1024 * 1024

def SlabMaxSize : Nat := 1024 * 1024

def MaxOrder : Nat := 20

def buddyRegionCount : Nat := 8

inductive AllocErr where
  | sizeTooLarge
  | noSpace
  | invalidAddress
  | blockNotFound
  | slabNotFound
  | slabFull
  | addressAlreadyAllocated
  | addressNotAllocated
  | panicDoubleAlloc
  | panicModZero
  | panicIndex
deriving DecidableEq, Repr

instance {ε α : Type} [DecidableEq ε] [DecidableEq α] : DecidableEq (Except ε α) := fun a b =>
  match a, b with
  | .ok x, .ok y => decidable_of_iff (x = y) (by simp)
  | .error x, .error y => decidable_of_iff (x = y) (by simp)
  | .ok _, .error _ => isFalse (by simp)
  | .error _, .ok _ => isFalse (by simp)

/-! ### Buddy allocator (src/hybrid/buddy.go) -/

/-- `Block` (src/hybrid/types.go); the intrusive `next`/`prev` pointers and
the unused `slab` back-pointer are represented by the position of the block
in the per-order list. -/
structure Block where
  start : Nat
  size : Nat
deriving DecidableEq, Repr

/-- `BuddyRegion` (current types file, src/unnamed/part_005): per-order
free lists (`blocks` and the synchronized `blockMap` embedded as one list
per order), the `allocated` tracking map, the `used` counter and the
region bounds. -/
structure BuddyRegion where
  blocks : List (List Block)
  allocated : List (Nat × Nat)
  used : Nat
  startAddr : Nat
  endAddr : Nat
deriving DecidableEq, Repr

/-- `BuddyAllocator` (current types file): the fixed array of regions. -/
structure BuddyAllocator where
  regions : List BuddyRegion
deriving DecidableEq, Repr

def blocksAt (bl : List (List Block)) (j : Nat) : List Block :=
  bl.getD j []

/-- Floor of the base-2 logarithm, by structural recursion on a fuel
bound (`log2floor n n = Nat.log2 n`, proved below; `Nat.log2` itself is
defined by well-founded recursion and does not evaluate inside `decide`). -/
def log2floor (fuel n : Nat) : Nat :=
  match fuel with
  | 0 => 0
  | fuel + 1 => if n ≥ 2 then log2floor fuel (n / 2) + 1 else 0

/-- `getOrder` (src/hybrid/buddy.go lines 56-64): round `size` up to a
multiple of `BuddyStartSize` and take `int(math.Log2(m))`, i.e. the FLOOR
of the base-2 logarithm of `m = ceil(size / BuddyStartSize)`.  This `Nat`
embedding is Go's value exactly when the rounding does not wrap in
`uint64`, i.e. for `size + BuddyStartSize - 1 < 2 ^ 64`; for larger
`uint64` sizes the Go rounding wraps to 0 (see `roundedSizeU64`) and the
caller panics rather than receiving any order, so theorems quantifying
over sizes beyond the dispatcher's cap carry that bound explicitly. -/
def getOrder (size : Nat) : Nat :=
  if size < BuddyStartSize then 0
  else
    let m := (size + BuddyStartSize - 1) / BuddyStartSize
    log2floor m m

/-- The rounded size `(size + BuddyStartSize - 1) &^ (BuddyStartSize - 1)`
that `getOrder` computes for `size ≥ BuddyStartSize`, at the `uint64`
level: the addition is reduced `% 2 ^ 64`, and the mask (clearing the low
20 bits of a power-of-two-aligned unit) is division followed by
multiplication.  For `size > 2 ^ 64 - BuddyStartSize` the addition wraps
and this value is 0: Go then takes `int(math.Log2(0))`, a negative
number, and `BuddyRegion.allocate`'s scan indexes `r.blocks` at a
negative order and panics instead of returning an error. -/
def roundedSizeU64 (size : Nat) : Nat :=
  ((size + BuddyStartSize - 1) % 2 ^ 64) / BuddyStartSize * BuddyStartSize

/-- Ceiling of the base-2 logarithm (smallest `k` with `2 ^ k ≥ n`), by
structural recursion on a fuel bound. -/
def clog2ceil (fuel n : Nat) : Nat :=
  match fuel with
  | 0 => 0
  | fuel + 1 => if n ≤ 1 then 0 else clog2ceil fuel ((n + 1) / 2) + 1

/-- The order the specification asks for: the smallest `k` with
`BUDDY_UNIT << k ≥ size` (sizes of 0 or below `BUDDY_UNIT` give 0).
Modelled from the spec ("rounding up to the nearest power-of-two multiple
of `BUDDY_UNIT`", `ceil_order`); used to compare `getOrder` against its
specified behaviour. -/
def ceilOrderSpec (size : Nat) : Nat :=
  if size ≤ BuddyStartSize then 0
  else
    let m := (size + BuddyStartSize - 1) / BuddyStartSize
    clog2ceil m m

/-- One region of `NewBuddyAllocator` (src/hybrid/buddy.go lines 10-53):
region `i` spans `[i * regionSize, (i+1) * regionSize)` (the last region
is extended to `MaxBlockSize`, which for these constants is the same
bound) and starts with a single free block covering the whole region. -/
def newBuddyRegion (i : Nat) : BuddyRegion :=
  let regionSize := MaxBlockSize / buddyRegionCount
  let startAddr := i * regionSize
  let endAddr := if i = buddyRegionCount - 1 then MaxBlockSize else startAddr + regionSize
  let maxBlock : Block := ⟨startAddr, endAddr - startAddr⟩
  let order := getOrder maxBlock.size
  { blocks := (List.replicate (MaxOrder + 1) ([] : List Block)).set order [maxBlock]
    allocated := []
    used := 0
    startAddr := startAddr
    endAddr := endAddr }

/-- `NewBuddyAllocator` (src/hybrid/buddy.go). -/
def newBuddyAllocator : BuddyAllocator :=
  ⟨(List.range buddyRegionCount).map newBuddyRegion⟩

/-- The scan `for i := order; i <= MaxOrder; i++ { if r.blocks[i] != nil … }`
of `BuddyRegion.allocate`: find the first order from `i` up with a
non-empty free list and return that order with the list head.  `fuel`
counts the orders still to inspect (`MaxOrder + 1 - i` at the call site). -/
def findFrom (bl : List (List Block)) (i fuel : Nat) : Option (Nat × Block) :=
  match fuel with
  | 0 => none
  | fuel + 1 =>
    match (blocksAt bl i).head? with
    | some b => some (i, b)
    | none => findFrom bl (i + 1) fuel

/-- The split loop `for j := i - 1; j >= order; j--` of
`BuddyRegion.allocate`: push a new free block
`⟨bstart + 2^j * BuddyStartSize, 2^j * BuddyStartSize⟩` onto the head of
list `j`, descending.  `fuel = i - order` at the call site and `j` starts
at `i - 1`. -/
def splitLoop (bstart : Nat) (fuel j : Nat) (bl : List (List Block)) : List (List Block) :=
  match fuel with
  | 0 => bl
  | fuel + 1 =>
    let nb : Block := ⟨bstart + 2 ^ j * BuddyStartSize, 2 ^ j * BuddyStartSize⟩
    splitLoop bstart fuel (j - 1) (bl.set j (nb :: blocksAt bl j))

/-- `BuddyRegion.allocate` (src/hybrid/buddy.go lines 98-150).  On success
the popped block is split down to `order`, recorded in `allocated` with
its final size and counted in `used`.  The Go `panic` on a double
allocation is the error `panicDoubleAlloc`. -/
def regionAllocate (r : BuddyRegion) (size : Nat) :
    Except AllocErr Nat × BuddyRegion :=
  let order := getOrder size
  if order > MaxOrder then (.error .sizeTooLarge, r)
  else
    match findFrom r.blocks order (MaxOrder + 1 - order) with
    | none => (.error .noSpace, r)
    | some (i, b) =>
      if (r.allocated.lookup b.start).isSome then (.error .panicDoubleAlloc, r)
      else
        let bl1 := r.blocks.set i (blocksAt r.blocks i).tail
        let bl2 := splitLoop b.start (i - order) (i - 1) bl1
        let finalSize := if i > order then 2 ^ order * BuddyStartSize else b.size
        (.ok b.start,
          { r with
            blocks := bl2
            allocated := (b.start, finalSize) :: r.allocated
            used := r.used + finalSize })

/-- The merge loop of `BuddyRegion.mergeBlockLocked` (src/hybrid/buddy.go
lines 153-203).  `fuel = MaxOrder + 1 - order` at the call site; the Go
loop runs while `order ≤ MaxOrder`, looks up the buddy
`currentStart XOR (1 << order) * BuddyStartSize` in `blockMap[order]`,
and either inserts the current block (no buddy) or removes the buddy,
keeps the smaller start and climbs one order (stopping, without an
insertion, once the order exceeds `MaxOrder`). -/
def mergeLoop (fuel currentStart order : Nat) (bl : List (List Block)) :
    List (List Block) :=
  match fuel with
  | 0 => bl
  | fuel + 1 =>
    let buddyStart := currentStart ^^^ 2 ^ order * BuddyStartSize
    let lst := blocksAt bl order
    match lst.find? (fun b => b.start == buddyStart) with
    | none =>
      bl.set order (⟨currentStart, 2 ^ order * BuddyStartSize⟩ :: lst)
    | some _ =>
      let bl1 := bl.set order (lst.eraseP (fun b => b.start == buddyStart))
      let cs := min currentStart buddyStart
      if order + 1 > MaxOrder then bl1
      else mergeLoop fuel cs (order + 1) bl1

/-- `BuddyRegion.mergeBlockLocked` (src/hybrid/buddy.go lines 153-203). -/
def mergeBlockLocked (r : BuddyRegion) (start size : Nat) : BuddyRegion :=
  let order := getOrder size
  { r with blocks := mergeLoop (MaxOrder + 1 - order) start order r.blocks }

/-- The region scan of `BuddyAllocator.Allocate` (src/hybrid/buddy.go
lines 84-95): try each region in order; a region failure falls through to
the next region and every failure surfaces as `ErrNoSpaceAvailable` —
except a Go `panic`, which aborts the process and is propagated here. -/
def buddyAllocGo (size : Nat) : List BuddyRegion → Except AllocErr Nat × List BuddyRegion
  | [] => (.error .noSpace, [])
  | r :: rs =>
    match regionAllocate r size with
    | (.ok addr, r') => (.ok addr, r' :: rs)
    | (.error e, r') =>
      if e = .panicDoubleAlloc then (.error .panicDoubleAlloc, r' :: rs)
      else
        match buddyAllocGo size rs with
        | (res, rs') => (res, r' :: rs')

/-- `BuddyAllocator.Allocate` (src/hybrid/buddy.go lines 84-95). -/
def buddyAllocate (b : BuddyAllocator) (size : Nat) :
    Except AllocErr Nat × BuddyAllocator :=
  match buddyAllocGo size b.regions with
  | (res, rs) => (res, ⟨rs⟩)

def emptyRegion : BuddyRegion := ⟨[], [], 0, 0, 0⟩

/-- The region-index computation of `BuddyAllocator.Free`
(src/hybrid/buddy.go lines 206-213): Go computes
`int(start) / regionSize` with 64-bit `int`, so a `start` at or above
`2 ^ 63` becomes negative; a negative quotient indexes the region array
out of range (a run-time panic), embedded as `none`. -/
def freeRegionIndex (start : Nat) : Option Nat :=
  let regionSize : Int := ((MaxBlockSize : Nat) : Int) / ((buddyRegionCount : Nat) : Int)
  let si : Int := if start < 2 ^ 63 then (start : Int) else (start : Int) - 2 ^ 64
  let q : Int := Int.tdiv si regionSize
  if q ≥ (buddyRegionCount : Int) then some (buddyRegionCount - 1)
  else if q < 0 then none
  else some q.toNat

/-- `BuddyAllocator.Free` (src/hybrid/buddy.go lines 206-237): find the
region, look the address up in the region's `allocated` tracking map
(`ErrBlockNotFound` when absent), then unregister it, decrement `used`
and merge.  The `select` on `mergeChan` either defers the identical
`mergeBlockLocked` call to the region goroutine or runs it inline; the
quiescent sequential embedding performs it inline. -/
def buddyFree (b : BuddyAllocator) (start : Nat) :
    Except AllocErr Unit × BuddyAllocator :=
  match freeRegionIndex start with
  | none => (.error .panicIndex, b)
  | some idx =>
    let r := b.regions.getD idx emptyRegion
    match r.allocated.lookup start with
    | none => (.error .blockNotFound, b)
    | some sz =>
      let r1 : BuddyRegion :=
        { r with
          allocated := r.allocated.eraseP (fun p => p.1 == start)
          used := r.used - sz }
      let r2 := mergeBlockLocked r1 start sz
      (.ok (), ⟨b.regions.set idx r2⟩)

/-- `BuddyAllocator.GetUsedSize` (src/hybrid/buddy.go lines 240-248). -/
def buddyUsedSize (b : BuddyAllocator) : Nat :=
  (b.regions.map (fun r => r.used)).sum

/-! ### Slab allocator (src/hybrid/slab.go)

Go keeps every `*Slab` simultaneously in the slice `s.slabs` and in one
list of the map `s.cache`; both containers alias one mutable object.  The
embedding stores slab values in an append-only arena `store` and lets
`slabs` and `cache` hold indices into it, so a mutation through one
container is seen through the other and Go pointer equality
(`sb == targetSlab`) becomes index equality. -/

/-- `Slab` (src/hybrid/types.go); the `allocator` back-pointer is the
enclosing `SlabAllocator` and carries no state. -/
structure Slab where
  start : Nat
  size : Nat
  used : Nat
  allocated : List (Nat × Nat)
  freeList : List Nat
  fromBuddy : Bool
deriving DecidableEq, Repr

/-- `SlabAllocator` (src/hybrid/types.go): `slabs` and the `cache` lists
hold arena indices. -/
structure SlabAllocator where
  store : List Slab
  slabs : List Nat
  cache : List (Nat × List Nat)
  counts : List (Nat × Nat)
deriving DecidableEq, Repr

def emptySlab : Slab := ⟨0, 0, 0, [], [], false⟩

/-- Go map lookup `m[k]` as an association-list search (keys are unique). -/
def alistGet (m : List (Nat × α)) (k : Nat) : Option α :=
  (m.find? (fun p => p.1 == k)).map (fun p => p.2)

/-- Go map assignment `m[k] = v`: replace the entry or add one. -/
def alistSet (m : List (Nat × α)) (k : Nat) (v : α) : List (Nat × α) :=
  match m with
  | [] => [(k, v)]
  | p :: rest => if p.1 = k then (k, v) :: rest else p :: alistSet rest k v

/-- Go map deletion `delete(m, k)`. -/
def alistErase (m : List (Nat × α)) (k : Nat) : List (Nat × α) :=
  m.eraseP (fun p => p.1 == k)

/-- `NewSlab` (src/hybrid/slab.go lines 4-14). -/
def newSlab (start size : Nat) (fromBuddy : Bool) : Slab :=
  { start := start
    size := size
    used := 0
    allocated := []
    freeList := [start]
    fromBuddy := fromBuddy }

/-- `NewSlabAllocator` (src/hybrid/slab.go lines 17-24). -/
def newSlabAllocator : SlabAllocator := ⟨[], [], [], []⟩

/-- `Slab.isRangeOverlap` (src/hybrid/slab.go lines 27-36), the exact
three-clause test of the Go code (map iteration order is irrelevant to
`any`). -/
def isRangeOverlap (s : Slab) (start size : Nat) : Bool :=
  s.allocated.any fun p =>
    (decide (start ≥ p.1) && decide (start < p.1 + p.2)) ||
    (decide (start + size > p.1) && decide (start < p.1 + p.2)) ||
    (decide (start ≤ p.1) && decide (start + size > p.1))

/-- The free-list scan of `Slab.findFreeSpace` (src/hybrid/slab.go lines
44-51): return the first entry that fits below the slab end and does not
overlap an allocated range, together with the free list with that entry
removed. -/
def findInFreeList (s : Slab) (size : Nat) : List Nat → Option (Nat × List Nat)
  | [] => none
  | f :: rest =>
    if f + size ≤ s.start + s.size ∧ ¬ isRangeOverlap s f size then some (f, rest)
    else (findInFreeList s size rest).map (fun p => (p.1, f :: p.2))

/-- The linear probe of `Slab.findFreeSpace` (src/hybrid/slab.go lines
52-59): step `current` by `size` from the slab start until a
non-overlapping position fits.  The Go loop advances by `size` each
round, so it performs at most `s.size` rounds whenever `size ≥ 1`; `fuel`
is `s.size + 1` at the call site.  (For `size = 0` the Go loop would spin
forever if the overlap test ever held; the overlap test is always false
for `size = 0` cells, so the fuel is never exhausted on a reachable
state.) -/
def probeLoop (s : Slab) (size : Nat) : Nat → Nat → Option Nat
  | 0, _ => none
  | fuel + 1, current =>
    if current + size ≤ s.start + s.size then
      if isRangeOverlap s current size then probeLoop s size fuel (current + size)
      else some current
    else none

/-- `Slab.findFreeSpace` (src/hybrid/slab.go lines 39-62).  Returns the
found address and the updated slab: the free-list path removes the entry,
the probe path APPENDS the probed address to the free list (exactly as the
Go code does, although the caller then marks that address allocated). -/
def findFreeSpace (s : Slab) (size : Nat) : Option Nat × Slab :=
  if s.used + size > s.size then (none, s)
  else
    match findInFreeList s size s.freeList with
    | some (addr, fl) => (some addr, { s with freeList := fl })
    | none =>
      match probeLoop s size (s.size + 1) s.start with
      | some addr => (some addr, { s with freeList := s.freeList ++ [addr] })
      | none => (none, s)

/-- The tail of `SlabAllocator.Allocate` from the free-space search on
(src/hybrid/slab.go lines 113-129), acting on the target slab `tIdx`. -/
def slabAllocFinish (s : SlabAllocator) (b : BuddyAllocator) (size tIdx : Nat) :
    Except AllocErr Nat × SlabAllocator × BuddyAllocator :=
  let sl := s.store.getD tIdx emptySlab
  match findFreeSpace sl size with
  | (none, sl') => (.error .noSpace, { s with store := s.store.set tIdx sl' }, b)
  | (some start, sl') =>
    if (alistGet sl'.allocated start).isSome then
      (.error .addressAlreadyAllocated, { s with store := s.store.set tIdx sl' }, b)
    else
      (.ok start,
        { s with
          store := s.store.set tIdx
            { sl' with
              allocated := (start, size) :: sl'.allocated
              used := sl'.used + size } },
        b)

/-- The middle of `SlabAllocator.Allocate` (src/hybrid/slab.go lines
89-111): pick the first cached slab with room, or grow the cache with a
fresh 1 MiB slab from buddy. -/
def slabAllocCore (s : SlabAllocator) (b : BuddyAllocator) (size : Nat) :
    Except AllocErr Nat × SlabAllocator × BuddyAllocator :=
  let cached := (alistGet s.cache size).getD []
  match cached.find? (fun i =>
      decide ((s.store.getD i emptySlab).used + size ≤ (s.store.getD i emptySlab).size)) with
  | some tIdx => slabAllocFinish s b size tIdx
  | none =>
    match buddyAllocate b SlabMaxSize with
    | (.error e, b') => (.error e, s, b')
    | (.ok start, b') =>
      let tIdx := s.store.length
      let s1 : SlabAllocator :=
        { s with
          store := s.store ++ [newSlab start SlabMaxSize true]
          slabs := s.slabs ++ [tIdx]
          cache := alistSet s.cache size (cached ++ [tIdx])
          counts := alistSet s.counts size ((alistGet s.counts size).getD 0 + 1) }
      slabAllocFinish s1 b' size tIdx

/-- `SlabAllocator.Allocate` (src/hybrid/slab.go lines 65-130).  When
`cache[size]` is missing or empty a fresh slab is created first (lines
71-87), then the common path runs. -/
def slabAllocate (s : SlabAllocator) (b : BuddyAllocator) (size : Nat) :
    Except AllocErr Nat × SlabAllocator × BuddyAllocator :=
  let cached := (alistGet s.cache size).getD []
  if cached.isEmpty then
    match buddyAllocate b SlabMaxSize with
    | (.error e, b') => (.error e, s, b')
    | (.ok start, b') =>
      let idx := s.store.length
      let s1 : SlabAllocator :=
        { s with
          store := s.store ++ [newSlab start SlabMaxSize true]
          slabs := s.slabs ++ [idx]
          cache := alistSet s.cache size [idx]
          counts := alistSet s.counts size 1 }
      slabAllocCore s1 b' size
  else slabAllocCore s b size

/-- `SlabAllocator.Free` (src/hybrid/slab.go lines 133-212), including the
fall-through to `buddy.Free` when no cached slab contains the address,
the alignment and bookkeeping checks, and the empty-slab return path
(cache removal, lines 188-203, followed by `mergeSlab`, lines 215-231).
Go's `offset % targetSize` panics when `targetSize == 0`
(`panicModZero`). -/
def slabFree (s : SlabAllocator) (b : BuddyAllocator) (start size : Nat) :
    Except AllocErr Unit × SlabAllocator × BuddyAllocator :=
  let cached := (alistGet s.cache size).getD []
  match cached.find? (fun i =>
      let sl := s.store.getD i emptySlab
      decide (start ≥ sl.start) && decide (start < sl.start + sl.size)) with
  | none =>
    match buddyFree b start with
    | (.error e, b') => (.error e, s, b')
    | (.ok _, b') => (.ok (), s, b')
  | some tIdx =>
    let sl := s.store.getD tIdx emptySlab
    if size = 0 then (.error .panicModZero, s, b)
    else if (start - sl.start) % size ≠ 0 then (.error .invalidAddress, s, b)
    else
      match alistGet sl.allocated start with
      | none => (.error .addressNotAllocated, s, b)
      | some asz =>
        if asz ≠ size then (.error .invalidAddress, s, b)
        else
          let sl1 : Slab :=
            { sl with
              used := sl.used - size
              allocated := alistErase sl.allocated start
              freeList := sl.freeList ++ [start] }
          let s1 : SlabAllocator := { s with store := s.store.set tIdx sl1 }
          if sl1.used = 0 && sl1.fromBuddy then
            let cached1 := (alistGet s1.cache size).getD []
            let s2 : SlabAllocator :=
              if cached1.contains tIdx then
                if cached1.length = 1 then
                  { s1 with
                    cache := alistErase s1.cache size
                    counts := alistErase s1.counts size }
                else
                  { s1 with
                    cache := alistSet s1.cache size (cached1.erase tIdx)
                    counts := alistSet s1.counts size
                      ((alistGet s1.counts size).getD 0 - 1) }
              else s1
            let s3 : SlabAllocator :=
              { s2 with
                store := s2.store.set tIdx { sl1 with freeList := [] }
                slabs := s2.slabs.erase tIdx }
            match buddyFree b sl1.start with
            | (.error e, b') => (.error e, s3, b')
            | (.ok _, b') => (.ok (), s3, b')
          else (.ok (), s1, b)

/-- The slab-allocator state `s1` of `SlabAllocator.Free`
(src/hybrid/slab.go lines 168-186): the cell is dropped from slab
`tIdx`, which stays live. -/
def slabFreeKeep (s : SlabAllocator) (tIdx start size : Nat) : SlabAllocator :=
  let sl := s.store.getD tIdx emptySlab
  { s with store := (s.store.set tIdx
      ⟨sl.start, sl.size, sl.used - size, alistErase sl.allocated start,
        sl.freeList ++ [start], sl.fromBuddy⟩) }

/-- The slab-allocator state `s3` of `SlabAllocator.Free`
(src/hybrid/slab.go lines 188-209): the emptied slab `tIdx` leaves
`slabs`, its arena slot keeps the cleared record, and `cache`/`counts`
drop it (removing the key when it was the only cached slab of that
size). -/
def slabFreeDrop (s : SlabAllocator) (tIdx start size : Nat) : SlabAllocator :=
  let sl := s.store.getD tIdx emptySlab
  let cached := (alistGet s.cache size).getD []
  { store := (s.store.set tIdx
      ⟨sl.start, sl.size, sl.used - size, alistErase sl.allocated start, [],
        sl.fromBuddy⟩)
    slabs := s.slabs.erase tIdx
    cache := if cached.length = 1 then alistErase s.cache size
      else alistSet s.cache size (cached.erase tIdx)
    counts := if cached.length = 1 then alistErase s.counts size
      else alistSet s.counts size ((alistGet s.counts size).getD 0 - 1) }

/-- `SlabAllocator.GetFreeSize` (src/hybrid/slab.go lines 246-256). -/
def slabFreeSize (s : SlabAllocator) : Nat :=
  (s.slabs.map (fun i =>
    let sl := s.store.getD i emptySlab
    sl.size - sl.used)).sum

/-- `SlabAllocator.GetUsedSize` (src/hybrid/slab.go lines 234-244). -/
def slabUsedSize (s : SlabAllocator) : Nat :=
  (s.slabs.map (fun i => (s.store.getD i emptySlab).used)).sum

/-! ### The dispatcher (src/hybrid/allocator.go) -/

structure Allocator where
  buddy : BuddyAllocator
  slab : SlabAllocator
deriving DecidableEq, Repr

/-- `NewAllocator` (src/hybrid/allocator.go lines 7-17). -/
def newAllocator : Allocator := ⟨newBuddyAllocator, newSlabAllocator⟩

/-- `Allocator.Allocate` (src/hybrid/allocator.go lines 20-46): sizes up
to `SlabMaxSize` go to slab (retrying via buddy only on `ErrSlabFull`,
which this slab implementation never returns), larger sizes go straight
to buddy; sizes above `MaxBlockSize` are rejected up front. -/
def allocatorAllocate (a : Allocator) (size : Nat) : Except AllocErr Nat × Allocator :=
  if size > MaxBlockSize then (.error .sizeTooLarge, a)
  else if size ≤ SlabMaxSize then
    match slabAllocate a.slab a.buddy size with
    | (.error .slabFull, s', b') =>
      match buddyAllocate b' size with
      | (res, b'') => (res, ⟨b'', s'⟩)
    | (res, s', b') => (res, ⟨b', s'⟩)
  else
    match buddyAllocate a.buddy size with
    | (res, b') => (res, ⟨b', a.slab⟩)

/-- `Allocator.Free` (src/hybrid/allocator.go lines 49-72): sizes up to
`SlabMaxSize` go to slab (retrying via buddy on `ErrSlabNotFound`, which
this slab implementation never returns — its own fall-through already
calls buddy), larger sizes go straight to buddy. -/
def allocatorFree (a : Allocator) (start size : Nat) :
    Except AllocErr Unit × Allocator :=
  if size ≤ SlabMaxSize then
    match slabFree a.slab a.buddy start size with
    | (.error .slabNotFound, s', b') =>
      match buddyFree b' start with
      | (res, b'') => (res, ⟨b'', s'⟩)
    | (res, s', b') => (res, ⟨b', s'⟩)
  else
    match buddyFree a.buddy start with
    | (res, b') => (res, ⟨b', a.slab⟩)

/-- `Allocator.GetUsedSize` (src/hybrid/allocator.go lines 75-79):
`buddy.GetUsedSize() - slab.GetFreeSize()` in `uint64`; on every state
the theorems consider, `slabFreeSize ≤ buddyUsedSize` (proved below), so
truncated `Nat` subtraction agrees with the Go value. -/
def allocatorUsedSize (a : Allocator) : Nat :=
  buddyUsedSize a.buddy - slabFreeSize a.slab

/-- `Allocator.GetTotalSize` (src/hybrid/allocator.go lines 81-86):
`base := 20; offset := MaxOrder - base; return 1 << (40 + uint(offset))`. -/
def allocatorTotalSize : Nat :=
  let base := 20
  let offset := MaxOrder - base
  1 <<< (40 + offset)

/-! ### Memory pool (src/mpool/mpool.go) -/

def KB : Nat := 1024

def MB : Nat := 1024 * 1024

/-- `PoolStats` (src/mpool/mpool.go lines 20-27). -/
structure PoolStats where
  totalAllocations : Nat
  poolHits : Nat
  poolMisses : Nat
  totalFrees : Nat
  poolFreeHits : Nat
  poolFreeMisses : Nat
deriving DecidableEq, Repr

/-- `MemoryPool` (src/mpool/mpool.go lines 30-43); the underlying
`Allocator` is passed alongside.  The slot sizes are randomized at
construction, so theorems quantify over pools whose parallel arrays have
equal lengths rather than over one concrete pool. -/
structure MemoryPool where
  smallBlocks : List Nat
  mediumBlocks : List Nat
  largeBlocks : List Nat
  smallSizes : List Nat
  mediumSizes : List Nat
  largeSizes : List Nat
  smallUsed : List Bool
  mediumUsed : List Bool
  largeUsed : List Bool
  stats : PoolStats
deriving DecidableEq, Repr

/-- The scan `for i := range blocks { if !used[i] && sizes[i] >= size … }`
of `MemoryPool.Allocate`: the first index accepted, scanning from `i`
with `fuel` indices left (`fuel` is the length of the blocks array at the
call site; the `getD` defaults make an out-of-range read reject the
slot, which never fires when the parallel arrays have equal lengths). -/
def poolScanFrom (used : List Bool) (sizes : List Nat) (size i fuel : Nat) : Option Nat :=
  match fuel with
  | 0 => none
  | fuel + 1 =>
    if used.getD i true = false ∧ sizes.getD i 0 ≥ size then some i
    else poolScanFrom used sizes size (i + 1) fuel

/-- `MemoryPool.Allocate` (src/mpool/mpool.go lines 96-136): bump the
total counter, classify the request (`≤ 64 KiB` / `≤ 1 MiB` / `≤ 4 MiB`),
first-fit scan the class arrays, and on a miss (or a size above 4 MiB,
which matches no class) delegate to the underlying `Allocator`. -/
def poolAllocate (p : MemoryPool) (a : Allocator) (size : Nat) :
    Except AllocErr Nat × MemoryPool × Allocator :=
  let p1 := { p with stats :=
    { p.stats with totalAllocations := p.stats.totalAllocations + 1 } }
  let miss :=
    let p2 := { p1 with stats := { p1.stats with poolMisses := p1.stats.poolMisses + 1 } }
    match allocatorAllocate a size with
    | (res, a') => (res, p2, a')
  if size ≤ 64 * KB then
    match poolScanFrom p1.smallUsed p1.smallSizes size 0 p1.smallBlocks.length with
    | some i =>
      (.ok (p1.smallBlocks.getD i 0),
        { p1 with
          smallUsed := p1.smallUsed.set i true
          stats := { p1.stats with poolHits := p1.stats.poolHits + 1 } },
        a)
    | none => miss
  else if size ≤ 1 * MB then
    match poolScanFrom p1.mediumUsed p1.mediumSizes size 0 p1.mediumBlocks.length with
    | some i =>
      (.ok (p1.mediumBlocks.getD i 0),
        { p1 with
          mediumUsed := p1.mediumUsed.set i true
          stats := { p1.stats with poolHits := p1.stats.poolHits + 1 } },
        a)
    | none => miss
  else if size ≤ 4 * MB then
    match poolScanFrom p1.largeUsed p1.largeSizes size 0 p1.largeBlocks.length with
    | some i =>
      (.ok (p1.largeBlocks.getD i 0),
        { p1 with
          largeUsed := p1.largeUsed.set i true
          stats := { p1.stats with poolHits := p1.stats.poolHits + 1 } },
        a)
    | none => miss
  else miss

/-- The slot predicate of the specification of `MemoryPool.Allocate`.
Modelled from the spec: "linear-scan for the first
`!in_use && size_i ≥ requested_size`". -/
def slotFits (used : List Bool) (sizes : List Nat) (size i : Nat) : Bool :=
  decide (used.getD i true = false) && decide (sizes.getD i 0 ≥ size)

/-- The index the spec's linear scan picks.  Modelled from the spec: the
FIRST qualifying slot index of the class's slot array. -/
def firstFit (used : List Bool) (sizes : List Nat) (size n : Nat) : Option Nat :=
  (List.range n).find? (slotFits used sizes size)

/-! ### Sequential runs with well-formed frees

A run starts from `NewAllocator` and executes `Allocate`/`Free` calls
sequentially.  A ghost list `live` records `(address, requested size)` of
every allocation that succeeded and has not been freed.  A `free` step is
only admitted (`stepOp` returns `some`) when it targets a live pair with
the originally requested size — exactly the sequences the specification's
invariants quantify over (no double free, sizes match).  Failed
allocations stay in the run with whatever state the code left behind. -/

inductive Op where
  | alloc (size : Nat)
  | free (start size : Nat)
deriving DecidableEq, Repr

structure Sys where
  alctr : Allocator
  live : List (Nat × Nat)
deriving DecidableEq, Repr

def stepOp (st : Sys) : Op → Option Sys
  | .alloc size =>
    match allocatorAllocate st.alctr size with
    | (.ok addr, a') => some ⟨a', (addr, size) :: st.live⟩
    | (.error _, a') => some ⟨a', st.live⟩
  | .free start size =>
    if (start, size) ∈ st.live then
      match allocatorFree st.alctr start size with
      | (.ok _, a') => some ⟨a', st.live.erase (start, size)⟩
      | (.error _, a') => some ⟨a', st.live⟩
    else none

def runOps : Sys → List Op → Option Sys
  | st, [] => some st
  | st, op :: ops =>
    match stepOp st op with
    | some st' => runOps st' ops
    | none => none

def initSys : Sys := ⟨newAllocator, []⟩

/-- The grain the allocator actually serves for a request: the exact cell
size for slab-routed requests (`size ≤ SlabMaxSize`), the block size
`BUDDY_UNIT << getOrder(size)` for buddy-routed ones. -/
def ceilRequestSize (size : Nat) : Nat :=
  if size ≤ SlabMaxSize then size else 2 ^ getOrder size * BuddyStartSize

/-- `[p.1, p.1 + p.2)` and `[q.1, q.1 + q.2)` do not overlap (one lies
entirely at or below the start of the other). -/
def Nonoverlap (p q : Nat × Nat) : Prop :=
  p.1 + p.2 ≤ q.1 ∨ q.1 + q.2 ≤ p.1

/-- A live allocation expanded to the interval the allocator serves. -/
def servedInterval (p : Nat × Nat) : Nat × Nat :=
  (p.1, ceilRequestSize p.2)

/-- Observable slab state: the slab values reachable from `slabs` and
`cache` (resolving arena indices), plus `counts`.  Two states with equal
observations are indistinguishable to the Go program (the arena also
holds slabs that were destroyed and are no longer referenced). -/
def slabObs (s : SlabAllocator) :
    List Slab × List (Nat × List Slab) × List (Nat × Nat) :=
  (s.slabs.map (fun i => s.store.getD i emptySlab),
   s.cache.map (fun p => (p.1, p.2.map (fun i => s.store.getD i emptySlab))),
   s.counts)

/-- Observable state of the whole allocator. -/
def allocObs (a : Allocator) :
    BuddyAllocator × (List Slab × List (Nat × List Slab) × List (Nat × Nat)) :=
  (a.buddy, slabObs a.slab)

/-! ### State invariants

The predicates below are the inductive invariant of a sequential run;
they are established for `NewAllocator` and preserved by every
`Allocate`/`Free` step, and they entail the spec's aliasing and
accounting properties. -/

def keysOf (m : List (Nat × α)) : List Nat := m.map (fun p => p.1)

def sizesSum (m : List (Nat × Nat)) : Nat := (m.map (fun p => p.2)).sum

def blockPair (b : Block) : Nat × Nat := (b.start, b.size)

def regionSizeC : Nat := MaxBlockSize / buddyRegionCount

/-- All free blocks of a region, over all orders, as (start, size) pairs. -/
def freePairs (r : BuddyRegion) : List (Nat × Nat) :=
  r.blocks.flatten.map blockPair

/-- Free and allocated extents of a region together. -/
def regionPairs (r : BuddyRegion) : List (Nat × Nat) :=
  freePairs r ++ r.allocated

/-- Well-formedness of a per-order free-list array over the address range
`[lo, hi)`: 21 orders, and a block listed at order `j` has size
`2 ^ j * BuddyStartSize` and lies inside the range. -/
structure BlocksWF (lo hi : Nat) (bl : List (List Block)) : Prop where
  blen : bl.length = MaxOrder + 1
  size_eq : ∀ j, ∀ b ∈ blocksAt bl j, b.size = 2 ^ j * BuddyStartSize
  lo_le : ∀ j, ∀ b ∈ blocksAt bl j, lo ≤ b.start
  hi_ge : ∀ j, ∀ b ∈ blocksAt bl j, b.start + b.size ≤ hi

/-- Well-formedness of one buddy region: free lists well-formed, tracked
allocations are power-of-two blocks inside the region with unique
starts, all free and allocated extents are pairwise non-overlapping, and
`used` is the sum of the allocated sizes. -/
structure RegionWF (r : BuddyRegion) : Prop where
  bwf : BlocksWF r.startAddr r.endAddr r.blocks
  alloc_size : ∀ p ∈ r.allocated, ∃ j, j ≤ MaxOrder ∧ p.2 = 2 ^ j * BuddyStartSize
  alloc_lo : ∀ p ∈ r.allocated, r.startAddr ≤ p.1
  alloc_hi : ∀ p ∈ r.allocated, p.1 + p.2 ≤ r.endAddr
  alloc_keys : (keysOf r.allocated).Nodup
  disj : (regionPairs r).Pairwise Nonoverlap
  used_eq : r.used = sizesSum r.allocated

/-- Well-formedness of the whole buddy allocator: 8 regions at their
construction-time bounds, each well-formed. -/
structure BuddyWF (b : BuddyAllocator) : Prop where
  rlen : b.regions.length = buddyRegionCount
  rbounds : ∀ i, i < buddyRegionCount →
    (b.regions.getD i emptyRegion).startAddr = i * regionSizeC ∧
    (b.regions.getD i emptyRegion).endAddr = (i + 1) * regionSizeC
  rwf : ∀ r ∈ b.regions, RegionWF r

/-- All tracked buddy allocations, over all regions. -/
def buddyAllocList (b : BuddyAllocator) : List (Nat × Nat) :=
  (b.regions.map (fun r => r.allocated)).flatten

def slabAt (s : SlabAllocator) (i : Nat) : Slab := s.store.getD i emptySlab

def cacheList (s : SlabAllocator) (sz : Nat) : List Nat :=
  (alistGet s.cache sz).getD []

/-- The modulus actually used by alignment facts: `sz` for positive cell
sizes, and the trivial modulus 1 for the degenerate size-0 cells (whose
`Free` path panics before using the modulus). -/
def modAlign (sz : Nat) : Nat := if sz = 0 then 1 else sz

/-- Well-formedness of the slab allocator: live arena indices are valid
and unique; the cache partitions the live slabs by serving size; every
cell of a slab cached under `sz` has size `sz` and is `sz`-aligned
relative to the slab base, as is every free-list entry; each slab is a
1 MiB buddy-sourced range whose cells lie inside it, have unique starts,
and are pairwise non-overlapping; `used` is the sum of the cell sizes
and never exceeds the slab size. -/
structure SlabWF (s : SlabAllocator) : Prop where
  idx_lt : ∀ i ∈ s.slabs, i < s.store.length
  idx_nodup : s.slabs.Nodup
  cache_keys : (keysOf s.cache).Nodup
  cache_sub : ∀ sz, ∀ i ∈ cacheList s sz, i ∈ s.slabs
  cache_nodup : ∀ sz, (cacheList s sz).Nodup
  cache_unique : ∀ sz sz' i, i ∈ cacheList s sz → i ∈ cacheList s sz' → sz = sz'
  cache_mem : ∀ i ∈ s.slabs, ∃ sz, i ∈ cacheList s sz
  cache_cell : ∀ sz, ∀ i ∈ cacheList s sz, ∀ p ∈ (slabAt s i).allocated, p.2 = sz
  cache_align : ∀ sz, ∀ i ∈ cacheList s sz, ∀ f ∈ (slabAt s i).freeList,
    (f - (slabAt s i).start) % modAlign sz = 0
  slab_size : ∀ i ∈ s.slabs, (slabAt s i).size = SlabMaxSize
  slab_from : ∀ i ∈ s.slabs, (slabAt s i).fromBuddy = true
  used_le : ∀ i ∈ s.slabs, (slabAt s i).used ≤ (slabAt s i).size
  used_eq : ∀ i ∈ s.slabs, (slabAt s i).used = sizesSum (slabAt s i).allocated
  cell_keys : ∀ i ∈ s.slabs, (keysOf (slabAt s i).allocated).Nodup
  cell_lo : ∀ i ∈ s.slabs, ∀ p ∈ (slabAt s i).allocated, (slabAt s i).start ≤ p.1
  cell_hi : ∀ i ∈ s.slabs, ∀ p ∈ (slabAt s i).allocated,
    p.1 + p.2 ≤ (slabAt s i).start + (slabAt s i).size
  cell_align : ∀ i ∈ s.slabs, ∀ p ∈ (slabAt s i).allocated,
    (p.1 - (slabAt s i).start) % modAlign p.2 = 0
  cell_disj : ∀ i ∈ s.slabs, (slabAt s i).allocated.Pairwise Nonoverlap
  cell_end_lt : ∀ i ∈ s.slabs, ∀ p ∈ (slabAt s i).allocated,
    p.1 < (slabAt s i).start + (slabAt s i).size
  freelist_lo : ∀ i ∈ s.slabs, ∀ f ∈ (slabAt s i).freeList, (slabAt s i).start ≤ f
  freelist_hi : ∀ i ∈ s.slabs, ∀ f ∈ (slabAt s i).freeList,
    f < (slabAt s i).start + (slabAt s i).size

/-- All live slab cells (address, requested size). -/
def slabCells (s : SlabAllocator) : List (Nat × Nat) :=
  (s.slabs.map (fun i => (slabAt s i).allocated)).flatten

/-- The buddy block actually handed out for a buddy-routed request. -/
def buddyGrain (p : Nat × Nat) : Nat × Nat :=
  (p.1, 2 ^ getOrder p.2 * BuddyStartSize)

/-- The 1 MiB buddy block backing slab `i`. -/
def slabBase (s : SlabAllocator) (i : Nat) : Nat × Nat :=
  ((slabAt s i).start, SlabMaxSize)

def liveSlabPart (live : List (Nat × Nat)) : List (Nat × Nat) :=
  live.filter (fun p => decide (p.2 ≤ SlabMaxSize))

def liveBuddyPart (live : List (Nat × Nat)) : List (Nat × Nat) :=
  live.filter (fun p => ! decide (p.2 ≤ SlabMaxSize))

/-- The inductive invariant of a sequential run: both layers are
well-formed, the tracked buddy allocations are exactly the slab bases
plus the buddy-routed live allocations (at their served sizes), and the
slab cells are exactly the slab-routed live allocations. -/
structure SysInv (st : Sys) : Prop where
  bwf : BuddyWF st.alctr.buddy
  swf : SlabWF st.alctr.slab
  ba_perm : (buddyAllocList st.alctr.buddy).Perm
    (st.alctr.slab.slabs.map (slabBase st.alctr.slab) ++
      (liveBuddyPart st.live).map buddyGrain)
  cells_perm : (slabCells st.alctr.slab).Perm (liveSlabPart st.live)

/-! ## Theorems -/

/-- C9: `GetTotalSize` returns `TOTAL = BUDDY_UNIT << MAX_ORDER`, which
with the default constants (`BUDDY_UNIT` = 1 MiB, `MAX_ORDER` = 20)
equals 1 TiB = 2^40 bytes; in particular the shift expression
`1 << (40 + uint(MaxOrder - 20))` of the source computes exactly this
value. -/
theorem C9_total_size :
    allocatorTotalSize = BuddyStartSize <<< MaxOrder ∧ allocatorTotalSize = 2 ^ 40 := by
  decide

/-- C2 is a code bug: `getOrder` takes `int(math.Log2 …)` — the FLOOR of
the base-2 logarithm — instead of the ceiling order the spec defines, so
a 3 MiB request is classified at order 1 and the buddy allocator hands
out (and accounts in `used`) a 2 MiB block, smaller than the request.
This theorem evaluates the code at the failing input 3 MiB = 3145728:
the computed order is 1 where the specified ceiling order is 2, the
fresh-allocator call succeeds, and the block accounted in `used` is
2 MiB < 3 MiB. -/
theorem C2_getOrder_floor_bug :
    getOrder (3 * 1024 * 1024) = 1 ∧
    ceilOrderSpec (3 * 1024 * 1024) = 2 ∧
    (buddyAllocate newBuddyAllocator (3 * 1024 * 1024)).1 = .ok 0 ∧
    buddyUsedSize (buddyAllocate newBuddyAllocator (3 * 1024 * 1024)).2 =
      2 ^ 1 * BuddyStartSize ∧
    2 ^ 1 * BuddyStartSize < 3 * 1024 * 1024 := by
  decide

/-- C6 as stated is false: immediately after construction the buddy
allocator does not hold a single free block of order `MAX_ORDER` at
address 0 — `NewBuddyAllocator` creates 8 regions and each starts with
its own free block of order 17.  There are 8 free blocks in total, and
the order-20 list of region 0 is empty. -/
theorem C6_counterexample :
    (newAllocator.buddy.regions.map (fun r => (r.blocks.map List.length).sum)).sum = 8 ∧
    ¬ (newAllocator.buddy.regions.map (fun r => (r.blocks.map List.length).sum)).sum = 1 ∧
    blocksAt (newAllocator.buddy.regions.getD 0 emptyRegion).blocks MaxOrder = [] := by
  decide

/-- C6, amended: immediately after construction the buddy allocator holds
8 regions; region `i` contains exactly one free block, at address
`i * 2^37` with order 17 (`getOrder(2^37) = 17`, size `2^37` covering the
region), every other order list is empty, nothing is allocated, `used`
is 0, and the slab allocator contains no slabs. -/
theorem C6_initial_state :
    newAllocator.buddy.regions.length = buddyRegionCount ∧
    (∀ i, i < buddyRegionCount →
      blocksAt (newAllocator.buddy.regions.getD i emptyRegion).blocks 17 =
        [⟨i * regionSizeC, regionSizeC⟩] ∧
      (∀ j, j < MaxOrder + 1 → j ≠ 17 →
        blocksAt (newAllocator.buddy.regions.getD i emptyRegion).blocks j = []) ∧
      (newAllocator.buddy.regions.getD i emptyRegion).allocated = [] ∧
      (newAllocator.buddy.regions.getD i emptyRegion).used = 0) ∧
    getOrder regionSizeC = 17 ∧
    newAllocator.slab = newSlabAllocator := by
  decide

/-! #### Small characterizations of the free-list scan -/

theorem findFrom_none_iff : ∀ fuel i (bl : List (List Block)),
    findFrom bl i fuel = none ↔ ∀ k, i ≤ k → k < i + fuel → blocksAt bl k = [] := by
  intro fuel
  induction fuel with
  | zero =>
    intro i bl
    simp only [findFrom]
    constructor
    · intro _ k h1 h2; omega
    · intro _; trivial
  | succ n ih =>
    intro i bl
    simp only [findFrom]
    cases h : (blocksAt bl i).head? with
    | some b =>
      constructor
      · intro hc; exact absurd hc (by simp)
      · intro hall
        have hi := hall i (le_refl i) (by omega)
        rw [hi] at h
        simp at h
    | none =>
      have hi : blocksAt bl i = [] := by
        cases hbl : blocksAt bl i
        · rfl
        · rw [hbl] at h; simp at h
      rw [ih]
      constructor
      · intro hall k h1 h2
        rcases Nat.eq_or_lt_of_le h1 with rfl | hlt
        · exact hi
        · exact hall k hlt (by omega)
      · intro hall k h1 h2
        exact hall k (by omega) (by omega)

theorem findFrom_some : ∀ fuel i (bl : List (List Block)) j b,
    findFrom bl i fuel = some (j, b) →
    i ≤ j ∧ j < i + fuel ∧ (blocksAt bl j).head? = some b := by
  intro fuel
  induction fuel with
  | zero => intro i bl j b h; simp [findFrom] at h
  | succ n ih =>
    intro i bl j b h
    simp only [findFrom] at h
    cases hh : (blocksAt bl i).head? with
    | some b' =>
      rw [hh] at h
      simp only [Option.some.injEq, Prod.mk.injEq] at h
      obtain ⟨rfl, rfl⟩ := h
      exact ⟨le_refl _, by omega, hh⟩
    | none =>
      rw [hh] at h
      obtain ⟨h1, h2, h3⟩ := ih (i + 1) bl j b h
      exact ⟨by omega, by omega, h3⟩

theorem mem_of_head?_eq_some {l : List α} {b : α} (h : l.head? = some b) : b ∈ l := by
  cases l with
  | nil => simp at h
  | cons x t => simp only [List.head?_cons, Option.some.injEq] at h; exact h ▸ List.mem_cons_self x t

theorem lookup_mem : ∀ {m : List (Nat × Nat)} {k v : Nat}, m.lookup k = some v → (k, v) ∈ m := by
  intro m
  induction m with
  | nil => intro k v h; simp [List.lookup] at h
  | cons p t ih =>
    intro k v h
    rcases p with ⟨a, b⟩
    by_cases hk : k = a
    · subst hk
      simp [List.lookup] at h
      simp [h]
    · simp [List.lookup, beq_false_of_ne hk] at h
      exact List.mem_cons_of_mem _ (ih h)

theorem blocksAt_mem {bl : List (List Block)} {j : Nat} (h : j < bl.length) :
    blocksAt bl j ∈ bl := by
  unfold blocksAt
  rw [List.getD_eq_getElem _ _ h]
  exact List.getElem_mem h

/-- A block sitting in a well-formed region's free list is not also
recorded in `allocated`. -/
theorem regionAllocate_not_panic {r : BuddyRegion} {size : Nat} (hwf : RegionWF r) :
    (regionAllocate r size).1 ≠ .error .panicDoubleAlloc := by
  unfold regionAllocate
  by_cases hord : getOrder size > MaxOrder
  · rw [if_pos hord]; simp
  · rw [if_neg hord]
    cases hfind : findFrom r.blocks (getOrder size) (MaxOrder + 1 - getOrder size) with
    | none => simp
    | some ib =>
      obtain ⟨i, b⟩ := ib
      obtain ⟨h1, h2, h3⟩ := findFrom_some _ _ _ _ _ hfind
      cases hlk : r.allocated.lookup b.start with
      | none => simp [hlk]
      | some v =>
        exfalso
        have hmem : (b.start, v) ∈ r.allocated := lookup_mem hlk
        have hb : b ∈ blocksAt r.blocks i := mem_of_head?_eq_some h3
        have hib : i < r.blocks.length := by
          rw [hwf.bwf.blen]; omega
        have hbf : blockPair b ∈ freePairs r := by
          unfold freePairs
          exact List.mem_map_of_mem _ (List.mem_flatten.2 ⟨_, blocksAt_mem hib, hb⟩)
        have hno : Nonoverlap (blockPair b) (b.start, v) := by
          have := (List.pairwise_append.1 hwf.disj).2.2
          exact this _ hbf _ hmem
        have hbsz : b.size = 2 ^ i * BuddyStartSize := hwf.bwf.size_eq i b hb
        obtain ⟨j, _, hvsz⟩ := hwf.alloc_size _ hmem
        have hvsz' : v = 2 ^ j * BuddyStartSize := hvsz
        have hU : 0 < BuddyStartSize := by decide
        have hbpos : 0 < b.size := by
          rw [hbsz]; exact Nat.mul_pos (Nat.pos_pow_of_pos i (by decide)) hU
        have hvpos : 0 < v := by
          rw [hvsz']; exact Nat.mul_pos (Nat.pos_pow_of_pos j (by decide)) hU
        unfold Nonoverlap blockPair at hno
        simp only at hno
        omega

theorem regionAllocate_sizeTooLarge {r : BuddyRegion} {size : Nat}
    (h : getOrder size > MaxOrder) :
    regionAllocate r size = (.error .sizeTooLarge, r) := by
  unfold regionAllocate
  rw [if_pos h]

theorem buddyAllocGo_error : ∀ (rs : List BuddyRegion) (size : Nat) (e : AllocErr)
    (rs' : List BuddyRegion), (∀ r ∈ rs, RegionWF r) →
    buddyAllocGo size rs = (.error e, rs') → e = .noSpace := by
  intro rs
  induction rs with
  | nil =>
    intro size e rs' _ h
    simp only [buddyAllocGo, Prod.mk.injEq] at h
    have := h.1
    simp only [Except.error.injEq] at this
    exact this.symm
  | cons r t ih =>
    intro size e rs' hwf h
    cases hra : regionAllocate r size with
    | mk res r' =>
      cases res with
      | ok addr => simp only [buddyAllocGo, hra] at h; simp at h
      | error e0 =>
        have hnp : e0 ≠ .panicDoubleAlloc := by
          intro hc
          exact regionAllocate_not_panic (hwf r (List.mem_cons_self r t))
            (by rw [hra, hc])
        simp only [buddyAllocGo, hra, if_neg hnp] at h
        cases hgo : buddyAllocGo size t with
        | mk res2 rs2 =>
          rw [hgo] at h
          simp only [Prod.mk.injEq] at h
          cases res2 with
          | ok _ => simp at h
          | error e2 =>
            have he2 : e2 = e := by
              have := h.1; simp only [Except.error.injEq] at this; exact this
            exact he2 ▸ ih size e2 rs2 (fun x hx => hwf x (List.mem_cons_of_mem r hx)) hgo

theorem regionAllocate_noSpace_iff {r : BuddyRegion} {size : Nat} (hwf : RegionWF r)
    (hord : getOrder size ≤ MaxOrder) :
    (regionAllocate r size).1 = .error .noSpace ↔
      ∀ k, getOrder size ≤ k → blocksAt r.blocks k = [] := by
  cases hfind : findFrom r.blocks (getOrder size) (MaxOrder + 1 - getOrder size) with
  | none =>
    have hlhs : (regionAllocate r size).1 = .error .noSpace := by
      unfold regionAllocate
      rw [if_neg (show ¬ getOrder size > MaxOrder by omega)]
      simp only [hfind]
    rw [hlhs]
    simp only [true_iff]
    intro k h1
    by_cases hk : k ≤ MaxOrder
    · exact (findFrom_none_iff _ _ _).1 hfind k h1 (by omega)
    · unfold blocksAt
      apply List.getD_eq_default
      rw [hwf.bwf.blen]
      omega
  | some ib =>
    obtain ⟨i, b⟩ := ib
    obtain ⟨h1, h2, h3⟩ := findFrom_some _ _ _ _ _ hfind
    have hne : blocksAt r.blocks i ≠ [] := by
      intro hc; rw [hc] at h3; simp at h3
    have hrhs : ¬ ∀ k, getOrder size ≤ k → blocksAt r.blocks k = [] := by
      intro hall; exact hne (hall i h1)
    have hlhs : (regionAllocate r size).1 ≠ .error .noSpace := by
      unfold regionAllocate
      rw [if_neg (show ¬ getOrder size > MaxOrder by omega)]
      simp only [hfind]
      split
      · simp
      · simp
    exact iff_of_false hlhs hrhs

/-- C7 as stated is false at the `BuddyAllocator.Allocate` level: the
region loop discards per-region errors and reports every failure as
`ErrNoSpaceAvailable`.  At 2 TiB = 2^41 the order is 21 > `MaxOrder`, the
region-level call fails with `SizeTooLarge`, yet the fresh allocator's
`Allocate` returns `NoSpace`. -/
theorem C7_counterexample :
    getOrder (2 ^ 41) = 21 ∧ 21 > MaxOrder ∧
    (regionAllocate (newBuddyAllocator.regions.getD 0 emptyRegion) (2 ^ 41)).1 =
      .error .sizeTooLarge ∧
    (buddyAllocate newBuddyAllocator (2 ^ 41)).1 = .error .noSpace ∧
    (buddyAllocate newBuddyAllocator (2 ^ 41)).1 ≠ .error .sizeTooLarge := by
  decide

/-- On the non-wrapping domain, the `uint64` rounding that `getOrder`
performs agrees with the plain `Nat` computation (no `% 2 ^ 64`
reduction), so `getOrder` is Go's value there. -/
theorem roundedSizeU64_no_wrap {size : Nat}
    (h : size + BuddyStartSize - 1 < 2 ^ 64) :
    roundedSizeU64 size =
      (size + BuddyStartSize - 1) / BuddyStartSize * BuddyStartSize := by
  unfold roundedSizeU64
  rw [Nat.mod_eq_of_lt h]

/-- C7, amended: for every size whose rounding does not wrap in `uint64`
(`size + BuddyStartSize - 1 < 2 ^ 64`), the region-level contract holds —
`BuddyRegion.allocate` fails with `SizeTooLarge` when the computed order
`k` exceeds `MAX_ORDER` (leaving the region unchanged), and for
`k ≤ MAX_ORDER` it fails with `NoSpace` exactly when no free block of
order ≥ k exists; but `BuddyAllocator.Allocate` maps every region
failure, including an over-large request, to the `NoSpace` error.  For
`uint64` sizes above `2 ^ 64 - BuddyStartSize` neither error is returned:
the rounded size wraps to 0 (last conjunct), `int(math.Log2(0))` is
negative, and `BuddyRegion.allocate` panics indexing `r.blocks` at a
negative order. -/
theorem C7_buddy_error_routing :
    (∀ r size, size + BuddyStartSize - 1 < 2 ^ 64 → getOrder size > MaxOrder →
      regionAllocate r size = (.error .sizeTooLarge, r)) ∧
    (∀ r size, size + BuddyStartSize - 1 < 2 ^ 64 → RegionWF r →
      getOrder size ≤ MaxOrder →
      ((regionAllocate r size).1 = .error .noSpace ↔
        ∀ k, getOrder size ≤ k → blocksAt r.blocks k = [])) ∧
    (∀ b size e b', size + BuddyStartSize - 1 < 2 ^ 64 →
      (∀ r ∈ b.regions, RegionWF r) →
      buddyAllocate b size = (.error e, b') → e = .noSpace) ∧
    (∀ size, size < 2 ^ 64 → 2 ^ 64 - BuddyStartSize < size →
      roundedSizeU64 size = 0) := by
  refine ⟨fun r size _ h => regionAllocate_sizeTooLarge h,
    fun r size _ hwf hord => regionAllocate_noSpace_iff hwf hord,
    fun b size e b' _ hwf h => ?_, fun size hU hW => ?_⟩
  · unfold buddyAllocate at h
    cases hgo : buddyAllocGo size b.regions with
    | mk res rs =>
      rw [hgo] at h
      simp only [Prod.mk.injEq] at h
      cases res with
      | ok _ => simp at h
      | error e2 =>
        have he2 : e2 = e := by
          have := h.1; simp only [Except.error.injEq] at this; exact this
        exact he2 ▸ buddyAllocGo_error _ _ _ _ hwf hgo
  · unfold roundedSizeU64
    have hB : BuddyStartSize = 1048576 := rfl
    have h64 : (2 : Nat) ^ 64 = 18446744073709551616 := by norm_num
    rw [h64] at hU
    rw [hB, h64] at hW ⊢
    omega

/-- A witness for the C7 theorem's hypotheses: the 2 TiB request does not
wrap the `uint64` rounding, its order 21 exceeds `MaxOrder`, and the
fresh region 0 rejects it with `SizeTooLarge` unchanged. -/
theorem C7_buddy_error_routing_witness :
    (2 ^ 41 + BuddyStartSize - 1 < 2 ^ 64 ∧ getOrder (2 ^ 41) > MaxOrder) ∧
    regionAllocate (newBuddyAllocator.regions.getD 0 emptyRegion) (2 ^ 41) =
      (.error .sizeTooLarge, newBuddyAllocator.regions.getD 0 emptyRegion) := by
  exact ⟨⟨by decide, by decide⟩, C7_buddy_error_routing.1 _ _ (by decide) (by decide)⟩

/-! #### Invalid frees (C10) -/

theorem freeRegionIndex_small (start : Nat) (h : start < 2 ^ 63) :
    freeRegionIndex start = some (min (start / regionSizeC) (buddyRegionCount - 1)) := by
  unfold freeRegionIndex
  dsimp only
  rw [if_pos h]
  have hdiv : (((MaxBlockSize : Nat) : Int) / ((buddyRegionCount : Nat) : Int)) =
      ((regionSizeC : Nat) : Int) := by decide
  rw [hdiv]
  have htd : Int.tdiv ((start : Nat) : Int) ((regionSizeC : Nat) : Int) =
      ((start / regionSizeC : Nat) : Int) := rfl
  rw [htd]
  by_cases hge : start / regionSizeC ≥ buddyRegionCount
  · rw [if_pos (by exact_mod_cast hge)]
    have hmin : min (start / regionSizeC) (buddyRegionCount - 1) = buddyRegionCount - 1 := by
      apply Nat.min_eq_right
      omega
    rw [hmin]
  · rw [if_neg (by exact_mod_cast hge)]
    rw [if_neg (not_lt.mpr (Int.natCast_nonneg _))]
    have hmin : min (start / regionSizeC) (buddyRegionCount - 1) = start / regionSizeC := by
      apply Nat.min_eq_left
      omega
    rw [hmin, Int.toNat_natCast]

theorem poolScanFrom_eq_find : ∀ fuel i (used : List Bool) (sizes : List Nat) (size : Nat),
    poolScanFrom used sizes size i fuel =
      (List.range' i fuel).find? (slotFits used sizes size) := by
  intro fuel
  induction fuel with
  | zero => intro i used sizes size; rfl
  | succ n ih =>
    intro i used sizes size
    rw [List.range'_succ]
    by_cases hfit : used.getD i true = false ∧ sizes.getD i 0 ≥ size
    · have hs : slotFits used sizes size i = true := by
        unfold slotFits
        rw [decide_eq_true hfit.1, decide_eq_true hfit.2]
        rfl
      rw [List.find?_cons_of_pos _ hs]
      simp only [poolScanFrom, if_pos hfit]
    · have hs : ¬ slotFits used sizes size i = true := by
        simp only [slotFits, Bool.and_eq_true, decide_eq_true_eq]
        exact fun hc => hfit hc
      rw [List.find?_cons_of_neg _ hs]
      simp only [poolScanFrom, if_neg hfit]
      exact ih (i + 1) used sizes size

theorem poolScan_eq_firstFit (used : List Bool) (sizes : List Nat) (size n : Nat) :
    poolScanFrom used sizes size 0 n = firstFit used sizes size n := by
  rw [poolScanFrom_eq_find]
  unfold firstFit
  rw [List.range_eq_range']

/-- C8: `MemoryPool.Allocate` classifies the request by size
(≤ 64 KiB / ≤ 1 MiB / ≤ 4 MiB), linear-scans the matching class's slot
arrays in index order for the first slot that is not in use and whose
recorded size is at least the request, marks it used, bumps the pool-hit
counter and returns its address; when no slot qualifies it bumps the
pool-miss counter and delegates to the underlying `Allocator`, returning
its result.  (`firstFit` is the spec-side "first qualifying index"
function.) -/
theorem C8_pool_first_fit (p : MemoryPool) (a : Allocator) (size : Nat) :
    (size ≤ 64 * KB →
      (∀ i, firstFit p.smallUsed p.smallSizes size p.smallBlocks.length = some i →
        poolAllocate p a size =
          (.ok (p.smallBlocks.getD i 0),
            { p with
              smallUsed := p.smallUsed.set i true
              stats := { p.stats with
                totalAllocations := p.stats.totalAllocations + 1
                poolHits := p.stats.poolHits + 1 } }, a)) ∧
      (firstFit p.smallUsed p.smallSizes size p.smallBlocks.length = none →
        poolAllocate p a size =
          ((allocatorAllocate a size).1,
            { p with stats := { p.stats with
                totalAllocations := p.stats.totalAllocations + 1
                poolMisses := p.stats.poolMisses + 1 } },
            (allocatorAllocate a size).2))) ∧
    (¬ size ≤ 64 * KB → size ≤ 1 * MB →
      (∀ i, firstFit p.mediumUsed p.mediumSizes size p.mediumBlocks.length = some i →
        poolAllocate p a size =
          (.ok (p.mediumBlocks.getD i 0),
            { p with
              mediumUsed := p.mediumUsed.set i true
              stats := { p.stats with
                totalAllocations := p.stats.totalAllocations + 1
                poolHits := p.stats.poolHits + 1 } }, a)) ∧
      (firstFit p.mediumUsed p.mediumSizes size p.mediumBlocks.length = none →
        poolAllocate p a size =
          ((allocatorAllocate a size).1,
            { p with stats := { p.stats with
                totalAllocations := p.stats.totalAllocations + 1
                poolMisses := p.stats.poolMisses + 1 } },
            (allocatorAllocate a size).2))) ∧
    (¬ size ≤ 1 * MB → size ≤ 4 * MB →
      (∀ i, firstFit p.largeUsed p.largeSizes size p.largeBlocks.length = some i →
        poolAllocate p a size =
          (.ok (p.largeBlocks.getD i 0),
            { p with
              largeUsed := p.largeUsed.set i true
              stats := { p.stats with
                totalAllocations := p.stats.totalAllocations + 1
                poolHits := p.stats.poolHits + 1 } }, a)) ∧
      (firstFit p.largeUsed p.largeSizes size p.largeBlocks.length = none →
        poolAllocate p a size =
          ((allocatorAllocate a size).1,
            { p with stats := { p.stats with
                totalAllocations := p.stats.totalAllocations + 1
                poolMisses := p.stats.poolMisses + 1 } },
            (allocatorAllocate a size).2))) := by
  refine ⟨fun hsz => ⟨fun i hff => ?_, fun hff => ?_⟩,
    fun h1 h2 => ⟨fun i hff => ?_, fun hff => ?_⟩,
    fun h1 h2 => ⟨fun i hff => ?_, fun hff => ?_⟩⟩
  · have hscan := (poolScan_eq_firstFit p.smallUsed p.smallSizes size
      p.smallBlocks.length).trans hff
    simp only [poolAllocate, if_pos hsz, hscan]
  · have hscan := (poolScan_eq_firstFit p.smallUsed p.smallSizes size
      p.smallBlocks.length).trans hff
    simp only [poolAllocate, if_pos hsz, hscan]
  · have hscan := (poolScan_eq_firstFit p.mediumUsed p.mediumSizes size
      p.mediumBlocks.length).trans hff
    simp only [poolAllocate, if_neg h1, if_pos h2, hscan]
  · have hscan := (poolScan_eq_firstFit p.mediumUsed p.mediumSizes size
      p.mediumBlocks.length).trans hff
    simp only [poolAllocate, if_neg h1, if_pos h2, hscan]
  · have hscan := (poolScan_eq_firstFit p.largeUsed p.largeSizes size
      p.largeBlocks.length).trans hff
    have hs1 : ¬ size ≤ 64 * KB := fun hc => h1 (le_trans hc (by decide))
    simp only [poolAllocate, if_neg hs1, if_neg h1, if_pos h2, hscan]
  · have hscan := (poolScan_eq_firstFit p.largeUsed p.largeSizes size
      p.largeBlocks.length).trans hff
    have hs1 : ¬ size ≤ 64 * KB := fun hc => h1 (le_trans hc (by decide))
    simp only [poolAllocate, if_neg hs1, if_neg h1, if_pos h2, hscan]

/-- Witness for C8 on a one-slot pool: a 4 KiB request hits the free
8 KiB slot at index 0 and returns its address with the hit counter
bumped. -/
theorem C8_pool_first_fit_witness :
    (4096 ≤ 64 * KB ∧ firstFit [false] [8192] 4096 1 = some 0) ∧
    poolAllocate ⟨[555], [], [], [8192], [], [], [false], [], [], ⟨0, 0, 0, 0, 0, 0⟩⟩
        newAllocator 4096 =
      (.ok 555, ⟨[555], [], [], [8192], [], [], [true], [], [], ⟨1, 1, 0, 0, 0, 0⟩⟩,
        newAllocator) := by
  refine ⟨⟨by decide, by decide⟩, ?_⟩
  exact ((C8_pool_first_fit
    ⟨[555], [], [], [8192], [], [], [false], [], [], ⟨0, 0, 0, 0, 0, 0⟩⟩
    newAllocator 4096).1 (by decide)).1 0 (by decide)

theorem nonoverlap_symm : ∀ {p q : Nat × Nat}, Nonoverlap p q → Nonoverlap q p := by
  intro p q h
  unfold Nonoverlap at h ⊢
  omega

theorem nonoverlap_symmetric : Symmetric Nonoverlap := fun _ _ h => nonoverlap_symm h

theorem nonoverlap_of_within {p q x : Nat × Nat} (h1 : q.1 ≤ p.1)
    (h2 : p.1 + p.2 ≤ q.1 + q.2) (h : Nonoverlap q x) : Nonoverlap p x := by
  unfold Nonoverlap at h ⊢
  omega

/-- Replacing one extent of a pairwise non-overlapping list by pieces
that lie inside it keeps the list pairwise non-overlapping. -/
theorem pairwise_replace_head {rest pieces : List (Nat × Nat)} {p : Nat × Nat}
    (hpw : (p :: rest).Pairwise Nonoverlap)
    (hpieces : pieces.Pairwise Nonoverlap)
    (hwithin : ∀ q ∈ pieces, p.1 ≤ q.1 ∧ q.1 + q.2 ≤ p.1 + p.2) :
    (pieces ++ rest).Pairwise Nonoverlap := by
  obtain ⟨hp, hrest⟩ := List.pairwise_cons.1 hpw
  rw [List.pairwise_append]
  exact ⟨hpieces, hrest, fun q hq y hy =>
    nonoverlap_of_within (hwithin q hq).1 (hwithin q hq).2 (hp y hy)⟩

theorem pairwise_of_perm {l l' : List (Nat × Nat)} (hperm : l.Perm l')
    (h : l.Pairwise Nonoverlap) : l'.Pairwise Nonoverlap :=
  (hperm.pairwise_iff (fun hab => nonoverlap_symm hab)).1 h

/-- Merging two adjacent extents of the same positive length: the merged
extent does not overlap anything the two halves did not overlap, as long
as extents are non-degenerate. -/
theorem nonoverlap_merge {a s : Nat} {y : Nat × Nat} (hy : 0 < y.2)
    (h1 : Nonoverlap (a, s) y) (h2 : Nonoverlap (a + s, s) y) :
    Nonoverlap (a, s + s) y := by
  unfold Nonoverlap at h1 h2 ⊢
  omega

theorem xor_pow_two : ∀ (b cs : Nat),
    cs ^^^ 2 ^ b = cs + 2 ^ b ∨ cs = (cs ^^^ 2 ^ b) + 2 ^ b := by
  intro b
  induction b with
  | zero =>
    intro cs
    have hcs := Nat.bit_decomp cs
    have h1 : (2 : Nat) ^ 0 = Nat.bit true 0 := rfl
    rw [← hcs, h1, Nat.xor_bit]
    cases hb : cs.bodd with
    | false =>
      left
      simp [Nat.bit_val]
    | true =>
      right
      simp [Nat.bit_val]
  | succ b ih =>
    intro cs
    have hcs := Nat.bit_decomp cs
    have h2 : (2 : Nat) ^ (b + 1) = Nat.bit false (2 ^ b) := by
      simp [Nat.bit_val, Nat.pow_succ, Nat.mul_comm]
    rw [← hcs, h2, Nat.xor_bit]
    have hpow : (2 : Nat) ^ (b + 1) = 2 * 2 ^ b := by
      rw [Nat.pow_succ, Nat.mul_comm]
    rcases ih cs.div2 with h | h
    · left
      cases hb : cs.bodd <;> simp [Nat.bit_val, h] <;> omega
    · right
      cases hb : cs.bodd <;> simp [Nat.bit_val] <;> omega

/-- Decomposing `flatten` around one updated index. -/
theorem flatten_set_decomp : ∀ (L : List (List α)) (i : Nat), i < L.length →
    ∀ (new : List α), ∃ pre post,
      L.flatten = pre ++ L.getD i [] ++ post ∧
      (L.set i new).flatten = pre ++ new ++ post := by
  intro L
  induction L with
  | nil => intro i h; simp at h
  | cons x t ih =>
    intro i h new
    cases i with
    | zero =>
      refine ⟨[], t.flatten, ?_, ?_⟩ <;> simp
    | succ n =>
      obtain ⟨pre, post, h1, h2⟩ := ih n (by simpa using h) new
      refine ⟨x ++ pre, post, ?_, ?_⟩
      · simp only [List.flatten_cons, List.getD_cons_succ, h1]
        simp [List.append_assoc]
      · simp only [List.set_cons_succ, List.flatten_cons, h2]
        simp [List.append_assoc]

/-- Mapping an index list whose function changes only at one index that
occurs exactly once. -/
theorem map_update_decomp {idxs : List Nat} {i : Nat} (hmem : i ∈ idxs)
    (hnd : idxs.Nodup) (f g : Nat → α) (hfg : ∀ j, j ≠ i → f j = g j) :
    ∃ pre post, idxs.map f = pre ++ f i :: post ∧ idxs.map g = pre ++ g i :: post := by
  induction idxs with
  | nil => simp at hmem
  | cons x t ih =>
    rcases List.mem_cons.1 hmem with rfl | hmt
    · refine ⟨[], t.map f, by simp, ?_⟩
      have hit : i ∉ t := (List.nodup_cons.1 hnd).1
      have hmap : t.map f = t.map g :=
        List.map_congr_left (fun j hj => hfg j (fun hc => hit (hc ▸ hj)))
      simp [hmap]
    · have hnd' : t.Nodup := (List.nodup_cons.1 hnd).2
      obtain ⟨pre, post, h1, h2⟩ := ih hmt hnd'
      have hxi : x ≠ i := fun hc => (List.nodup_cons.1 hnd).1 (hc ▸ hmt)
      refine ⟨f x :: pre, post, by simp [h1], ?_⟩
      simp only [List.map_cons, h2]
      rw [hfg x hxi]
      rfl

theorem getD_set_self {L : List α} {i : Nat} (h : i < L.length) (x d : α) :
    (L.set i x).getD i d = x := by
  rw [List.getD_eq_getElem?_getD, List.getElem?_set_self (by simpa using h)]
  rfl

theorem getD_set_other {L : List α} {i j : Nat} (h : i ≠ j) (x d : α) :
    (L.set i x).getD j d = L.getD j d := by
  rw [List.getD_eq_getElem?_getD, List.getElem?_set_ne h, ← List.getD_eq_getElem?_getD]

theorem sizesSum_perm {m m' : List (Nat × Nat)} (h : m.Perm m') :
    sizesSum m = sizesSum m' := by
  unfold sizesSum
  exact (h.map (fun p => p.2)).sum_eq

theorem sizesSum_cons (p : Nat × Nat) (m : List (Nat × Nat)) :
    sizesSum (p :: m) = p.2 + sizesSum m := by
  simp [sizesSum]

/-- `eraseP` removes exactly the unique element matching the predicate. -/
theorem eraseP_perm_of_unique : ∀ {l : List α} {p : α} (pred : α → Bool), p ∈ l →
    pred p = true → (∀ q ∈ l, pred q = true → q = p) →
    l.Perm (p :: l.eraseP pred) := by
  intro l
  induction l with
  | nil => intro p pred h; simp at h
  | cons x t ih =>
    intro p pred hmem hp huniq
    by_cases hx : pred x = true
    · have hxp : x = p := huniq x (List.mem_cons_self x t) hx
      subst hxp
      rw [List.eraseP_cons_of_pos hx]
    · have hmt : p ∈ t := by
        rcases List.mem_cons.1 hmem with rfl | hmt
        · exact absurd hp hx
        · exact hmt
      rw [List.eraseP_cons_of_neg hx]
      have hperm := ih pred hmt hp (fun q hq => huniq q (List.mem_cons_of_mem x hq))
      exact (hperm.cons x).trans (List.Perm.swap p x _)

theorem lookup_eq_none_iff : ∀ (m : List (Nat × Nat)) (k : Nat),
    m.lookup k = none ↔ k ∉ keysOf m := by
  intro m
  induction m with
  | nil => intro k; simp [List.lookup, keysOf]
  | cons p t ih =>
    intro k
    rcases p with ⟨a, b⟩
    by_cases hk : k = a
    · subst hk
      simp [List.lookup, keysOf]
    · simp only [List.lookup, beq_false_of_ne hk]
      rw [ih]
      simp [keysOf, hk]

theorem lookup_eq_some_of_mem : ∀ {m : List (Nat × Nat)} {k v : Nat},
    (keysOf m).Nodup → (k, v) ∈ m → m.lookup k = some v := by
  intro m
  induction m with
  | nil => intro k v _ h; simp at h
  | cons p t ih =>
    intro k v hnd hmem
    rcases p with ⟨a, b⟩
    rcases List.mem_cons.1 hmem with heq | hmt
    · obtain ⟨rfl, rfl⟩ := Prod.mk.injEq .. ▸ heq
      simp [List.lookup]
    · have hka : k ≠ a := by
        intro hc
        subst hc
        have : k ∈ keysOf t := by
          unfold keysOf
          exact List.mem_map_of_mem _ hmt
        exact (List.nodup_cons.1 (by simpa [keysOf] using hnd)).1 this
      simp only [List.lookup, beq_false_of_ne hka]
      exact ih (List.nodup_cons.1 (by simpa [keysOf] using hnd)).2 hmt

theorem alist_erase_perm {m : List (Nat × Nat)} {k v : Nat}
    (hnd : (keysOf m).Nodup) (hmem : (k, v) ∈ m) :
    m.Perm ((k, v) :: m.eraseP (fun p => p.1 == k)) := by
  apply eraseP_perm_of_unique _ hmem (by simp)
  intro q hq hqk
  rcases q with ⟨a, b⟩
  have ha : a = k := by simpa using hqk
  subst ha
  have h1 := lookup_eq_some_of_mem hnd hmem
  have h2 := lookup_eq_some_of_mem hnd hq
  rw [h1] at h2
  simp only [Option.some.injEq] at h2
  rw [h2]

/-! #### The split loop of `BuddyRegion.allocate` -/

theorem pow2U_pos (j : Nat) : 0 < 2 ^ j * BuddyStartSize :=
  Nat.mul_pos (Nat.pos_pow_of_pos j (by decide)) (by decide)

theorem splitLoop_length : ∀ fuel j bstart (bl : List (List Block)),
    (splitLoop bstart fuel j bl).length = bl.length := by
  intro fuel
  induction fuel with
  | zero => intro j bstart bl; rfl
  | succ n ih =>
    intro j bstart bl
    simp only [splitLoop]
    rw [ih]
    simp

theorem splitLoop_getD : ∀ fuel j bstart (bl : List (List Block)), fuel ≤ j + 1 →
    j < bl.length → ∀ k,
    blocksAt (splitLoop bstart fuel j bl) k =
      if j + 1 - fuel ≤ k ∧ k ≤ j then
        (⟨bstart + 2 ^ k * BuddyStartSize, 2 ^ k * BuddyStartSize⟩ : Block) :: blocksAt bl k
      else blocksAt bl k := by
  intro fuel
  induction fuel with
  | zero =>
    intro j bstart bl _ _ k
    rw [if_neg (by omega)]
    rfl
  | succ n ih =>
    intro j bstart bl hfuel hj k
    simp only [splitLoop]
    have hlen : j < (bl.set j
        ((⟨bstart + 2 ^ j * BuddyStartSize, 2 ^ j * BuddyStartSize⟩ : Block)
          :: blocksAt bl j)).length := by simpa using hj
    have ihk := ih (j - 1) bstart
      (bl.set j ((⟨bstart + 2 ^ j * BuddyStartSize, 2 ^ j * BuddyStartSize⟩ : Block)
        :: blocksAt bl j)) (by omega) (by simp; omega) k
    rw [ihk]
    by_cases hkj : k = j
    · subst hkj
      by_cases hn0 : n = 0
      · subst hn0
        rw [if_neg (by omega), if_pos (by omega)]
        unfold blocksAt
        rw [getD_set_self hj]
      · rw [if_neg (by omega), if_pos (by omega)]
        unfold blocksAt
        rw [getD_set_self hj]
    · have hbs : blocksAt (bl.set j
          ((⟨bstart + 2 ^ j * BuddyStartSize, 2 ^ j * BuddyStartSize⟩ : Block)
            :: blocksAt bl j)) k = blocksAt bl k := by
        unfold blocksAt
        rw [getD_set_other (fun hc => hkj hc.symm)]
      rw [hbs]
      by_cases hcond : j + 1 - (n + 1) ≤ k ∧ k ≤ j
      · rw [if_pos (by omega), if_pos hcond]
      · rw [if_neg (by omega), if_neg hcond]

theorem splitLoop_flatten_perm : ∀ fuel j bstart (bl : List (List Block)),
    fuel ≤ j + 1 → j < bl.length →
    (splitLoop bstart fuel j bl).flatten.Perm
      (((List.range' (j + 1 - fuel) fuel).map
        (fun k => (⟨bstart + 2 ^ k * BuddyStartSize, 2 ^ k * BuddyStartSize⟩ : Block)))
        ++ bl.flatten) := by
  intro fuel
  induction fuel with
  | zero =>
    intro j bstart bl _ _
    simp [splitLoop]
  | succ n ih =>
    intro j bstart bl hfuel hj
    simp only [splitLoop]
    have hstep := ih (j - 1) bstart
      (bl.set j ((⟨bstart + 2 ^ j * BuddyStartSize, 2 ^ j * BuddyStartSize⟩ : Block)
        :: blocksAt bl j)) (by omega) (by simp; omega)
    obtain ⟨pre, post, h1, h2⟩ := flatten_set_decomp bl j hj
      ((⟨bstart + 2 ^ j * BuddyStartSize, 2 ^ j * BuddyStartSize⟩ : Block) :: blocksAt bl j)
    have hset : (bl.set j ((⟨bstart + 2 ^ j * BuddyStartSize, 2 ^ j * BuddyStartSize⟩ : Block)
        :: blocksAt bl j)).flatten.Perm
        ((⟨bstart + 2 ^ j * BuddyStartSize, 2 ^ j * BuddyStartSize⟩ : Block) :: bl.flatten) := by
      rw [h2, h1]
      unfold blocksAt
      have e1 : pre ++ ((⟨bstart + 2 ^ j * BuddyStartSize, 2 ^ j * BuddyStartSize⟩ : Block)
            :: bl.getD j []) ++ post =
          pre ++ (⟨bstart + 2 ^ j * BuddyStartSize, 2 ^ j * BuddyStartSize⟩ : Block)
            :: (bl.getD j [] ++ post) := by
        simp
      have e2 : pre ++ bl.getD j [] ++ post = pre ++ (bl.getD j [] ++ post) := by
        simp
      rw [e1, e2]
      exact List.perm_middle
    refine (hstep.trans ?_)
    refine (List.Perm.append_left _ hset).trans ?_
    by_cases hj0 : j = 0
    · subst hj0
      have hn0 : n = 0 := by omega
      subst hn0
      simp
    · have hrange : List.range' (j + 1 - (n + 1)) (n + 1) =
          List.range' (j - 1 + 1 - n) n ++ [j] := by
        rw [List.range'_concat]
        have hx : j - 1 + 1 - n = j + 1 - (n + 1) := by omega
        have hy : j + 1 - (n + 1) + 1 * n = j := by omega
        rw [hy, ← hx]
      rw [hrange, List.map_append]
      simp only [List.map_cons, List.map_nil]
      rw [List.append_assoc]
      simp

theorem pairwise_nonoverlap_splits (bstart : Nat) : ∀ n s,
    (((List.range' s n).map
      (fun k => (⟨bstart + 2 ^ k * BuddyStartSize, 2 ^ k * BuddyStartSize⟩ : Block))).map
        blockPair).Pairwise Nonoverlap := by
  intro n
  induction n with
  | zero => intro s; simp
  | succ m ih =>
    intro s
    rw [List.range'_succ]
    simp only [List.map_cons]
    rw [List.pairwise_cons]
    constructor
    · intro q hq
      rw [List.map_map] at hq
      obtain ⟨k, hk, rfl⟩ := List.mem_map.1 hq
      have hks : s + 1 ≤ k := (List.mem_range'_1.1 hk).1
      have hpow : 2 ^ s * BuddyStartSize + 2 ^ s * BuddyStartSize ≤ 2 ^ k * BuddyStartSize := by
        have h2 : (2 : Nat) ^ (s + 1) ≤ 2 ^ k := Nat.pow_le_pow_right (by decide) hks
        rw [Nat.pow_succ] at h2
        nlinarith [pow2U_pos s, pow2U_pos k]
      refine Or.inl ?_
      simp only [Function.comp, blockPair]
      omega
    · exact ih (s + 1)

/-- What a successful `BuddyRegion.allocate` does to a well-formed
region: it stays well-formed, the returned address is recorded in
`allocated` with the block size `2 ^ getOrder size * BuddyStartSize`,
`used` grows by that size, the region bounds are untouched, the block
lies inside the region, and the address was not previously allocated. -/
theorem regionAllocate_ok {r : BuddyRegion} {size addr : Nat} {r' : BuddyRegion}
    (hwf : RegionWF r) (h : regionAllocate r size = (.ok addr, r')) :
    RegionWF r' ∧
    r'.allocated = (addr, 2 ^ getOrder size * BuddyStartSize) :: r.allocated ∧
    r'.used = r.used + 2 ^ getOrder size * BuddyStartSize ∧
    r'.startAddr = r.startAddr ∧ r'.endAddr = r.endAddr ∧
    r.startAddr ≤ addr ∧ addr + 2 ^ getOrder size * BuddyStartSize ≤ r.endAddr ∧
    r.allocated.lookup addr = none := by
  have hord : ¬ getOrder size > MaxOrder := by
    intro hc
    rw [regionAllocate_sizeTooLarge hc] at h
    simp at h
  cases hfind : findFrom r.blocks (getOrder size) (MaxOrder + 1 - getOrder size) with
  | none => simp only [regionAllocate, if_neg hord, hfind] at h; simp at h
  | some ib =>
    obtain ⟨i, b⟩ := ib
    obtain ⟨hio, hiM, hhead⟩ := findFrom_some _ _ _ _ _ hfind
    cases hlk : (r.allocated.lookup b.start).isSome with
    | true => simp only [regionAllocate, if_neg hord, hfind, hlk] at h; simp at h
    | false =>
      simp only [regionAllocate, if_neg hord, hfind, hlk] at h
      simp only [Bool.false_eq_true, if_false, Prod.mk.injEq, Except.ok.injEq] at h
      obtain ⟨haddr, hr'⟩ := h
      subst haddr
      subst hr'
      have hilen : i < r.blocks.length := by rw [hwf.bwf.blen]; omega
      have hcons : blocksAt r.blocks i = b :: (blocksAt r.blocks i).tail := by
        cases hx : blocksAt r.blocks i with
        | nil => rw [hx] at hhead; simp at hhead
        | cons y t =>
          rw [hx] at hhead
          simp only [List.head?_cons, Option.some.injEq] at hhead
          rw [hhead]
          simp
      have hbmem : b ∈ blocksAt r.blocks i := by
        rw [hcons]; exact List.mem_cons_self _ _
      have hbsz : b.size = 2 ^ i * BuddyStartSize := hwf.bwf.size_eq i b hbmem
      have hb_lo : r.startAddr ≤ b.start := hwf.bwf.lo_le i b hbmem
      have hb_hi : b.start + b.size ≤ r.endAddr := hwf.bwf.hi_ge i b hbmem
      have hpmono : 2 ^ getOrder size * BuddyStartSize ≤ 2 ^ i * BuddyStartSize :=
        Nat.mul_le_mul_right _ (Nat.pow_le_pow_right (by decide) hio)
      have hfs : (if i > getOrder size then 2 ^ getOrder size * BuddyStartSize else b.size) =
          2 ^ getOrder size * BuddyStartSize := by
        by_cases hgt : i > getOrder size
        · rw [if_pos hgt]
        · rw [if_neg hgt]
          have hie : i = getOrder size := by omega
          rw [hbsz, hie]
      have hlknone : r.allocated.lookup b.start = none := by
        cases hx : r.allocated.lookup b.start with
        | none => rfl
        | some v => rw [hx] at hlk; simp at hlk
      have hbl1len : (r.blocks.set i (blocksAt r.blocks i).tail).length = r.blocks.length := by
        simp
      -- flatten permutations
      have hperm1 : r.blocks.flatten.Perm
          (b :: (r.blocks.set i (blocksAt r.blocks i).tail).flatten) := by
        obtain ⟨pre, post, h1, h2⟩ :=
          flatten_set_decomp r.blocks i hilen (blocksAt r.blocks i).tail
        rw [h1, h2]
        have e0 : r.blocks.getD i [] = b :: (blocksAt r.blocks i).tail := hcons
        rw [e0]
        have e1 : pre ++ (b :: (blocksAt r.blocks i).tail) ++ post =
            pre ++ b :: ((blocksAt r.blocks i).tail ++ post) := by simp
        have e2 : pre ++ (blocksAt r.blocks i).tail ++ post =
            pre ++ ((blocksAt r.blocks i).tail ++ post) := by simp
        rw [e1, e2]
        exact List.perm_middle
      have hperm2 := splitLoop_flatten_perm (i - getOrder size) (i - 1) b.start
        (r.blocks.set i (blocksAt r.blocks i).tail) (by omega) (by rw [hbl1len]; omega)
      -- region pairs of the old state, reorganized
      have hpermold : (regionPairs r).Perm
          ((b.start, b.size) ::
            ((r.blocks.set i (blocksAt r.blocks i).tail).flatten.map blockPair ++
              r.allocated)) := by
        unfold regionPairs freePairs
        have hm := hperm1.map blockPair
        simp only [List.map_cons] at hm
        exact hm.append_right r.allocated
      have hpw := pairwise_of_perm hpermold hwf.disj
      -- the replacement pieces
      have hpieces : (((List.range' (i - 1 + 1 - (i - getOrder size)) (i - getOrder size)).map
            (fun k => (⟨b.start + 2 ^ k * BuddyStartSize, 2 ^ k * BuddyStartSize⟩ : Block))).map
              blockPair ++
            [(b.start, 2 ^ getOrder size * BuddyStartSize)]).Pairwise Nonoverlap := by
        rw [List.pairwise_append]
        refine ⟨pairwise_nonoverlap_splits b.start _ _, by simp, ?_⟩
        intro x hx y hy
        simp only [List.mem_singleton] at hy
        subst hy
        rw [List.map_map] at hx
        obtain ⟨k, hk, rfl⟩ := List.mem_map.1 hx
        have hkb := List.mem_range'_1.1 hk
        have hgk : getOrder size ≤ k := by omega
        refine Or.inr ?_
        simp only [Function.comp, blockPair]
        have : 2 ^ getOrder size * BuddyStartSize ≤ 2 ^ k * BuddyStartSize :=
          Nat.mul_le_mul_right _ (Nat.pow_le_pow_right (by decide) hgk)
        omega
      have hwithin : ∀ q ∈ (((List.range' (i - 1 + 1 - (i - getOrder size))
            (i - getOrder size)).map
            (fun k => (⟨b.start + 2 ^ k * BuddyStartSize, 2 ^ k * BuddyStartSize⟩ : Block))).map
              blockPair ++
            [(b.start, 2 ^ getOrder size * BuddyStartSize)]),
          (b.start, b.size).1 ≤ q.1 ∧ q.1 + q.2 ≤ (b.start, b.size).1 + (b.start, b.size).2 := by
        intro q hq
        rcases List.mem_append.1 hq with hq | hq
        · rw [List.map_map] at hq
          obtain ⟨k, hk, rfl⟩ := List.mem_map.1 hq
          have hkb := List.mem_range'_1.1 hk
          have hki : k + 1 ≤ i := by omega
          have h2k : 2 ^ k * BuddyStartSize + 2 ^ k * BuddyStartSize ≤ 2 ^ i * BuddyStartSize := by
            have h2 : (2 : Nat) ^ (k + 1) ≤ 2 ^ i := Nat.pow_le_pow_right (by decide) hki
            rw [Nat.pow_succ] at h2
            nlinarith [pow2U_pos k, pow2U_pos i]
          simp only [Function.comp, blockPair]
          constructor
          · omega
          · rw [hbsz]; omega
        · simp only [List.mem_singleton] at hq
          subst hq
          simp only
          rw [hbsz]
          omega
      have hrepl := pairwise_replace_head hpw hpieces hwithin
      -- permutation to the new region pairs
      have hpermnew : ((((List.range' (i - 1 + 1 - (i - getOrder size)) (i - getOrder size)).map
            (fun k => (⟨b.start + 2 ^ k * BuddyStartSize, 2 ^ k * BuddyStartSize⟩ : Block))).map
              blockPair ++
            [(b.start, 2 ^ getOrder size * BuddyStartSize)]) ++
            ((r.blocks.set i (blocksAt r.blocks i).tail).flatten.map blockPair ++
              r.allocated)).Perm
          ((splitLoop b.start (i - getOrder size) (i - 1)
              (r.blocks.set i (blocksAt r.blocks i).tail)).flatten.map blockPair ++
            ((b.start, 2 ^ getOrder size * BuddyStartSize) :: r.allocated)) := by
        have hm2 := hperm2.map blockPair
        rw [List.map_append] at hm2
        refine List.Perm.trans ?_ ((hm2.symm).append_right _)
        rw [List.append_assoc, List.append_assoc]
        refine List.Perm.append_left _ ?_
        have : ([(b.start, 2 ^ getOrder size * BuddyStartSize)] ++
            ((r.blocks.set i (blocksAt r.blocks i).tail).flatten.map blockPair ++
              r.allocated)) =
            (b.start, 2 ^ getOrder size * BuddyStartSize) ::
              ((r.blocks.set i (blocksAt r.blocks i).tail).flatten.map blockPair ++
                r.allocated) := rfl
        rw [this]
        exact List.perm_middle.symm
      have hdisj' := pairwise_of_perm hpermnew hrepl
      -- well-formedness of the new free lists
      have hchar := fun k => splitLoop_getD (i - getOrder size) (i - 1) b.start
        (r.blocks.set i (blocksAt r.blocks i).tail) (by omega) (by rw [hbl1len]; omega) k
      have hblocksWF : BlocksWF r.startAddr r.endAddr
          (splitLoop b.start (i - getOrder size) (i - 1)
            (r.blocks.set i (blocksAt r.blocks i).tail)) := by
        refine ⟨?_, ?_, ?_, ?_⟩
        · rw [splitLoop_length, hbl1len, hwf.bwf.blen]
        · intro k blk hmem
          rw [hchar k] at hmem
          by_cases hc : i - 1 + 1 - (i - getOrder size) ≤ k ∧ k ≤ i - 1
          · rw [if_pos hc] at hmem
            rcases List.mem_cons.1 hmem with rfl | hmem
            · rfl
            · by_cases hki : k = i
              · subst hki
                unfold blocksAt at hmem
                rw [getD_set_self hilen] at hmem
                exact hwf.bwf.size_eq k blk (by rw [hcons]; exact List.mem_cons_of_mem _ hmem)
              · unfold blocksAt at hmem
                rw [getD_set_other (fun hc2 => hki hc2.symm)] at hmem
                exact hwf.bwf.size_eq k blk hmem
          · rw [if_neg hc] at hmem
            by_cases hki : k = i
            · subst hki
              unfold blocksAt at hmem
              rw [getD_set_self hilen] at hmem
              exact hwf.bwf.size_eq k blk (by rw [hcons]; exact List.mem_cons_of_mem _ hmem)
            · unfold blocksAt at hmem
              rw [getD_set_other (fun hc2 => hki hc2.symm)] at hmem
              exact hwf.bwf.size_eq k blk hmem
        · intro k blk hmem
          rw [hchar k] at hmem
          by_cases hc : i - 1 + 1 - (i - getOrder size) ≤ k ∧ k ≤ i - 1
          · rw [if_pos hc] at hmem
            rcases List.mem_cons.1 hmem with rfl | hmem
            · simp only
              omega
            · by_cases hki : k = i
              · subst hki
                unfold blocksAt at hmem
                rw [getD_set_self hilen] at hmem
                exact hwf.bwf.lo_le k blk (by rw [hcons]; exact List.mem_cons_of_mem _ hmem)
              · unfold blocksAt at hmem
                rw [getD_set_other (fun hc2 => hki hc2.symm)] at hmem
                exact hwf.bwf.lo_le k blk hmem
          · rw [if_neg hc] at hmem
            by_cases hki : k = i
            · subst hki
              unfold blocksAt at hmem
              rw [getD_set_self hilen] at hmem
              exact hwf.bwf.lo_le k blk (by rw [hcons]; exact List.mem_cons_of_mem _ hmem)
            · unfold blocksAt at hmem
              rw [getD_set_other (fun hc2 => hki hc2.symm)] at hmem
              exact hwf.bwf.lo_le k blk hmem
        · intro k blk hmem
          rw [hchar k] at hmem
          by_cases hc : i - 1 + 1 - (i - getOrder size) ≤ k ∧ k ≤ i - 1
          · rw [if_pos hc] at hmem
            rcases List.mem_cons.1 hmem with rfl | hmem
            · simp only
              have hki : k + 1 ≤ i := by omega
              have h2k : 2 ^ k * BuddyStartSize + 2 ^ k * BuddyStartSize ≤
                  2 ^ i * BuddyStartSize := by
                have h2 : (2 : Nat) ^ (k + 1) ≤ 2 ^ i := Nat.pow_le_pow_right (by decide) hki
                rw [Nat.pow_succ] at h2
                nlinarith [pow2U_pos k, pow2U_pos i]
              rw [hbsz] at hb_hi
              omega
            · by_cases hki : k = i
              · subst hki
                unfold blocksAt at hmem
                rw [getD_set_self hilen] at hmem
                exact hwf.bwf.hi_ge k blk (by rw [hcons]; exact List.mem_cons_of_mem _ hmem)
              · unfold blocksAt at hmem
                rw [getD_set_other (fun hc2 => hki hc2.symm)] at hmem
                exact hwf.bwf.hi_ge k blk hmem
          · rw [if_neg hc] at hmem
            by_cases hki : k = i
            · subst hki
              unfold blocksAt at hmem
              rw [getD_set_self hilen] at hmem
              exact hwf.bwf.hi_ge k blk (by rw [hcons]; exact List.mem_cons_of_mem _ hmem)
            · unfold blocksAt at hmem
              rw [getD_set_other (fun hc2 => hki hc2.symm)] at hmem
              exact hwf.bwf.hi_ge k blk hmem
      -- assemble
      refine ⟨⟨hblocksWF, ?_, ?_, ?_, ?_, ?_, ?_⟩, by simp [hfs], by simp [hfs], rfl, rfl,
        hb_lo, by rw [hbsz] at hb_hi; omega, hlknone⟩
      · intro p hp
        simp only [hfs] at hp
        rcases List.mem_cons.1 hp with rfl | hp
        · exact ⟨getOrder size, by omega, rfl⟩
        · exact hwf.alloc_size p hp
      · intro p hp
        simp only [hfs] at hp
        rcases List.mem_cons.1 hp with rfl | hp
        · exact hb_lo
        · exact hwf.alloc_lo p hp
      · intro p hp
        simp only [hfs] at hp
        rcases List.mem_cons.1 hp with rfl | hp
        · simp only
          rw [hbsz] at hb_hi
          omega
        · exact hwf.alloc_hi p hp
      · simp only [hfs, keysOf, List.map_cons]
        rw [List.nodup_cons]
        refine ⟨?_, hwf.alloc_keys⟩
        intro hc
        rw [lookup_eq_none_iff] at hlknone
        exact hlknone (by simpa [keysOf] using hc)
      · unfold regionPairs freePairs
        simp only [hfs]
        exact hdisj'
      · simp only [hfs, sizesSum_cons]
        rw [hwf.used_eq]
        omega

/-! #### The merge loop of `BuddyRegion.mergeBlockLocked` -/

theorem perm_middle_assoc {pre post l : List α} {a : α} :
    (pre ++ (a :: l) ++ post).Perm (a :: (pre ++ l ++ post)) := by
  have e1 : pre ++ (a :: l) ++ post = pre ++ a :: (l ++ post) := by simp
  have e2 : pre ++ l ++ post = pre ++ (l ++ post) := by simp
  rw [e1, e2]
  exact List.perm_middle

theorem log2floor_eq_log2 : ∀ fuel n, n ≤ fuel → log2floor fuel n = Nat.log2 n := by
  intro fuel
  induction fuel with
  | zero =>
    intro n hn
    interval_cases n
    rw [Nat.log2]
    simp [log2floor]
  | succ f ih =>
    intro n hn
    rw [Nat.log2]
    simp only [log2floor]
    by_cases h2 : n ≥ 2
    · rw [if_pos h2, if_pos h2, ih (n / 2) (by omega)]
    · rw [if_neg h2, if_neg h2]

theorem getOrder_pow_unit (j : Nat) : getOrder (2 ^ j * BuddyStartSize) = j := by
  unfold getOrder
  have hU : 0 < BuddyStartSize := by decide
  have hge : ¬ 2 ^ j * BuddyStartSize < BuddyStartSize := by
    have : 1 * BuddyStartSize ≤ 2 ^ j * BuddyStartSize :=
      Nat.mul_le_mul_right _ (Nat.one_le_two_pow)
    omega
  rw [if_neg hge]
  have hm : (2 ^ j * BuddyStartSize + BuddyStartSize - 1) / BuddyStartSize = 2 ^ j := by
    have hB : BuddyStartSize = 1048576 := by decide
    rw [hB]
    have h1 : 2 ^ j * 1048576 + 1048576 - 1 = 1048575 + 1048576 * 2 ^ j := by omega
    rw [h1, Nat.add_mul_div_left _ _ (by omega : 0 < 1048576),
      Nat.div_eq_of_lt (by omega)]
    omega
  rw [hm]
  rw [log2floor_eq_log2 _ _ (le_refl _), Nat.log2_eq_log_two]
  exact Nat.log_pow (by decide) j

theorem blocksWF_flatten_size {lo hi : Nat} {bl : List (List Block)}
    (hwf : BlocksWF lo hi bl) :
    ∀ blk ∈ bl.flatten, (∃ j, j ≤ MaxOrder ∧ blk.size = 2 ^ j * BuddyStartSize) ∧
      lo ≤ blk.start ∧ blk.start + blk.size ≤ hi := by
  intro blk hmem
  rw [List.mem_flatten] at hmem
  obtain ⟨l, hl, hblk⟩ := hmem
  obtain ⟨j, hj, hget⟩ := List.mem_iff_getElem.1 hl
  have hbj : l = blocksAt bl j := by
    unfold blocksAt
    rw [List.getD_eq_getElem _ _ hj, hget]
  subst hbj
  have hjM : j ≤ MaxOrder := by
    have := hwf.blen
    omega
  exact ⟨⟨j, hjM, hwf.size_eq j blk hblk⟩, hwf.lo_le j blk hblk, hwf.hi_ge j blk hblk⟩

theorem mergeLoop_spec {lo hi : Nat} : ∀ fuel order cs (bl : List (List Block))
    (rest : List (Nat × Nat)),
    fuel = MaxOrder + 1 - order → order ≤ MaxOrder →
    BlocksWF lo hi bl →
    lo ≤ cs → cs + 2 ^ order * BuddyStartSize ≤ hi →
    (((cs, 2 ^ order * BuddyStartSize) ::
      (bl.flatten.map blockPair ++ rest)).Pairwise Nonoverlap) →
    (∀ p ∈ rest, 0 < p.2) →
    BlocksWF lo hi (mergeLoop fuel cs order bl) ∧
    (((mergeLoop fuel cs order bl).flatten.map blockPair ++ rest).Pairwise Nonoverlap) := by
  intro fuel
  induction fuel with
  | zero =>
    intro order cs bl rest hfuel hord
    omega
  | succ n ih =>
    intro order cs bl rest hfuel hord hbwf hlo hhi hpw hrest
    have hordlen : order < bl.length := by rw [hbwf.blen]; omega
    obtain ⟨hcs_all, hpw_tail⟩ := List.pairwise_cons.1 hpw
    cases hfd : (blocksAt bl order).find? (fun b => b.start == cs ^^^ 2 ^ order * BuddyStartSize)
      with
    | none =>
      simp only [mergeLoop, hfd]
      -- insert the current block at this order
      obtain ⟨pre, post, h1, h2⟩ := flatten_set_decomp bl order hordlen
        ((⟨cs, 2 ^ order * BuddyStartSize⟩ : Block) :: blocksAt bl order)
      have hperm : (bl.set order ((⟨cs, 2 ^ order * BuddyStartSize⟩ : Block)
          :: blocksAt bl order)).flatten.Perm
          ((⟨cs, 2 ^ order * BuddyStartSize⟩ : Block) :: bl.flatten) := by
        rw [h2, h1]
        unfold blocksAt
        exact perm_middle_assoc
      constructor
      · refine ⟨by simp [hbwf.blen], ?_, ?_, ?_⟩
        · intro k blk hmem
          by_cases hk : k = order
          · subst hk
            unfold blocksAt at hmem
            rw [getD_set_self hordlen] at hmem
            rcases List.mem_cons.1 hmem with rfl | hmem
            · rfl
            · exact hbwf.size_eq k blk hmem
          · unfold blocksAt at hmem
            rw [getD_set_other (fun hc => hk hc.symm)] at hmem
            exact hbwf.size_eq k blk hmem
        · intro k blk hmem
          by_cases hk : k = order
          · subst hk
            unfold blocksAt at hmem
            rw [getD_set_self hordlen] at hmem
            rcases List.mem_cons.1 hmem with rfl | hmem
            · exact hlo
            · exact hbwf.lo_le k blk hmem
          · unfold blocksAt at hmem
            rw [getD_set_other (fun hc => hk hc.symm)] at hmem
            exact hbwf.lo_le k blk hmem
        · intro k blk hmem
          by_cases hk : k = order
          · subst hk
            unfold blocksAt at hmem
            rw [getD_set_self hordlen] at hmem
            rcases List.mem_cons.1 hmem with rfl | hmem
            · exact hhi
            · exact hbwf.hi_ge k blk hmem
          · unfold blocksAt at hmem
            rw [getD_set_other (fun hc => hk hc.symm)] at hmem
            exact hbwf.hi_ge k blk hmem
      · have hmap := hperm.map blockPair
        simp only [List.map_cons] at hmap
        exact pairwise_of_perm ((hmap.symm).append_right rest) hpw
    | some bb =>
      simp only [mergeLoop, hfd]
      have hbbmem : bb ∈ blocksAt bl order := List.mem_of_find?_eq_some hfd
      have hbbeq := List.find?_some hfd
      have hbbstart : bb.start = cs ^^^ 2 ^ order * BuddyStartSize := by simpa using hbbeq
      have hbbsz : bb.size = 2 ^ order * BuddyStartSize := hbwf.size_eq order bb hbbmem
      have hbb_lo : lo ≤ bb.start := hbwf.lo_le order bb hbbmem
      have hbb_hi : bb.start + bb.size ≤ hi := hbwf.hi_ge order bb hbbmem
      -- the matched block is unique at this order
      have huniq : ∀ q ∈ blocksAt bl order,
          (q.start == cs ^^^ 2 ^ order * BuddyStartSize) = true → q = bb := by
        intro q hq hqs
        have hqs' : q.start = cs ^^^ 2 ^ order * BuddyStartSize := by simpa using hqs
        have hqsz : q.size = 2 ^ order * BuddyStartSize := hbwf.size_eq order q hq
        cases q with
        | mk qs qz =>
          cases bb with
          | mk bs bz =>
            simp only at hqs' hqsz hbbstart hbbsz ⊢
            rw [hqs', hqsz, hbbstart, hbbsz]
      have hlperm : (blocksAt bl order).Perm
          (bb :: (blocksAt bl order).eraseP
            (fun b => b.start == cs ^^^ 2 ^ order * BuddyStartSize)) :=
        eraseP_perm_of_unique _ hbbmem hbbeq huniq
      obtain ⟨pre, post, h1, h2⟩ := flatten_set_decomp bl order hordlen
        ((blocksAt bl order).eraseP (fun b => b.start == cs ^^^ 2 ^ order * BuddyStartSize))
      have hperm1 : bl.flatten.Perm
          (bb :: (bl.set order ((blocksAt bl order).eraseP
            (fun b => b.start == cs ^^^ 2 ^ order * BuddyStartSize))).flatten) := by
        rw [h1, h2]
        unfold blocksAt at hlperm ⊢
        refine List.Perm.trans ?_ perm_middle_assoc
        exact (hlperm.append_left pre).append_right post
      -- the new free lists are well-formed
      have hbwf1 : BlocksWF lo hi (bl.set order ((blocksAt bl order).eraseP
          (fun b => b.start == cs ^^^ 2 ^ order * BuddyStartSize))) := by
        refine ⟨by simp [hbwf.blen], ?_, ?_, ?_⟩
        · intro k blk hmem
          by_cases hk : k = order
          · subst hk
            unfold blocksAt at hmem
            rw [getD_set_self hordlen] at hmem
            exact hbwf.size_eq k blk ((List.eraseP_sublist _).mem hmem)
          · unfold blocksAt at hmem
            rw [getD_set_other (fun hc => hk hc.symm)] at hmem
            exact hbwf.size_eq k blk hmem
        · intro k blk hmem
          by_cases hk : k = order
          · subst hk
            unfold blocksAt at hmem
            rw [getD_set_self hordlen] at hmem
            exact hbwf.lo_le k blk ((List.eraseP_sublist _).mem hmem)
          · unfold blocksAt at hmem
            rw [getD_set_other (fun hc => hk hc.symm)] at hmem
            exact hbwf.lo_le k blk hmem
        · intro k blk hmem
          by_cases hk : k = order
          · subst hk
            unfold blocksAt at hmem
            rw [getD_set_self hordlen] at hmem
            exact hbwf.hi_ge k blk ((List.eraseP_sublist _).mem hmem)
          · unfold blocksAt at hmem
            rw [getD_set_other (fun hc => hk hc.symm)] at hmem
            exact hbwf.hi_ge k blk hmem
      -- the pairwise structure after removing the buddy
      have hpw1 : ((bb.start, bb.size) ::
          ((bl.set order ((blocksAt bl order).eraseP
            (fun b => b.start == cs ^^^ 2 ^ order * BuddyStartSize))).flatten.map blockPair
            ++ rest)).Pairwise Nonoverlap := by
        refine pairwise_of_perm ?_ hpw_tail
        have hm := hperm1.map blockPair
        simp only [List.map_cons] at hm
        exact hm.append_right rest
      obtain ⟨hbb_all, hpw1_tail⟩ := List.pairwise_cons.1 hpw1
      -- adjacency of the two merged halves
      have hS : 2 ^ order * BuddyStartSize = 2 ^ (order + 20) := by
        have hU : BuddyStartSize = 2 ^ 20 := by decide
        rw [hU, ← Nat.pow_add]
      have hadj : bb.start = cs + 2 ^ order * BuddyStartSize ∨
          cs = bb.start + 2 ^ order * BuddyStartSize := by
        rw [hbbstart, hS]
        exact xor_pow_two (order + 20) cs
      have hSpos : 0 < 2 ^ order * BuddyStartSize := pow2U_pos order
      have hdbl : 2 ^ (order + 1) * BuddyStartSize =
          2 ^ order * BuddyStartSize + 2 ^ order * BuddyStartSize := by
        rw [Nat.pow_succ]
        ring
      -- the merged block does not overlap anything that remains
      have hmerged : ∀ y ∈ ((bl.set order ((blocksAt bl order).eraseP
            (fun b => b.start == cs ^^^ 2 ^ order * BuddyStartSize))).flatten.map blockPair
            ++ rest), 0 < y.2 →
          Nonoverlap (min cs bb.start, 2 ^ (order + 1) * BuddyStartSize) y := by
        intro y hy hypos
        have hcs_y : Nonoverlap (cs, 2 ^ order * BuddyStartSize) y := by
          apply hcs_all
          rcases List.mem_append.1 hy with hy | hy
          · refine List.mem_append.2 (Or.inl ?_)
            have : y ∈ (bb :: (bl.set order ((blocksAt bl order).eraseP
                (fun b => b.start == cs ^^^ 2 ^ order * BuddyStartSize))).flatten).map
                  blockPair := by
              rw [List.map_cons]
              exact List.mem_cons_of_mem _ hy
            exact (hperm1.map blockPair).symm.subset this
          · exact List.mem_append.2 (Or.inr hy)
        have hbb_y : Nonoverlap (bb.start, bb.size) y := hbb_all y hy
        rw [hbbsz] at hbb_y
        rw [hdbl]
        rcases hadj with hcase | hcase
        · have hmin : min cs bb.start = cs := by
            rw [hcase]; omega
          rw [hmin]
          refine nonoverlap_merge hypos hcs_y ?_
          rw [← hcase]
          exact hbb_y
        · have hmin : min cs bb.start = bb.start := by
            rw [hcase]; omega
          rw [hmin]
          refine nonoverlap_merge hypos hbb_y ?_
          rw [← hcase]
          exact hcs_y
      -- positive sizes of everything that remains
      have hpos : ∀ y ∈ ((bl.set order ((blocksAt bl order).eraseP
            (fun b => b.start == cs ^^^ 2 ^ order * BuddyStartSize))).flatten.map blockPair
            ++ rest), 0 < y.2 := by
        intro y hy
        rcases List.mem_append.1 hy with hy | hy
        · obtain ⟨blk, hblk, rfl⟩ := List.mem_map.1 hy
          obtain ⟨⟨j, _, hjsz⟩, _, _⟩ := blocksWF_flatten_size hbwf1 blk hblk
          unfold blockPair
          simp only
          rw [hjsz]
          exact pow2U_pos j
        · exact hrest y hy
      by_cases hstop : order + 1 > MaxOrder
      · rw [if_pos hstop]
        exact ⟨hbwf1, hpw1_tail⟩
      · rw [if_neg hstop]
        have hminrw : min cs (cs ^^^ 2 ^ order * BuddyStartSize) = min cs bb.start := by
          rw [hbbstart]
        rw [hminrw]
        refine ih (order + 1) (min cs bb.start) _ rest (by omega) (by omega) hbwf1 ?_ ?_ ?_ hrest
        · rcases hadj with hcase | hcase
          · have hmin : min cs bb.start = cs := by rw [hcase]; omega
            rw [hmin]; exact hlo
          · have hmin : min cs bb.start = bb.start := by rw [hcase]; omega
            rw [hmin]; exact hbb_lo
        · rw [hdbl]
          rw [hbbsz] at hbb_hi
          rcases hadj with hcase | hcase
          · have hmin : min cs bb.start = cs := by rw [hcase]; omega
            rw [hmin]
            omega
          · have hmin : min cs bb.start = bb.start := by rw [hcase]; omega
            rw [hmin]
            omega
        · rw [List.pairwise_cons]
          exact ⟨fun y hy => hmerged y hy (hpos y hy), hpw1_tail⟩

/-- `BuddyRegion.mergeBlockLocked` on a well-formed region, freeing a
block `(start, 2 ^ j * BuddyStartSize)` lying inside the region and not
overlapping anything: the region stays well-formed. -/
theorem mergeBlockLocked_spec {r : BuddyRegion} {start j : Nat}
    (hbwf : BlocksWF r.startAddr r.endAddr r.blocks) (hj : j ≤ MaxOrder)
    (hlo : r.startAddr ≤ start)
    (hhi : start + 2 ^ j * BuddyStartSize ≤ r.endAddr)
    (hpw : ((start, 2 ^ j * BuddyStartSize) ::
      (r.blocks.flatten.map blockPair ++ r.allocated)).Pairwise Nonoverlap)
    (hrest : ∀ p ∈ r.allocated, 0 < p.2) :
    BlocksWF r.startAddr r.endAddr
      (mergeBlockLocked r start (2 ^ j * BuddyStartSize)).blocks ∧
    (regionPairs (mergeBlockLocked r start (2 ^ j * BuddyStartSize))).Pairwise Nonoverlap ∧
    (mergeBlockLocked r start (2 ^ j * BuddyStartSize)).allocated = r.allocated ∧
    (mergeBlockLocked r start (2 ^ j * BuddyStartSize)).used = r.used ∧
    (mergeBlockLocked r start (2 ^ j * BuddyStartSize)).startAddr = r.startAddr ∧
    (mergeBlockLocked r start (2 ^ j * BuddyStartSize)).endAddr = r.endAddr := by
  unfold mergeBlockLocked
  rw [getOrder_pow_unit j]
  obtain ⟨h1, h2⟩ := mergeLoop_spec (MaxOrder + 1 - j) j start r.blocks r.allocated rfl hj
    hbwf hlo hhi hpw hrest
  exact ⟨h1, h2, rfl, rfl, rfl, rfl⟩

theorem getD_map_getD {l : List α} {i : Nat} (h : i < l.length) (f : α → β) (d : α)
    (d' : β) : (l.map f).getD i d' = f (l.getD i d) := by
  rw [List.getD_eq_getElem _ _ h, List.getD_eq_getElem _ _ (by simpa using h)]
  simp

theorem sum_map_set {l : List α} {i : Nat} (h : i < l.length) (x d : α) (f : α → Nat) :
    ((l.set i x).map f).sum + f (l.getD i d) = (l.map f).sum + f x := by
  have hl : l = l.take i ++ l.getD i d :: l.drop (i + 1) := by
    rw [List.getD_eq_getElem _ _ h, ← List.drop_eq_getElem_cons h, List.take_append_drop]
  rw [List.set_eq_take_cons_drop x h]
  conv_rhs => rw [hl]
  simp only [List.map_append, List.map_cons, List.sum_append, List.sum_cons]
  omega

/-- `BuddyAllocator.Free` on a well-formed allocator, at an address whose
region tracking map records it with size `sz`: the free succeeds, the
allocator stays well-formed, the tracked-allocation list loses exactly
the entry `(start, sz)`, and `used` drops by `sz`. -/
theorem buddyFree_ok {b : BuddyAllocator} {start sz : Nat}
    (hwf : BuddyWF b) (hmem : (start, sz) ∈ buddyAllocList b) :
    (buddyFree b start).1 = .ok () ∧
    BuddyWF (buddyFree b start).2 ∧
    (buddyAllocList b).Perm ((start, sz) :: buddyAllocList (buddyFree b start).2) ∧
    buddyUsedSize (buddyFree b start).2 + sz = buddyUsedSize b := by
  -- locate the region holding the tracked entry
  have hmem' : (start, sz) ∈ (b.regions.map (fun r => r.allocated)).flatten := hmem
  obtain ⟨l, hl, hmem_l⟩ := List.mem_flatten.1 hmem'
  obtain ⟨r0, hr0, hr0l⟩ := List.mem_map.1 hl
  obtain ⟨idx, hidx, hget⟩ := List.mem_iff_getElem.1 hr0
  have hgetD : b.regions.getD idx emptyRegion = r0 := by
    rw [List.getD_eq_getElem _ _ hidx, hget]
  have hmem_r0 : (start, sz) ∈ r0.allocated := by
    rw [hr0l]
    exact hmem_l
  have hrwf : RegionWF r0 := hwf.rwf r0 hr0
  have hidx8 : idx < buddyRegionCount := hwf.rlen ▸ hidx
  obtain ⟨hb1, hb2⟩ := hwf.rbounds idx hidx8
  rw [hgetD] at hb1 hb2
  obtain ⟨j, hjM, hsz⟩ := hrwf.alloc_size _ hmem_r0
  simp only at hsz
  subst hsz
  have hlo0 : r0.startAddr ≤ start := hrwf.alloc_lo _ hmem_r0
  have hhi0 : start + 2 ^ j * BuddyStartSize ≤ r0.endAddr := hrwf.alloc_hi _ hmem_r0
  have hszpos : 0 < 2 ^ j * BuddyStartSize := pow2U_pos j
  have hreg : regionSizeC = 137438953472 := by decide
  have h8 : buddyRegionCount = 8 := by decide
  have hlo' : idx * regionSizeC ≤ start := by rw [← hb1]; exact hlo0
  have hhi' : start + 2 ^ j * BuddyStartSize ≤ (idx + 1) * regionSizeC := by
    rw [← hb2]; exact hhi0
  have hlt63 : start < 2 ^ 63 := by
    rw [hreg] at hhi'
    rw [h8] at hidx8
    have : start < (idx + 1) * 137438953472 := by omega
    have : start < 8 * 137438953472 := by nlinarith
    omega
  have hdiv : start / regionSizeC = idx := by
    rw [hreg] at hlo' hhi' ⊢
    omega
  have hfri : freeRegionIndex start = some idx := by
    rw [freeRegionIndex_small start hlt63, hdiv]
    have : min idx (buddyRegionCount - 1) = idx := Nat.min_eq_left (by omega)
    rw [this]
  have hlookup : r0.allocated.lookup start = some (2 ^ j * BuddyStartSize) :=
    lookup_eq_some_of_mem hrwf.alloc_keys hmem_r0
  -- the erased tracking list and its bookkeeping
  have hap : r0.allocated.Perm ((start, 2 ^ j * BuddyStartSize) ::
      r0.allocated.eraseP (fun p => p.1 == start)) :=
    alist_erase_perm hrwf.alloc_keys hmem_r0
  have hsub : (r0.allocated.eraseP (fun p => p.1 == start)).Sublist r0.allocated :=
    List.eraseP_sublist _
  have hsizes : sizesSum r0.allocated = 2 ^ j * BuddyStartSize +
      sizesSum (r0.allocated.eraseP (fun p => p.1 == start)) := by
    rw [sizesSum_perm hap, sizesSum_cons]
  have husedlow : 2 ^ j * BuddyStartSize ≤ r0.used := by
    rw [hrwf.used_eq, hsizes]; omega
  have hused1 : r0.used - 2 ^ j * BuddyStartSize =
      sizesSum (r0.allocated.eraseP (fun p => p.1 == start)) := by
    rw [hrwf.used_eq, hsizes]; omega
  -- the free runs the happy path
  have heq : buddyFree b start = (.ok (), ⟨b.regions.set idx
      (mergeBlockLocked
        { r0 with
          allocated := r0.allocated.eraseP (fun p => p.1 == start)
          used := r0.used - 2 ^ j * BuddyStartSize }
        start (2 ^ j * BuddyStartSize))⟩) := by
    simp only [buddyFree, hfri, hgetD, hlookup]
  -- pre-merge region is within bounds and non-overlapping
  have hpw1 : (((start, 2 ^ j * BuddyStartSize)) ::
      (r0.blocks.flatten.map blockPair ++
        r0.allocated.eraseP (fun p => p.1 == start))).Pairwise Nonoverlap := by
    refine pairwise_of_perm ?_ hrwf.disj
    exact (List.Perm.append_left _ hap).trans List.perm_middle
  have hrest1 : ∀ p ∈ r0.allocated.eraseP (fun p => p.1 == start), 0 < p.2 := by
    intro p hp
    obtain ⟨j', _, hj'⟩ := hrwf.alloc_size p (hsub.mem hp)
    rw [hj']
    exact pow2U_pos j'
  obtain ⟨h2wf, h2disj, h2alloc, h2used, h2sa, h2ea⟩ :=
    mergeBlockLocked_spec (r :=
      { r0 with
        allocated := r0.allocated.eraseP (fun p => p.1 == start)
        used := r0.used - 2 ^ j * BuddyStartSize })
      hrwf.bwf hjM hlo0 hhi0 hpw1 hrest1
  -- the merged region is well-formed
  have hr2wf : RegionWF (mergeBlockLocked
      { r0 with
        allocated := r0.allocated.eraseP (fun p => p.1 == start)
        used := r0.used - 2 ^ j * BuddyStartSize }
      start (2 ^ j * BuddyStartSize)) := by
    refine ⟨?_, ?_, ?_, ?_, ?_, ?_, ?_⟩
    · rw [h2sa, h2ea]
      exact h2wf
    · intro p hp
      rw [h2alloc] at hp
      exact hrwf.alloc_size p (hsub.mem hp)
    · intro p hp
      rw [h2alloc] at hp
      rw [h2sa]
      exact hrwf.alloc_lo p (hsub.mem hp)
    · intro p hp
      rw [h2alloc] at hp
      rw [h2ea]
      exact hrwf.alloc_hi p (hsub.mem hp)
    · rw [h2alloc]
      exact hrwf.alloc_keys.sublist (hsub.map _)
    · exact h2disj
    · rw [h2used, h2alloc]
      exact hused1
  rw [heq]
  have hmaplen : idx < (b.regions.map (fun r => r.allocated)).length := by
    simpa using hidx
  obtain ⟨pre, post, hflat1, hflat2⟩ :=
    flatten_set_decomp (b.regions.map (fun r => r.allocated)) idx hmaplen
      (r0.allocated.eraseP (fun p => p.1 == start))
  have hgetDmap : (b.regions.map (fun r => r.allocated)).getD idx [] = r0.allocated := by
    rw [getD_map_getD hidx _ emptyRegion, hgetD]
  refine ⟨rfl, ?_, ?_, ?_⟩
  · -- well-formedness of the result
    refine ⟨?_, ?_, ?_⟩
    · simp [hwf.rlen]
    · intro i hi8'
      by_cases hii : i = idx
      · subst hii
        rw [getD_set_self hidx]
        rw [h2sa, h2ea]
        constructor
        · simp only
          rw [← hb1]
        · simp only
          rw [← hb2]
      · rw [getD_set_other (fun hc => hii hc.symm)]
        exact hwf.rbounds i hi8'
    · intro r' hmem''
      rcases List.mem_or_eq_of_mem_set hmem'' with h | rfl
      · exact hwf.rwf r' h
      · exact hr2wf
  · -- the tracked list loses exactly the freed entry
    have hL : buddyAllocList (⟨b.regions.set idx
        (mergeBlockLocked
          { r0 with
            allocated := r0.allocated.eraseP (fun p => p.1 == start)
            used := r0.used - 2 ^ j * BuddyStartSize }
          start (2 ^ j * BuddyStartSize))⟩ : BuddyAllocator) =
        ((b.regions.map (fun r => r.allocated)).set idx
          (r0.allocated.eraseP (fun p => p.1 == start))).flatten := by
      show ((b.regions.set idx _).map (fun r => r.allocated)).flatten = _
      rw [List.map_set]
      rw [h2alloc]
    rw [hL, hflat2]
    have hB : buddyAllocList b = pre ++ r0.allocated ++ post := by
      show (b.regions.map (fun r => r.allocated)).flatten = _
      rw [hflat1, hgetDmap]
    rw [hB]
    refine List.Perm.trans ?_ perm_middle_assoc
    exact ((hap.append_left pre).append_right post)
  · -- accounting
    have hsum := sum_map_set (l := b.regions) hidx
      (mergeBlockLocked
        { r0 with
          allocated := r0.allocated.eraseP (fun p => p.1 == start)
          used := r0.used - 2 ^ j * BuddyStartSize }
        start (2 ^ j * BuddyStartSize))
      emptyRegion (fun r => r.used)
    rw [hgetD] at hsum
    rw [h2used] at hsum
    have hsum2 : ((b.regions.set idx
        (mergeBlockLocked
          { r0 with
            allocated := r0.allocated.eraseP (fun p => p.1 == start)
            used := r0.used - 2 ^ j * BuddyStartSize }
          start (2 ^ j * BuddyStartSize))).map (fun r => r.used)).sum + r0.used =
        (b.regions.map (fun r => r.used)).sum + (r0.used - 2 ^ j * BuddyStartSize) := hsum
    show ((b.regions.set idx _).map (fun r => r.used)).sum + 2 ^ j * BuddyStartSize =
      (b.regions.map (fun r => r.used)).sum
    omega

/-! #### `BuddyAllocator.Allocate`: success and failure characterization -/

theorem regionAllocate_error_state {r : BuddyRegion} {size : Nat} {e : AllocErr}
    (h : (regionAllocate r size).1 = .error e) : (regionAllocate r size).2 = r := by
  by_cases hord : getOrder size > MaxOrder
  · rw [regionAllocate_sizeTooLarge hord]
  · cases hfind : findFrom r.blocks (getOrder size) (MaxOrder + 1 - getOrder size) with
    | none => simp only [regionAllocate, if_neg hord, hfind]
    | some ib =>
      obtain ⟨i, b⟩ := ib
      cases hlk : (r.allocated.lookup b.start).isSome with
      | true => simp only [regionAllocate, if_neg hord, hfind, hlk, if_true]
      | false =>
        simp only [regionAllocate, if_neg hord, hfind, hlk] at h ⊢
        simp at h

theorem buddyAllocGo_ok : ∀ (rs : List BuddyRegion) (size addr : Nat)
    (rs' : List BuddyRegion), buddyAllocGo size rs = (.ok addr, rs') →
    ∃ i, i < rs.length ∧
      (regionAllocate (rs.getD i emptyRegion) size).1 = .ok addr ∧
      rs' = rs.set i (regionAllocate (rs.getD i emptyRegion) size).2 := by
  intro rs
  induction rs with
  | nil =>
    intro size addr rs' h
    simp only [buddyAllocGo, Prod.mk.injEq] at h
    exact absurd h.1 (by simp)
  | cons r t ih =>
    intro size addr rs' h
    cases hra : regionAllocate r size with
    | mk res r1 =>
      cases res with
      | ok a =>
        simp only [buddyAllocGo, hra, Prod.mk.injEq, Except.ok.injEq] at h
        obtain ⟨rfl, rfl⟩ := h
        refine ⟨0, by simp, ?_, ?_⟩
        · simp only [List.getD_cons_zero, hra]
        · simp only [List.set_cons_zero, List.getD_cons_zero, hra]
      | error e =>
        by_cases hpd : e = AllocErr.panicDoubleAlloc
        · subst hpd
          simp [buddyAllocGo, hra] at h
        · have hr1 : r1 = r := by
            have := @regionAllocate_error_state r size e (by rw [hra])
            rw [hra] at this
            exact this
          subst hr1
          cases hgo : buddyAllocGo size t with
          | mk res2 t2 =>
            simp only [buddyAllocGo, hra, if_neg hpd, hgo, Prod.mk.injEq] at h
            obtain ⟨hres2, hrs'⟩ := h
            subst hres2
            obtain ⟨i, hi, h1, h2⟩ := ih size addr t2 hgo
            refine ⟨i + 1, by simpa using hi, ?_, ?_⟩
            · simpa using h1
            · rw [← hrs', h2]
              simp

theorem buddyAllocGo_error_state : ∀ (rs : List BuddyRegion) (size : Nat) (e : AllocErr),
    (buddyAllocGo size rs).1 = .error e → (buddyAllocGo size rs).2 = rs := by
  intro rs
  induction rs with
  | nil => intro size e _; rfl
  | cons r t ih =>
    intro size e h
    cases hra : regionAllocate r size with
    | mk res r1 =>
      cases res with
      | ok a =>
        simp only [buddyAllocGo, hra] at h
        simp at h
      | error e1 =>
        have hr1 : r1 = r := by
          have := @regionAllocate_error_state r size e1 (by rw [hra])
          rw [hra] at this
          exact this
        subst hr1
        by_cases hpd : e1 = AllocErr.panicDoubleAlloc
        · subst hpd
          simp [buddyAllocGo, hra]
        · cases hgo : buddyAllocGo size t with
          | mk res2 t2 =>
            simp only [buddyAllocGo, hra, if_neg hpd, hgo] at h ⊢
            have ht2 : t2 = t := by
              have := ih size e (by rw [hgo]; exact h)
              rw [hgo] at this
              exact this
            rw [ht2]

theorem buddyAllocate_error_state {b : BuddyAllocator} {size : Nat} {e : AllocErr}
    (h : (buddyAllocate b size).1 = .error e) : (buddyAllocate b size).2 = b := by
  have hgo := buddyAllocGo_error_state b.regions size e
  cases hx : buddyAllocGo size b.regions with
  | mk res rs =>
    simp only [buddyAllocate, hx] at h ⊢
    rw [hx] at hgo
    have := hgo h
    simp only at this
    rw [this]

/-- `BuddyAllocator.Allocate` success: well-formedness is preserved, the
tracked-allocation list gains exactly the served block
`(addr, BUDDY_UNIT << getOrder size)`, `used` grows by that block's size,
and the address was not previously tracked in its region. -/
theorem buddyAllocate_ok {b : BuddyAllocator} {size addr : Nat}
    (hwf : BuddyWF b) (h : (buddyAllocate b size).1 = .ok addr) :
    BuddyWF (buddyAllocate b size).2 ∧
    (buddyAllocList (buddyAllocate b size).2).Perm
      ((addr, 2 ^ getOrder size * BuddyStartSize) :: buddyAllocList b) ∧
    buddyUsedSize (buddyAllocate b size).2 =
      buddyUsedSize b + 2 ^ getOrder size * BuddyStartSize := by
  cases hx : buddyAllocGo size b.regions with
  | mk res rs' =>
    simp only [buddyAllocate, hx] at h ⊢
    cases res with
    | error e => simp at h
    | ok a =>
      simp only [Except.ok.injEq] at h
      subst h
      obtain ⟨i, hi, hra, hrs'⟩ := buddyAllocGo_ok b.regions size a rs' hx
      subst hrs'
      have hr0 : b.regions.getD i emptyRegion ∈ b.regions := by
        rw [List.getD_eq_getElem _ _ hi]
        exact List.getElem_mem _
      have hrwf : RegionWF (b.regions.getD i emptyRegion) := hwf.rwf _ hr0
      cases hra2 : regionAllocate (b.regions.getD i emptyRegion) size with
      | mk res2 r2 =>
        rw [hra2] at hra
        simp only at hra
        subst hra
        obtain ⟨h2wf, h2alloc, h2used, h2sa, h2ea, _, _, _⟩ :=
          regionAllocate_ok hrwf hra2
        rw [show ((Except.ok a : Except AllocErr Nat), r2).2 = r2 from rfl]
        have hi8 : i < buddyRegionCount := hwf.rlen ▸ hi
        refine ⟨⟨by simp [hwf.rlen], ?_, ?_⟩, ?_, ?_⟩
        · intro k hk8
          by_cases hk : k = i
          · subst hk
            rw [getD_set_self hi]
            obtain ⟨hb1, hb2⟩ := hwf.rbounds k hk8
            rw [h2sa, h2ea]
            exact ⟨hb1, hb2⟩
          · rw [getD_set_other (fun hc => hk hc.symm)]
            exact hwf.rbounds k hk8
        · intro r' hmem'
          rcases List.mem_or_eq_of_mem_set hmem' with hmem'' | rfl
          · exact hwf.rwf r' hmem''
          · exact h2wf
        · have hmaplen : i < (b.regions.map (fun r => r.allocated)).length := by
            simpa using hi
          obtain ⟨pre, post, hflat1, hflat2⟩ :=
            flatten_set_decomp (b.regions.map (fun r => r.allocated)) i hmaplen
              r2.allocated
          have hgetDmap : (b.regions.map (fun r => r.allocated)).getD i [] =
              (b.regions.getD i emptyRegion).allocated := by
            rw [getD_map_getD hi _ emptyRegion]
          have hL : buddyAllocList (⟨b.regions.set i r2⟩ : BuddyAllocator) =
              pre ++ r2.allocated ++ post := by
            show ((b.regions.set i r2).map (fun r => r.allocated)).flatten = _
            rw [List.map_set, hflat2]
          have hB : buddyAllocList b =
              pre ++ (b.regions.getD i emptyRegion).allocated ++ post := by
            show (b.regions.map (fun r => r.allocated)).flatten = _
            rw [hflat1, hgetDmap]
          rw [hL, hB, h2alloc]
          refine List.Perm.trans perm_middle_assoc ?_
          exact List.Perm.cons _ (by exact List.Perm.refl _)
        · have hsum := sum_map_set (l := b.regions) hi r2 emptyRegion (fun r => r.used)
          have hsum2 : ((b.regions.set i r2).map (fun r => r.used)).sum +
              (b.regions.getD i emptyRegion).used =
              (b.regions.map (fun r => r.used)).sum + r2.used := hsum
          rw [h2used] at hsum2
          show ((b.regions.set i r2).map (fun r => r.used)).sum =
            (b.regions.map (fun r => r.used)).sum + 2 ^ getOrder size * BuddyStartSize
          omega

/-! #### Global consequences of buddy well-formedness -/

theorem sizesSum_append (l1 l2 : List (Nat × Nat)) :
    sizesSum (l1 ++ l2) = sizesSum l1 + sizesSum l2 := by
  unfold sizesSum
  rw [List.map_append, List.sum_append]

theorem sizesSum_flatten : ∀ (L : List (List (Nat × Nat))),
    sizesSum L.flatten = (L.map sizesSum).sum := by
  intro L
  induction L with
  | nil => rfl
  | cons x t ih => simp [List.flatten_cons, sizesSum_append, ih]

/-- `GetUsedSize` of the buddy allocator is the total size of its tracked
allocations. -/
theorem buddyUsedSize_eq_sizesSum {b : BuddyAllocator} (hwf : BuddyWF b) :
    buddyUsedSize b = sizesSum (buddyAllocList b) := by
  show (b.regions.map (fun r => r.used)).sum =
    sizesSum ((b.regions.map (fun r => r.allocated)).flatten)
  rw [sizesSum_flatten, List.map_map]
  congr 1
  apply List.map_congr_left
  intro r hr
  exact (hwf.rwf r hr).used_eq

theorem regionWF_alloc_pairwise {r : BuddyRegion} (hwf : RegionWF r) :
    r.allocated.Pairwise Nonoverlap := by
  have h := hwf.disj
  unfold regionPairs at h
  exact (List.pairwise_append.1 h).2.1

/-- All tracked buddy allocations, across all regions, are pairwise
non-overlapping: inside a region by the region invariant, across regions
by the region bounds. -/
theorem buddyWF_allocList_pairwise {b : BuddyAllocator} (hwf : BuddyWF b) :
    (buddyAllocList b).Pairwise Nonoverlap := by
  show ((b.regions.map (fun r => r.allocated)).flatten).Pairwise Nonoverlap
  rw [List.pairwise_flatten]
  constructor
  · intro l hl
    obtain ⟨r, hr, rfl⟩ := List.mem_map.1 hl
    exact regionWF_alloc_pairwise (hwf.rwf r hr)
  · rw [List.pairwise_iff_getElem]
    intro i j hi hj hij a ha hb hbmem
    have hi' : i < b.regions.length := by simpa using hi
    have hj' : j < b.regions.length := by simpa using hj
    rw [List.getElem_map] at ha
    rw [List.getElem_map] at hbmem
    have hgi : b.regions.getD i emptyRegion = b.regions[i] :=
      List.getD_eq_getElem _ _ hi'
    have hgj : b.regions.getD j emptyRegion = b.regions[j] :=
      List.getD_eq_getElem _ _ hj'
    have hi8 : i < buddyRegionCount := hwf.rlen ▸ hi'
    have hj8 : j < buddyRegionCount := hwf.rlen ▸ hj'
    have hwi : RegionWF b.regions[i] := hwf.rwf _ (List.getElem_mem _)
    have hwj : RegionWF b.regions[j] := hwf.rwf _ (List.getElem_mem _)
    have h1 : a.1 + a.2 ≤ (i + 1) * regionSizeC := by
      have := hwi.alloc_hi a ha
      rw [← hgi, (hwf.rbounds i hi8).2] at this
      omega
    have h2 : j * regionSizeC ≤ hb.1 := by
      have := hwj.alloc_lo hb hbmem
      rw [← hgj, (hwf.rbounds j hj8).1] at this
      omega
    have h3 : (i + 1) * regionSizeC ≤ j * regionSizeC :=
      Nat.mul_le_mul_right _ (by omega)
    exact Or.inl (by omega)

/-! #### Go-map (association list) lemmas -/

theorem alistGet_eq_none_iff (m : List (Nat × α)) (k : Nat) :
    alistGet m k = none ↔ k ∉ keysOf m := by
  unfold alistGet keysOf
  rw [Option.map_eq_none', List.find?_eq_none]
  constructor
  · intro h hc
    obtain ⟨p, hp, hpk⟩ := List.mem_map.1 hc
    exact (by simpa using h p hp : ¬ p.1 = k) hpk
  · intro h p hp
    intro hc
    exact h (List.mem_map.2 ⟨p, hp, by simpa using hc⟩)

theorem alistGet_mem {m : List (Nat × α)} {k : Nat} {v : α}
    (h : alistGet m k = some v) : (k, v) ∈ m := by
  unfold alistGet at h
  cases hf : m.find? (fun p => p.1 == k) with
  | none =>
    rw [hf] at h
    exact Option.noConfusion h
  | some p =>
    rw [hf] at h
    simp only [Option.map_some', Option.some.injEq] at h
    have hp := List.mem_of_find?_eq_some hf
    have hk : p.1 = k := by simpa using List.find?_some hf
    have : p = (k, v) := by
      cases p with
      | mk a b => simp only at hk h; rw [hk, h]
    rw [← this]
    exact hp

theorem alistGet_eq_some_of_mem : ∀ {m : List (Nat × α)} {k : Nat} {v : α},
    (keysOf m).Nodup → (k, v) ∈ m → alistGet m k = some v := by
  intro m
  induction m with
  | nil => intro k v _ h; simp at h
  | cons p t ih =>
    intro k v hnd hmem
    rcases p with ⟨a, b⟩
    rcases List.mem_cons.1 hmem with heq | hmt
    · obtain ⟨rfl, rfl⟩ := Prod.mk.injEq .. ▸ heq
      simp [alistGet, List.find?]
    · have hka : a ≠ k := by
        intro hc
        subst hc
        have : a ∈ keysOf t := by
          unfold keysOf
          exact List.mem_map_of_mem _ hmt
        exact (List.nodup_cons.1 (by simpa [keysOf] using hnd)).1 this
      have ht : alistGet t k = some v :=
        ih (List.nodup_cons.1 (by simpa [keysOf] using hnd)).2 hmt
      unfold alistGet at ht ⊢
      simp only [List.find?, beq_false_of_ne hka]
      exact ht

theorem alistGet_set_self (m : List (Nat × α)) (k : Nat) (v : α) :
    alistGet (alistSet m k v) k = some v := by
  induction m with
  | nil => simp [alistSet, alistGet, List.find?]
  | cons p t ih =>
    by_cases hp : p.1 = k
    · simp [alistSet, hp, alistGet, List.find?]
    · simp only [alistSet, if_neg hp]
      unfold alistGet at ih ⊢
      simp only [List.find?, beq_false_of_ne hp]
      exact ih

theorem alistGet_set_other {m : List (Nat × α)} {k k' : Nat} (h : k' ≠ k) (v : α) :
    alistGet (alistSet m k v) k' = alistGet m k' := by
  induction m with
  | nil => simp [alistSet, alistGet, List.find?, beq_false_of_ne (fun hc => h hc.symm)]
  | cons p t ih =>
    by_cases hp : p.1 = k
    · subst hp
      simp only [alistSet, if_pos rfl]
      unfold alistGet
      simp only [List.find?, beq_false_of_ne (fun hc => h hc.symm),
        beq_false_of_ne (fun hc : p.1 = k' => h hc.symm)]
    · simp only [alistSet, if_neg hp]
      unfold alistGet at ih ⊢
      by_cases hpk : p.1 = k'
      · simp [List.find?, hpk]
      · simp only [List.find?, beq_false_of_ne hpk]
        exact ih

theorem keysOf_alistSet (m : List (Nat × α)) (k : Nat) (v : α) :
    keysOf (alistSet m k v) = if k ∈ keysOf m then keysOf m else keysOf m ++ [k] := by
  induction m with
  | nil => simp [alistSet, keysOf]
  | cons p t ih =>
    by_cases hp : p.1 = k
    · subst hp
      simp [alistSet, keysOf]
    · simp only [alistSet, if_neg hp]
      by_cases hkt : k ∈ keysOf t
      · have hmem : k ∈ keysOf (p :: t) := by
          show k ∈ p.1 :: keysOf t
          exact List.mem_cons_of_mem _ hkt
        rw [if_pos hmem]
        show p.1 :: keysOf (alistSet t k v) = p.1 :: keysOf t
        rw [ih, if_pos hkt]
      · have hmem : k ∉ keysOf (p :: t) := by
          show k ∉ p.1 :: keysOf t
          intro hc
          rcases List.mem_cons.1 hc with hc' | hc'
          · exact hp hc'.symm
          · exact hkt hc'
        rw [if_neg hmem]
        show p.1 :: keysOf (alistSet t k v) = (p.1 :: keysOf t) ++ [k]
        rw [ih, if_neg hkt]
        rfl

theorem keysOf_alistSet_nodup {m : List (Nat × α)} (hnd : (keysOf m).Nodup)
    (k : Nat) (v : α) : (keysOf (alistSet m k v)).Nodup := by
  rw [keysOf_alistSet]
  by_cases hk : k ∈ keysOf m
  · rw [if_pos hk]; exact hnd
  · rw [if_neg hk]
    rw [List.nodup_append]
    refine ⟨hnd, by simp, ?_⟩
    intro a ha hc
    simp only [List.mem_singleton] at hc
    subst hc
    exact hk ha

theorem alistGet_erase_self : ∀ {m : List (Nat × α)} {k : Nat},
    (keysOf m).Nodup → alistGet (alistErase m k) k = none := by
  intro m
  induction m with
  | nil => intro k _; rfl
  | cons q t ih =>
    intro k hnd
    have hnd2 : (q.1 :: keysOf t).Nodup := hnd
    have hnd' : (keysOf t).Nodup := (List.nodup_cons.1 hnd2).2
    have hqt : q.1 ∉ keysOf t := (List.nodup_cons.1 hnd2).1
    by_cases hq : q.1 = k
    · have h1 : alistErase (q :: t) k = t := by
        unfold alistErase
        rw [List.eraseP_cons_of_pos (by simpa using hq)]
      rw [h1, alistGet_eq_none_iff, ← hq]
      exact hqt
    · have h1 : alistErase (q :: t) k = q :: alistErase t k := by
        unfold alistErase
        rw [List.eraseP_cons_of_neg (by simpa using hq)]
      rw [h1]
      unfold alistGet
      simp only [List.find?, beq_false_of_ne hq]
      exact ih hnd'

theorem alistGet_erase_other {m : List (Nat × α)} {k k' : Nat} (h : k' ≠ k) :
    alistGet (alistErase m k) k' = alistGet m k' := by
  induction m with
  | nil => rfl
  | cons p t ih =>
    by_cases hp : p.1 = k
    · have h1 : alistErase (p :: t) k = t := by
        unfold alistErase
        rw [List.eraseP_cons_of_pos (by simpa using hp)]
      rw [h1]
      unfold alistGet
      have : (p.1 == k') = false := beq_false_of_ne (by rw [hp]; exact fun hc => h hc.symm)
      simp only [List.find?, this]
    · have h1 : alistErase (p :: t) k = p :: alistErase t k := by
        unfold alistErase
        rw [List.eraseP_cons_of_neg (by simpa using hp)]
      rw [h1]
      unfold alistGet at ih ⊢
      by_cases hpk : p.1 = k'
      · simp [List.find?, hpk]
      · simp only [List.find?, beq_false_of_ne hpk]
        exact ih

theorem keysOf_alistErase_nodup {m : List (Nat × α)} (hnd : (keysOf m).Nodup)
    (k : Nat) : (keysOf (alistErase m k)).Nodup :=
  hnd.sublist ((List.eraseP_sublist _).map _)

theorem find?_eq_some_of_unique {l : List α} {p : α → Bool} {i : α}
    (hmem : i ∈ l) (hp : p i = true) (huniq : ∀ j ∈ l, p j = true → j = i) :
    l.find? p = some i := by
  induction l with
  | nil => simp at hmem
  | cons x t ih =>
    by_cases hx : p x = true
    · have : x = i := huniq x (List.mem_cons_self _ _) hx
      subst this
      simp [List.find?, hx]
    · simp only [List.find?, Bool.of_not_eq_true hx]
      rcases List.mem_cons.1 hmem with rfl | hmt
      · exact absurd hp hx
      · exact ih hmt (fun j hj hpj => huniq j (List.mem_cons_of_mem _ hj) hpj)

/-! #### `Slab.findFreeSpace` characterization -/

theorem isRangeOverlap_false_nonoverlap {s : Slab} {start size : Nat}
    (h : isRangeOverlap s start size = false) :
    ∀ p ∈ s.allocated, Nonoverlap (start, size) p := by
  intro p hp
  unfold isRangeOverlap at h
  rw [List.any_eq_false] at h
  have hh := h p hp
  simp only [Bool.or_eq_true, Bool.and_eq_true, decide_eq_true_eq] at hh
  show start + size ≤ p.1 ∨ p.1 + p.2 ≤ start
  omega

theorem probeLoop_char {s : Slab} {size : Nat} : ∀ fuel current addr,
    probeLoop s size fuel current = some addr →
    current ≤ addr ∧ (addr - current) % modAlign size = 0 ∧
    (size = 0 → addr = current) ∧
    addr + size ≤ s.start + s.size ∧ isRangeOverlap s addr size = false := by
  intro fuel
  induction fuel with
  | zero => intro c a h; simp [probeLoop] at h
  | succ n ih =>
    intro c a h
    simp only [probeLoop] at h
    by_cases h1 : c + size ≤ s.start + s.size
    · rw [if_pos h1] at h
      cases hov : isRangeOverlap s c size with
      | true =>
        rw [hov] at h
        simp only [if_true] at h
        obtain ⟨ha1, ha2, ha0, ha3, ha4⟩ := ih (c + size) a h
        refine ⟨by omega, ?_, ?_, ha3, ha4⟩
        · unfold modAlign at ha2 ⊢
          by_cases hsz : size = 0
          · simp [hsz, Nat.mod_one]
          · rw [if_neg hsz] at ha2 ⊢
            have he : a - c = (a - (c + size)) + size := by omega
            rw [he, Nat.add_mod, ha2]
            simp
        · intro hsz
          have := ha0 hsz
          omega
      | false =>
        rw [hov] at h
        simp only [Bool.false_eq_true, if_false, Option.some.injEq] at h
        subst h
        exact ⟨le_refl _, by simp, fun _ => rfl, h1, hov⟩
    · rw [if_neg h1] at h
      simp at h

theorem findInFreeList_char {s : Slab} {size : Nat} : ∀ fl addr fl',
    findInFreeList s size fl = some (addr, fl') →
    addr ∈ fl ∧ addr + size ≤ s.start + s.size ∧
    isRangeOverlap s addr size = false ∧ ∀ f ∈ fl', f ∈ fl := by
  intro fl
  induction fl with
  | nil => intro a f h; simp [findInFreeList] at h
  | cons x t ih =>
    intro a f h
    simp only [findInFreeList] at h
    by_cases hc : x + size ≤ s.start + s.size ∧ ¬ isRangeOverlap s x size
    · rw [if_pos hc] at h
      simp only [Option.some.injEq, Prod.mk.injEq] at h
      obtain ⟨rfl, rfl⟩ := h
      exact ⟨List.mem_cons_self _ _, hc.1, by simpa using hc.2,
        fun g hg => List.mem_cons_of_mem _ hg⟩
    · rw [if_neg hc] at h
      cases hrec : findInFreeList s size t with
      | none =>
        rw [hrec] at h
        exact Option.noConfusion h
      | some pr =>
        obtain ⟨q, r⟩ := pr
        rw [hrec] at h
        simp only [Option.map_some', Option.some.injEq, Prod.mk.injEq] at h
        obtain ⟨rfl, rfl⟩ := h
        obtain ⟨h1, h2, h3, h4⟩ := ih q r hrec
        refine ⟨List.mem_cons_of_mem _ h1, h2, h3, ?_⟩
        intro g hg
        rcases List.mem_cons.1 hg with rfl | hg'
        · exact List.mem_cons_self _ _
        · exact List.mem_cons_of_mem _ (h4 g hg')

theorem findFreeSpace_char {sl : Slab} {size : Nat} :
    (findFreeSpace sl size).2.start = sl.start ∧
    (findFreeSpace sl size).2.size = sl.size ∧
    (findFreeSpace sl size).2.used = sl.used ∧
    (findFreeSpace sl size).2.allocated = sl.allocated ∧
    (findFreeSpace sl size).2.fromBuddy = sl.fromBuddy ∧
    (∀ f ∈ (findFreeSpace sl size).2.freeList,
      f ∈ sl.freeList ∨ some f = (findFreeSpace sl size).1) ∧
    ((findFreeSpace sl size).1 = none → (findFreeSpace sl size).2 = sl) ∧
    (∀ addr, (findFreeSpace sl size).1 = some addr →
      sl.used + size ≤ sl.size ∧ addr + size ≤ sl.start + sl.size ∧
      isRangeOverlap sl addr size = false ∧
      (addr ∈ sl.freeList ∨
        (sl.start ≤ addr ∧ (addr - sl.start) % modAlign size = 0 ∧
          (size = 0 → addr = sl.start)))) := by
  unfold findFreeSpace
  by_cases hfull : sl.used + size > sl.size
  · rw [if_pos hfull]
    refine ⟨rfl, rfl, rfl, rfl, rfl, ?_, fun _ => rfl, ?_⟩
    · intro f hf; exact Or.inl hf
    · intro addr h; simp at h
  · rw [if_neg hfull]
    cases hfl : findInFreeList sl size sl.freeList with
    | some pr =>
      obtain ⟨addr, fl⟩ := pr
      obtain ⟨h1, h2, h3, h4⟩ := findInFreeList_char sl.freeList addr fl hfl
      refine ⟨rfl, rfl, rfl, rfl, rfl, ?_, ?_, ?_⟩
      · intro f hf; exact Or.inl (h4 f hf)
      · intro h; simp at h
      · intro a ha
        simp only [Option.some.injEq] at ha
        subst ha
        exact ⟨by omega, h2, h3, Or.inl h1⟩
    | none =>
      cases hpb : probeLoop sl size (sl.size + 1) sl.start with
      | some addr =>
        obtain ⟨h1, h2, h0, h3, h4⟩ := probeLoop_char (sl.size + 1) sl.start addr hpb
        refine ⟨rfl, rfl, rfl, rfl, rfl, ?_, ?_, ?_⟩
        · intro f hf
          simp only at hf
          rcases List.mem_append.1 hf with hf' | hf'
          · exact Or.inl hf'
          · simp only [List.mem_singleton] at hf'
            subst hf'
            exact Or.inr rfl
        · intro h; simp at h
        · intro a ha
          simp only [Option.some.injEq] at ha
          subst ha
          exact ⟨by omega, h3, h4, Or.inr ⟨h1, h2, h0⟩⟩
      | none =>
        exact ⟨rfl, rfl, rfl, rfl, rfl, fun f hf => Or.inl hf, fun _ => rfl,
          fun a ha => by simp at ha⟩

theorem findFreeSpace_shape {sl : Slab} {size : Nat} :
    (findFreeSpace sl size).2 =
      { sl with freeList := (findFreeSpace sl size).2.freeList } := by
  obtain ⟨h1, h2, h3, h4, h5, _, _, _⟩ := @findFreeSpace_char sl size
  cases hx : (findFreeSpace sl size).2 with
  | mk a b c d e f =>
    rw [hx] at h1 h2 h3 h4 h5
    simp only at h1 h2 h3 h4 h5
    subst h1 h2 h3 h4 h5
    rfl

/-! #### Updating one slab of the arena -/

theorem cacheList_congr {s s' : SlabAllocator} (h : s'.cache = s.cache) :
    ∀ sz, cacheList s' sz = cacheList s sz := by
  intro sz
  unfold cacheList
  rw [h]

theorem slabWF_congr {s s' : SlabAllocator} (hswf : SlabWF s)
    (hslabs : s'.slabs = s.slabs) (hcache : s'.cache = s.cache)
    (hlen : s.store.length ≤ s'.store.length)
    (hat : ∀ i ∈ s.slabs, slabAt s' i = slabAt s i) : SlabWF s' := by
  have hcl := cacheList_congr hcache
  have hsub : ∀ sz, ∀ i ∈ cacheList s' sz, i ∈ s.slabs := by
    intro sz i hi
    rw [hcl] at hi
    exact hswf.cache_sub sz i hi
  refine ⟨?_, ?_, ?_, ?_, ?_, ?_, ?_, ?_, ?_, ?_, ?_, ?_, ?_, ?_, ?_, ?_, ?_, ?_, ?_,
    ?_, ?_⟩
  · intro i hi
    rw [hslabs] at hi
    exact lt_of_lt_of_le (hswf.idx_lt i hi) hlen
  · rw [hslabs]; exact hswf.idx_nodup
  · rw [hcache]; exact hswf.cache_keys
  · intro sz i hi
    rw [hslabs]
    exact hsub sz i hi
  · intro sz
    rw [hcl]
    exact hswf.cache_nodup sz
  · intro sz sz' i h1 h2
    rw [hcl] at h1 h2
    exact hswf.cache_unique sz sz' i h1 h2
  · intro i hi
    rw [hslabs] at hi
    obtain ⟨sz, hsz⟩ := hswf.cache_mem i hi
    exact ⟨sz, by rw [hcl]; exact hsz⟩
  · intro sz i hi p hp
    rw [hcl] at hi
    rw [hat i (hsub sz i (by rw [hcl]; exact hi))] at hp
    exact hswf.cache_cell sz i hi p hp
  · intro sz i hi f hf
    rw [hcl] at hi
    rw [hat i (hsub sz i (by rw [hcl]; exact hi))] at hf ⊢
    exact hswf.cache_align sz i hi f hf
  · intro i hi
    rw [hslabs] at hi
    rw [hat i hi]
    exact hswf.slab_size i hi
  · intro i hi
    rw [hslabs] at hi
    rw [hat i hi]
    exact hswf.slab_from i hi
  · intro i hi
    rw [hslabs] at hi
    rw [hat i hi]
    exact hswf.used_le i hi
  · intro i hi
    rw [hslabs] at hi
    rw [hat i hi]
    exact hswf.used_eq i hi
  · intro i hi
    rw [hslabs] at hi
    rw [hat i hi]
    exact hswf.cell_keys i hi
  · intro i hi p hp
    rw [hslabs] at hi
    rw [hat i hi] at hp ⊢
    exact hswf.cell_lo i hi p hp
  · intro i hi p hp
    rw [hslabs] at hi
    rw [hat i hi] at hp ⊢
    exact hswf.cell_hi i hi p hp
  · intro i hi p hp
    rw [hslabs] at hi
    rw [hat i hi] at hp ⊢
    exact hswf.cell_align i hi p hp
  · intro i hi
    rw [hslabs] at hi
    rw [hat i hi]
    exact hswf.cell_disj i hi
  · intro i hi p hp
    rw [hslabs] at hi
    rw [hat i hi] at hp ⊢
    exact hswf.cell_end_lt i hi p hp
  · intro i hi f hf
    rw [hslabs] at hi
    rw [hat i hi] at hf ⊢
    exact hswf.freelist_lo i hi f hf
  · intro i hi f hf
    rw [hslabs] at hi
    rw [hat i hi] at hf ⊢
    exact hswf.freelist_hi i hi f hf

theorem flatten_update_perm {idxs : List Nat} {i : Nat} {x : α} (hmem : i ∈ idxs)
    (hnd : idxs.Nodup) (f g : Nat → List α) (hfg : ∀ j, j ≠ i → f j = g j)
    (hx : g i = x :: f i) :
    ((idxs.map g).flatten).Perm (x :: (idxs.map f).flatten) := by
  obtain ⟨pre, post, h1, h2⟩ := map_update_decomp hmem hnd f g hfg
  rw [h1, h2, hx]
  rw [List.flatten_append, List.flatten_cons, List.flatten_append, List.flatten_cons]
  have e1 : pre.flatten ++ ((x :: f i) ++ post.flatten) =
      pre.flatten ++ x :: (f i ++ post.flatten) := by simp
  rw [e1]
  have e2 : pre.flatten ++ (f i ++ post.flatten) =
      pre.flatten ++ f i ++ post.flatten := by simp
  rw [← List.append_assoc]
  refine List.perm_middle.trans ?_
  rw [e2]

theorem sum_update_delta {idxs : List Nat} {i : Nat} (hmem : i ∈ idxs)
    (hnd : idxs.Nodup) (f g : Nat → Nat) (hfg : ∀ j, j ≠ i → f j = g j) :
    (idxs.map g).sum + f i = (idxs.map f).sum + g i := by
  obtain ⟨pre, post, h1, h2⟩ := map_update_decomp hmem hnd f g hfg
  rw [h1, h2]
  simp only [List.sum_append, List.sum_cons]
  omega

/-- Replacing the free list of one slab, with the replacement satisfying
the free-list clauses of the invariant, keeps the allocator well-formed. -/
theorem slabWF_update_freelist {s : SlabAllocator} {tIdx : Nat} {fl : List Nat}
    (hswf : SlabWF s) (hmem : tIdx ∈ s.slabs)
    (hlo : ∀ f ∈ fl, (slabAt s tIdx).start ≤ f)
    (hhi : ∀ f ∈ fl, f < (slabAt s tIdx).start + (slabAt s tIdx).size)
    (halign : ∀ sz, tIdx ∈ cacheList s sz → ∀ f ∈ fl,
      (f - (slabAt s tIdx).start) % modAlign sz = 0) :
    SlabWF { s with store := s.store.set tIdx { slabAt s tIdx with freeList := fl } } := by
  have htlen : tIdx < s.store.length := hswf.idx_lt tIdx hmem
  have hat : ∀ i, slabAt
      { s with store := s.store.set tIdx { slabAt s tIdx with freeList := fl } } i =
      if i = tIdx then { slabAt s tIdx with freeList := fl } else slabAt s i := by
    intro i
    by_cases hi : i = tIdx
    · subst hi
      rw [if_pos rfl]
      exact getD_set_self htlen _ _
    · rw [if_neg hi]
      exact getD_set_other (fun hc => hi hc.symm) _ _
  refine ⟨?_, hswf.idx_nodup, hswf.cache_keys, hswf.cache_sub, hswf.cache_nodup,
    hswf.cache_unique, hswf.cache_mem, ?_, ?_, ?_, ?_, ?_, ?_, ?_, ?_, ?_, ?_, ?_, ?_,
    ?_, ?_⟩
  · intro i hi
    rw [List.length_set]
    exact hswf.idx_lt i hi
  · intro sz i hi p hp
    rw [hat i] at hp
    by_cases hit : i = tIdx
    · rw [if_pos hit] at hp
      subst hit
      exact hswf.cache_cell sz i hi p hp
    · rw [if_neg hit] at hp
      exact hswf.cache_cell sz i hi p hp
  · intro sz i hi f hf
    rw [hat i] at hf ⊢
    by_cases hit : i = tIdx
    · rw [if_pos hit] at hf ⊢
      subst hit
      exact halign sz hi f hf
    · rw [if_neg hit] at hf ⊢
      exact hswf.cache_align sz i hi f hf
  · intro i hi
    rw [hat i]
    by_cases hit : i = tIdx
    · rw [if_pos hit]; subst hit; exact hswf.slab_size i hi
    · rw [if_neg hit]; exact hswf.slab_size i hi
  · intro i hi
    rw [hat i]
    by_cases hit : i = tIdx
    · rw [if_pos hit]; subst hit; exact hswf.slab_from i hi
    · rw [if_neg hit]; exact hswf.slab_from i hi
  · intro i hi
    rw [hat i]
    by_cases hit : i = tIdx
    · rw [if_pos hit]; subst hit; exact hswf.used_le i hi
    · rw [if_neg hit]; exact hswf.used_le i hi
  · intro i hi
    rw [hat i]
    by_cases hit : i = tIdx
    · rw [if_pos hit]; subst hit; exact hswf.used_eq i hi
    · rw [if_neg hit]; exact hswf.used_eq i hi
  · intro i hi
    rw [hat i]
    by_cases hit : i = tIdx
    · rw [if_pos hit]; subst hit; exact hswf.cell_keys i hi
    · rw [if_neg hit]; exact hswf.cell_keys i hi
  · intro i hi p hp
    rw [hat i] at hp ⊢
    by_cases hit : i = tIdx
    · rw [if_pos hit] at hp ⊢; subst hit; exact hswf.cell_lo i hi p hp
    · rw [if_neg hit] at hp ⊢; exact hswf.cell_lo i hi p hp
  · intro i hi p hp
    rw [hat i] at hp ⊢
    by_cases hit : i = tIdx
    · rw [if_pos hit] at hp ⊢; subst hit; exact hswf.cell_hi i hi p hp
    · rw [if_neg hit] at hp ⊢; exact hswf.cell_hi i hi p hp
  · intro i hi p hp
    rw [hat i] at hp ⊢
    by_cases hit : i = tIdx
    · rw [if_pos hit] at hp ⊢; subst hit; exact hswf.cell_align i hi p hp
    · rw [if_neg hit] at hp ⊢; exact hswf.cell_align i hi p hp
  · intro i hi
    rw [hat i]
    by_cases hit : i = tIdx
    · rw [if_pos hit]; subst hit; exact hswf.cell_disj i hi
    · rw [if_neg hit]; exact hswf.cell_disj i hi
  · intro i hi p hp
    rw [hat i] at hp ⊢
    by_cases hit : i = tIdx
    · rw [if_pos hit] at hp ⊢; subst hit; exact hswf.cell_end_lt i hi p hp
    · rw [if_neg hit] at hp ⊢; exact hswf.cell_end_lt i hi p hp
  · intro i hi f hf
    rw [hat i] at hf ⊢
    by_cases hit : i = tIdx
    · rw [if_pos hit] at hf ⊢; subst hit; exact hlo f hf
    · rw [if_neg hit] at hf ⊢; exact hswf.freelist_lo i hi f hf
  · intro i hi f hf
    rw [hat i] at hf ⊢
    by_cases hit : i = tIdx
    · rw [if_pos hit] at hf ⊢; subst hit; exact hhi f hf
    · rw [if_neg hit] at hf ⊢; exact hswf.freelist_hi i hi f hf

/-- Recording one fresh, in-range, aligned, non-overlapping cell in a
cached slab (with a well-behaved replacement free list) keeps the slab
allocator well-formed. -/
theorem slabWF_new_cell {s : SlabAllocator} {tIdx addr size : Nat} {fl : List Nat}
    (hswf : SlabWF s) (hmem : tIdx ∈ s.slabs) (hcache : tIdx ∈ cacheList s size)
    (hfit : (slabAt s tIdx).used + size ≤ (slabAt s tIdx).size)
    (hlo : (slabAt s tIdx).start ≤ addr)
    (hhi : addr + size ≤ (slabAt s tIdx).start + (slabAt s tIdx).size)
    (hend : addr < (slabAt s tIdx).start + (slabAt s tIdx).size)
    (halign : (addr - (slabAt s tIdx).start) % modAlign size = 0)
    (hnov : ∀ p ∈ (slabAt s tIdx).allocated, Nonoverlap (addr, size) p)
    (hnew : addr ∉ keysOf (slabAt s tIdx).allocated)
    (hflo : ∀ f ∈ fl, (slabAt s tIdx).start ≤ f)
    (hfhi : ∀ f ∈ fl, f < (slabAt s tIdx).start + (slabAt s tIdx).size)
    (hfalign : ∀ f ∈ fl, (f - (slabAt s tIdx).start) % modAlign size = 0) :
    SlabWF { s with store := (s.store.set tIdx
      ⟨(slabAt s tIdx).start, (slabAt s tIdx).size, (slabAt s tIdx).used + size,
        (addr, size) :: (slabAt s tIdx).allocated, fl, (slabAt s tIdx).fromBuddy⟩) } := by
  have htlen : tIdx < s.store.length := hswf.idx_lt tIdx hmem
  have hat : ∀ i, slabAt
      { s with store := (s.store.set tIdx
        ⟨(slabAt s tIdx).start, (slabAt s tIdx).size, (slabAt s tIdx).used + size,
          (addr, size) :: (slabAt s tIdx).allocated, fl, (slabAt s tIdx).fromBuddy⟩) } i =
      if i = tIdx then
        ⟨(slabAt s tIdx).start, (slabAt s tIdx).size, (slabAt s tIdx).used + size,
          (addr, size) :: (slabAt s tIdx).allocated, fl, (slabAt s tIdx).fromBuddy⟩
      else slabAt s i := by
    intro i
    by_cases hi : i = tIdx
    · subst hi
      rw [if_pos rfl]
      exact getD_set_self htlen _ _
    · rw [if_neg hi]
      exact getD_set_other (fun hc => hi hc.symm) _ _
  have hszcache : ∀ sz, tIdx ∈ cacheList s sz → sz = size := by
    intro sz hsz
    exact hswf.cache_unique sz size tIdx hsz hcache
  refine ⟨?_, hswf.idx_nodup, hswf.cache_keys, hswf.cache_sub, hswf.cache_nodup,
    hswf.cache_unique, hswf.cache_mem, ?_, ?_, ?_, ?_, ?_, ?_, ?_, ?_, ?_, ?_, ?_, ?_,
    ?_, ?_⟩
  · intro i hi
    rw [List.length_set]
    exact hswf.idx_lt i hi
  · intro sz i hi p hp
    rw [hat i] at hp
    by_cases hit : i = tIdx
    · rw [if_pos hit] at hp
      subst hit
      have hsz : sz = size := hszcache sz hi
      subst hsz
      simp only at hp
      rcases List.mem_cons.1 hp with rfl | hp'
      · rfl
      · exact hswf.cache_cell sz i hi p hp'
    · rw [if_neg hit] at hp
      exact hswf.cache_cell sz i hi p hp
  · intro sz i hi f hf
    rw [hat i] at hf ⊢
    by_cases hit : i = tIdx
    · rw [if_pos hit] at hf ⊢
      subst hit
      have hsz : sz = size := hszcache sz hi
      subst hsz
      exact hfalign f hf
    · rw [if_neg hit] at hf ⊢
      exact hswf.cache_align sz i hi f hf
  · intro i hi
    rw [hat i]
    by_cases hit : i = tIdx
    · rw [if_pos hit]; subst hit; exact hswf.slab_size i hi
    · rw [if_neg hit]; exact hswf.slab_size i hi
  · intro i hi
    rw [hat i]
    by_cases hit : i = tIdx
    · rw [if_pos hit]; subst hit; exact hswf.slab_from i hi
    · rw [if_neg hit]; exact hswf.slab_from i hi
  · intro i hi
    rw [hat i]
    by_cases hit : i = tIdx
    · rw [if_pos hit]; subst hit; exact hfit
    · rw [if_neg hit]; exact hswf.used_le i hi
  · intro i hi
    rw [hat i]
    by_cases hit : i = tIdx
    · rw [if_pos hit]
      subst hit
      show (slabAt s i).used + size = sizesSum ((addr, size) :: (slabAt s i).allocated)
      rw [sizesSum_cons, ← hswf.used_eq i hi]
      omega
    · rw [if_neg hit]; exact hswf.used_eq i hi
  · intro i hi
    rw [hat i]
    by_cases hit : i = tIdx
    · rw [if_pos hit]
      subst hit
      show (keysOf ((addr, size) :: (slabAt s i).allocated)).Nodup
      rw [show keysOf ((addr, size) :: (slabAt s i).allocated) =
        addr :: keysOf (slabAt s i).allocated from rfl]
      exact List.nodup_cons.2 ⟨hnew, hswf.cell_keys i hi⟩
    · rw [if_neg hit]; exact hswf.cell_keys i hi
  · intro i hi p hp
    rw [hat i] at hp ⊢
    by_cases hit : i = tIdx
    · rw [if_pos hit] at hp ⊢
      subst hit
      simp only at hp ⊢
      rcases List.mem_cons.1 hp with rfl | hp'
      · exact hlo
      · exact hswf.cell_lo i hi p hp'
    · rw [if_neg hit] at hp ⊢; exact hswf.cell_lo i hi p hp
  · intro i hi p hp
    rw [hat i] at hp ⊢
    by_cases hit : i = tIdx
    · rw [if_pos hit] at hp ⊢
      subst hit
      simp only at hp ⊢
      rcases List.mem_cons.1 hp with rfl | hp'
      · exact hhi
      · exact hswf.cell_hi i hi p hp'
    · rw [if_neg hit] at hp ⊢; exact hswf.cell_hi i hi p hp
  · intro i hi p hp
    rw [hat i] at hp ⊢
    by_cases hit : i = tIdx
    · rw [if_pos hit] at hp ⊢
      subst hit
      simp only at hp ⊢
      rcases List.mem_cons.1 hp with rfl | hp'
      · exact halign
      · exact hswf.cell_align i hi p hp'
    · rw [if_neg hit] at hp ⊢; exact hswf.cell_align i hi p hp
  · intro i hi
    rw [hat i]
    by_cases hit : i = tIdx
    · rw [if_pos hit]
      subst hit
      show ((addr, size) :: (slabAt s i).allocated).Pairwise Nonoverlap
      exact List.pairwise_cons.2 ⟨hnov, hswf.cell_disj i hi⟩
    · rw [if_neg hit]; exact hswf.cell_disj i hi
  · intro i hi p hp
    rw [hat i] at hp ⊢
    by_cases hit : i = tIdx
    · rw [if_pos hit] at hp ⊢
      subst hit
      simp only at hp ⊢
      rcases List.mem_cons.1 hp with rfl | hp'
      · exact hend
      · exact hswf.cell_end_lt i hi p hp'
    · rw [if_neg hit] at hp ⊢; exact hswf.cell_end_lt i hi p hp
  · intro i hi f hf
    rw [hat i] at hf ⊢
    by_cases hit : i = tIdx
    · rw [if_pos hit] at hf ⊢; subst hit; exact hflo f hf
    · rw [if_neg hit] at hf ⊢; exact hswf.freelist_lo i hi f hf
  · intro i hi f hf
    rw [hat i] at hf ⊢
    by_cases hit : i = tIdx
    · rw [if_pos hit] at hf ⊢; subst hit; exact hfhi f hf
    · rw [if_neg hit] at hf ⊢; exact hswf.freelist_hi i hi f hf

/-- The common tail of `SlabAllocator.Allocate` acting on a cached target
slab: the buddy allocator is untouched, `slabs`/`cache`/`counts` are
unchanged, well-formedness is preserved, slab bases are unchanged; an
error (never `ErrSlabFull`) leaves every slab's cells and `used`
unchanged, and a success records exactly the new cell and consumes
`size` bytes of slab free space. -/
theorem slabAllocFinish_spec {s : SlabAllocator} {b : BuddyAllocator} {size tIdx : Nat}
    (hswf : SlabWF s) (hmem : tIdx ∈ s.slabs) (hcache : tIdx ∈ cacheList s size) :
    (slabAllocFinish s b size tIdx).2.2 = b ∧
    (slabAllocFinish s b size tIdx).2.1.slabs = s.slabs ∧
    (slabAllocFinish s b size tIdx).2.1.cache = s.cache ∧
    (slabAllocFinish s b size tIdx).2.1.counts = s.counts ∧
    SlabWF (slabAllocFinish s b size tIdx).2.1 ∧
    (∀ i, (slabAt (slabAllocFinish s b size tIdx).2.1 i).start = (slabAt s i).start ∧
      (slabAt (slabAllocFinish s b size tIdx).2.1 i).size = (slabAt s i).size) ∧
    (∀ e, (slabAllocFinish s b size tIdx).1 = .error e →
      e ≠ .slabFull ∧
      (∀ i, (slabAt (slabAllocFinish s b size tIdx).2.1 i).allocated =
          (slabAt s i).allocated ∧
        (slabAt (slabAllocFinish s b size tIdx).2.1 i).used = (slabAt s i).used)) ∧
    (∀ addr, (slabAllocFinish s b size tIdx).1 = .ok addr →
      (slabCells (slabAllocFinish s b size tIdx).2.1).Perm
        ((addr, size) :: slabCells s) ∧
      slabFreeSize (slabAllocFinish s b size tIdx).2.1 + size = slabFreeSize s) := by
  have htlen : tIdx < s.store.length := hswf.idx_lt tIdx hmem
  have hslsz : (slabAt s tIdx).size = SlabMaxSize := hswf.slab_size tIdx hmem
  have hszpos : 0 < (slabAt s tIdx).size := by rw [hslsz]; decide
  have hch := @findFreeSpace_char (s.store.getD tIdx emptySlab) size
  have hsh := @findFreeSpace_shape (s.store.getD tIdx emptySlab) size
  cases hff : findFreeSpace (s.store.getD tIdx emptySlab) size with
  | mk o sl' =>
    rw [hff] at hch hsh
    obtain ⟨hc1, hc2, hc3, hc4, hc5, hc6, hc7, hc8⟩ := hch
    simp only at hc1 hc2 hc3 hc4 hc5 hc6 hc7 hc8 hsh
    rw [show s.store.getD tIdx emptySlab = slabAt s tIdx from rfl]
      at hc1 hc2 hc3 hc4 hc5 hc6 hc7 hc8 hsh
    have hfl_facts : ∀ f ∈ sl'.freeList,
        (slabAt s tIdx).start ≤ f ∧ f < (slabAt s tIdx).start + (slabAt s tIdx).size ∧
        ∀ sz, tIdx ∈ cacheList s sz → (f - (slabAt s tIdx).start) % modAlign sz = 0 := by
      intro f hf
      rcases hc6 f hf with hfold | hfnew
      · exact ⟨hswf.freelist_lo tIdx hmem f hfold, hswf.freelist_hi tIdx hmem f hfold,
          fun sz hsz => hswf.cache_align sz tIdx hsz f hfold⟩
      · have ho : o = some f := hfnew.symm
        obtain ⟨hfit, hbound, hov, hsrc⟩ := hc8 f ho
        rcases hsrc with hfold | ⟨hplo, hpal, hp0⟩
        · exact ⟨hswf.freelist_lo tIdx hmem f hfold, hswf.freelist_hi tIdx hmem f hfold,
            fun sz hsz => hswf.cache_align sz tIdx hsz f hfold⟩
        · refine ⟨hplo, ?_, ?_⟩
          · by_cases hs0 : size = 0
            · rw [hp0 hs0]
              omega
            · omega
          · intro sz hsz
            have hsz' : sz = size := hswf.cache_unique sz size tIdx hsz hcache
            rw [hsz']
            exact hpal
    cases o with
    | none =>
      have hsl : sl' = slabAt s tIdx := hc7 rfl
      have heq : slabAllocFinish s b size tIdx =
          (.error .noSpace, { s with store := s.store.set tIdx (slabAt s tIdx) }, b) := by
        simp only [slabAllocFinish, hff, hsl]
      have hat : ∀ i,
          slabAt { s with store := s.store.set tIdx (slabAt s tIdx) } i = slabAt s i := by
        intro i
        by_cases hi : i = tIdx
        · subst hi
          exact getD_set_self htlen _ _
        · exact getD_set_other (fun hc => hi hc.symm) _ _
      rw [heq]
      refine ⟨rfl, rfl, rfl, rfl, ?_, ?_, ?_, ?_⟩
      · exact slabWF_congr hswf rfl rfl (by rw [List.length_set]) (fun i _ => hat i)
      · intro i
        rw [hat i]
        exact ⟨rfl, rfl⟩
      · intro e he
        simp only [Except.error.injEq] at he
        subst he
        refine ⟨by decide, ?_⟩
        intro i
        rw [hat i]
        exact ⟨rfl, rfl⟩
      · intro addr ha
        exact absurd ha (by simp)
    | some addr =>
      obtain ⟨hfit, hbound, hov, hsrc⟩ := hc8 addr rfl
      cases hdup : (alistGet sl'.allocated addr).isSome with
      | true =>
        have heq : slabAllocFinish s b size tIdx =
            (.error .addressAlreadyAllocated,
              { s with store := s.store.set tIdx sl' }, b) := by
          simp only [slabAllocFinish, hff]
          rw [if_pos hdup]
        have hat : ∀ i, slabAt { s with store := s.store.set tIdx sl' } i =
            if i = tIdx then sl' else slabAt s i := by
          intro i
          by_cases hi : i = tIdx
          · subst hi
            rw [if_pos rfl]
            exact getD_set_self htlen _ _
          · rw [if_neg hi]
            exact getD_set_other (fun hc => hi hc.symm) _ _
        have hwf' : SlabWF { s with store := s.store.set tIdx sl' } := by
          have hkey := @slabWF_update_freelist s tIdx sl'.freeList hswf hmem
            (fun f hf => (hfl_facts f hf).1)
            (fun f hf => (hfl_facts f hf).2.1)
            (fun sz hsz f hf => (hfl_facts f hf).2.2 sz hsz)
          rw [← hsh] at hkey
          exact hkey
        rw [heq]
        refine ⟨rfl, rfl, rfl, rfl, hwf', ?_, ?_, ?_⟩
        · intro i
          rw [hat i]
          by_cases hi : i = tIdx
          · rw [if_pos hi]
            subst hi
            exact ⟨hc1, hc2⟩
          · rw [if_neg hi]
            exact ⟨rfl, rfl⟩
        · intro e he
          simp only [Except.error.injEq] at he
          subst he
          refine ⟨by decide, ?_⟩
          intro i
          rw [hat i]
          by_cases hi : i = tIdx
          · rw [if_pos hi]
            subst hi
            exact ⟨hc4, hc3⟩
          · rw [if_neg hi]
            exact ⟨rfl, rfl⟩
        · intro a ha
          exact absurd ha (by simp)
      | false =>
        have heq : slabAllocFinish s b size tIdx =
            (.ok addr, { s with store := (s.store.set tIdx
              ⟨sl'.start, sl'.size, sl'.used + size, (addr, size) :: sl'.allocated,
                sl'.freeList, sl'.fromBuddy⟩) }, b) := by
          simp only [slabAllocFinish, hff]
          rw [if_neg (by rw [hdup]; exact Bool.false_ne_true)]
        have hnewk : addr ∉ keysOf (slabAt s tIdx).allocated := by
          have hgn : alistGet sl'.allocated addr = none := by
            cases hx : alistGet sl'.allocated addr with
            | none => rfl
            | some v => rw [hx] at hdup; simp at hdup
          rw [hc4] at hgn
          exact (alistGet_eq_none_iff _ _).1 hgn
        have halign_addr : (addr - (slabAt s tIdx).start) % modAlign size = 0 := by
          rcases hsrc with hfold | ⟨_, hpal, _⟩
          · exact hswf.cache_align size tIdx hcache addr hfold
          · exact hpal
        have hlo_addr : (slabAt s tIdx).start ≤ addr := by
          rcases hsrc with hfold | ⟨hplo, _, _⟩
          · exact hswf.freelist_lo tIdx hmem addr hfold
          · exact hplo
        have hend_addr : addr < (slabAt s tIdx).start + (slabAt s tIdx).size := by
          rcases hsrc with hfold | ⟨_, _, hp0⟩
          · exact hswf.freelist_hi tIdx hmem addr hfold
          · by_cases hs0 : size = 0
            · rw [hp0 hs0]
              omega
            · omega
        have hvaleq : (⟨sl'.start, sl'.size, sl'.used + size,
            (addr, size) :: sl'.allocated, sl'.freeList, sl'.fromBuddy⟩ : Slab) =
            ⟨(slabAt s tIdx).start, (slabAt s tIdx).size, (slabAt s tIdx).used + size,
              (addr, size) :: (slabAt s tIdx).allocated, sl'.freeList,
              (slabAt s tIdx).fromBuddy⟩ := by
          rw [hc1, hc2, hc3, hc4, hc5]
        have hwf' : SlabWF { s with store := (s.store.set tIdx
            ⟨sl'.start, sl'.size, sl'.used + size, (addr, size) :: sl'.allocated,
              sl'.freeList, sl'.fromBuddy⟩) } := by
          rw [hvaleq]
          exact slabWF_new_cell hswf hmem hcache hfit hlo_addr hbound hend_addr
            halign_addr (isRangeOverlap_false_nonoverlap hov) hnewk
            (fun f hf => (hfl_facts f hf).1)
            (fun f hf => (hfl_facts f hf).2.1)
            (fun f hf => (hfl_facts f hf).2.2 size hcache)
        have hat : ∀ i, slabAt { s with store := (s.store.set tIdx
            ⟨sl'.start, sl'.size, sl'.used + size, (addr, size) :: sl'.allocated,
              sl'.freeList, sl'.fromBuddy⟩) } i =
            if i = tIdx then
              ⟨sl'.start, sl'.size, sl'.used + size, (addr, size) :: sl'.allocated,
                sl'.freeList, sl'.fromBuddy⟩
            else slabAt s i := by
          intro i
          by_cases hi : i = tIdx
          · subst hi
            rw [if_pos rfl]
            exact getD_set_self htlen _ _
          · rw [if_neg hi]
            exact getD_set_other (fun hc => hi hc.symm) _ _
        rw [heq]
        refine ⟨rfl, rfl, rfl, rfl, hwf', ?_, ?_, ?_⟩
        · intro i
          rw [hat i]
          by_cases hi : i = tIdx
          · rw [if_pos hi]
            subst hi
            exact ⟨hc1, hc2⟩
          · rw [if_neg hi]
            exact ⟨rfl, rfl⟩
        · intro e he
          exact absurd he (by simp)
        · intro a ha
          simp only [Except.ok.injEq] at ha
          subst ha
          constructor
          · refine flatten_update_perm hmem hswf.idx_nodup
              (fun i => (slabAt s i).allocated) _ ?_ ?_
            · intro j hj
              dsimp only
              rw [hat j, if_neg hj]
            · dsimp only
              rw [hat tIdx, if_pos rfl]
              show (addr, size) :: sl'.allocated =
                (addr, size) :: (slabAt s tIdx).allocated
              rw [hc4]
          · have hdelta := sum_update_delta hmem hswf.idx_nodup
              (fun i => (slabAt s i).size - (slabAt s i).used)
              (fun i => (slabAt { s with store := (s.store.set tIdx
                ⟨sl'.start, sl'.size, sl'.used + size, (addr, size) :: sl'.allocated,
                  sl'.freeList, sl'.fromBuddy⟩) } i).size -
                (slabAt { s with store := (s.store.set tIdx
                  ⟨sl'.start, sl'.size, sl'.used + size, (addr, size) :: sl'.allocated,
                    sl'.freeList, sl'.fromBuddy⟩) } i).used)
              (by
                intro j hj
                dsimp only
                rw [hat j, if_neg hj])
            dsimp only at hdelta
            rw [hat tIdx, if_pos rfl] at hdelta
            dsimp only at hdelta
            have hg : sl'.size - (sl'.used + size) =
                (slabAt s tIdx).size - ((slabAt s tIdx).used + size) := by
              rw [hc2, hc3]
            rw [hg] at hdelta
            have hfin : (List.map (fun i =>
                (slabAt { s with store := (s.store.set tIdx
                  ⟨sl'.start, sl'.size, sl'.used + size, (addr, size) :: sl'.allocated,
                    sl'.freeList, sl'.fromBuddy⟩) } i).size -
                (slabAt { s with store := (s.store.set tIdx
                  ⟨sl'.start, sl'.size, sl'.used + size, (addr, size) :: sl'.allocated,
                    sl'.freeList, sl'.fromBuddy⟩) } i).used) s.slabs).sum + size =
                (List.map (fun i => (slabAt s i).size - (slabAt s i).used) s.slabs).sum := by
              omega
            exact hfin

/-! #### Growing the slab arena by one fresh 1 MiB slab -/

theorem getD_append_left {l l' : List α} {i : Nat} (h : i < l.length) (d : α) :
    (l ++ l').getD i d = l.getD i d := by
  rw [List.getD_eq_getElem?_getD, List.getD_eq_getElem?_getD, List.getElem?_append,
    if_pos h]

theorem getD_append_self {l : List α} (x d : α) :
    (l ++ [x]).getD l.length d = x := by
  rw [List.getD_eq_getElem _ _ (by simp)]
  simp

/-- On a fresh 1 MiB slab, `findFreeSpace` hands out the base address from
the free list. -/
theorem findFreeSpace_fresh {base size : Nat} (hsz : size ≤ SlabMaxSize) :
    findFreeSpace (newSlab base SlabMaxSize true) size =
      (some base, ⟨base, SlabMaxSize, 0, [], [], true⟩) := by
  unfold findFreeSpace
  rw [if_neg (by show ¬ (newSlab base SlabMaxSize true).used + size >
    (newSlab base SlabMaxSize true).size; show ¬ 0 + size > SlabMaxSize; omega)]
  have hfl : findInFreeList (newSlab base SlabMaxSize true) size
      (newSlab base SlabMaxSize true).freeList = some (base, []) := by
    show findInFreeList (newSlab base SlabMaxSize true) size [base] = some (base, [])
    unfold findInFreeList
    rw [if_pos]
    constructor
    · show base + size ≤ (newSlab base SlabMaxSize true).start +
        (newSlab base SlabMaxSize true).size
      show base + size ≤ base + SlabMaxSize
      omega
    · show ¬ isRangeOverlap (newSlab base SlabMaxSize true) base size = true
      rw [show isRangeOverlap (newSlab base SlabMaxSize true) base size = false from rfl]
      simp
  rw [hfl]
  rfl

/-- `slabAllocFinish` on an index holding a fresh slab succeeds and
returns the slab base. -/
theorem slabAllocFinish_fresh_ok {s1 : SlabAllocator} {b : BuddyAllocator}
    {size tIdx base : Nat}
    (hget : s1.store.getD tIdx emptySlab = newSlab base SlabMaxSize true)
    (hsz : size ≤ SlabMaxSize) :
    (slabAllocFinish s1 b size tIdx).1 = .ok base := by
  simp only [slabAllocFinish, hget, findFreeSpace_fresh hsz]
  rfl

/-- Appending a fresh buddy-sourced 1 MiB slab, registering it under
`cache[size]`, keeps the slab allocator well-formed.  `L` is the new
`cache[size]` list; it must consist of the old entries plus the new
index, without duplicates. -/
theorem slabWF_grow {s : SlabAllocator} {base size : Nat} {L : List Nat}
    {cnts : List (Nat × Nat)} (hswf : SlabWF s)
    (hL : ∀ j ∈ L, j ∈ cacheList s size ∨ j = s.store.length)
    (hLnd : L.Nodup) (hLN : s.store.length ∈ L)
    (hLsup : ∀ j ∈ cacheList s size, j ∈ L) :
    SlabWF { store := s.store ++ [newSlab base SlabMaxSize true]
             slabs := s.slabs ++ [s.store.length]
             cache := alistSet s.cache size L
             counts := cnts } := by
  set N := s.store.length with hN
  set s' : SlabAllocator :=
    { store := s.store ++ [newSlab base SlabMaxSize true]
      slabs := s.slabs ++ [N]
      cache := alistSet s.cache size L
      counts := cnts } with hs'
  have hNold : ∀ i ∈ s.slabs, i ≠ N := by
    intro i hi hc
    have := hswf.idx_lt i hi
    omega
  have hold_at : ∀ i ∈ s.slabs, slabAt s' i = slabAt s i := by
    intro i hi
    show (s.store ++ [newSlab base SlabMaxSize true]).getD i emptySlab = _
    exact getD_append_left (hswf.idx_lt i hi) _
  have hat_N : slabAt s' N = newSlab base SlabMaxSize true := by
    show (s.store ++ [newSlab base SlabMaxSize true]).getD N emptySlab = _
    exact getD_append_self _ _
  have hclnew : ∀ sz, cacheList s' sz = if sz = size then L else cacheList s sz := by
    intro sz
    show (alistGet (alistSet s.cache size L) sz).getD [] = _
    by_cases hsz : sz = size
    · subst hsz
      rw [alistGet_set_self, if_pos rfl]
      rfl
    · rw [alistGet_set_other hsz, if_neg hsz]
      rfl
  have hmem' : ∀ i ∈ s'.slabs, i ∈ s.slabs ∨ i = N := by
    intro i hi
    show i ∈ s.slabs ∨ i = N
    rcases List.mem_append.1 hi with h | h
    · exact Or.inl h
    · exact Or.inr (by simpa using h)
  have hLmem : ∀ j ∈ L, j ∈ s'.slabs := by
    intro j hj
    rcases hL j hj with h | h
    · exact List.mem_append.2 (Or.inl (hswf.cache_sub size j h))
    · exact List.mem_append.2 (Or.inr (by simpa using h))
  have hclsub : ∀ sz, ∀ i ∈ cacheList s' sz, i ∈ s'.slabs := by
    intro sz i hi
    rw [hclnew] at hi
    by_cases hsz : sz = size
    · rw [if_pos hsz] at hi
      exact hLmem i hi
    · rw [if_neg hsz] at hi
      exact List.mem_append.2 (Or.inl (hswf.cache_sub sz i hi))
  have hNnotincl : ∀ sz, N ∉ cacheList s sz := by
    intro sz hc
    have := hswf.idx_lt N (hswf.cache_sub sz N hc)
    omega
  refine ⟨?_, ?_, ?_, hclsub, ?_, ?_, ?_, ?_, ?_, ?_, ?_, ?_, ?_, ?_, ?_, ?_, ?_, ?_,
    ?_, ?_, ?_⟩
  · intro i hi
    rcases hmem' i hi with h | rfl
    · show i < (s.store ++ [newSlab base SlabMaxSize true]).length
      rw [List.length_append]
      have := hswf.idx_lt i h
      omega
    · show N < (s.store ++ [newSlab base SlabMaxSize true]).length
      rw [List.length_append]
      have hNe : N = s.store.length := hN
      have hone : [newSlab base SlabMaxSize true].length = 1 := rfl
      omega
  · show (s.slabs ++ [N]).Nodup
    rw [List.nodup_append]
    exact ⟨hswf.idx_nodup, by simp, by
      intro a ha hb
      simp only [List.mem_singleton] at hb
      exact hNold a ha hb⟩
  · show (keysOf (alistSet s.cache size L)).Nodup
    exact keysOf_alistSet_nodup hswf.cache_keys _ _
  · intro sz
    rw [hclnew]
    by_cases hsz : sz = size
    · rw [if_pos hsz]; exact hLnd
    · rw [if_neg hsz]; exact hswf.cache_nodup sz
  · intro sz sz' i h1 h2
    rw [hclnew] at h1 h2
    by_cases hsz : sz = size <;> by_cases hsz' : sz' = size
    · rw [hsz, hsz']
    · rw [if_pos hsz] at h1
      rw [if_neg hsz'] at h2
      rcases hL i h1 with h | rfl
      · rw [hsz]
        exact (hswf.cache_unique sz' size i h2 h).symm
      · exact absurd h2 (hNnotincl sz')
    · rw [if_neg hsz] at h1
      rw [if_pos hsz'] at h2
      rcases hL i h2 with h | rfl
      · rw [hsz']
        exact hswf.cache_unique sz size i h1 h
      · exact absurd h1 (hNnotincl sz)
    · rw [if_neg hsz] at h1
      rw [if_neg hsz'] at h2
      exact hswf.cache_unique sz sz' i h1 h2
  · intro i hi
    rcases hmem' i hi with h | rfl
    · obtain ⟨sz, hsz⟩ := hswf.cache_mem i h
      by_cases hszq : sz = size
      · subst hszq
        exact ⟨sz, by rw [hclnew, if_pos rfl]; exact hLsup i hsz⟩
      · exact ⟨sz, by rw [hclnew, if_neg hszq]; exact hsz⟩
    · exact ⟨size, by rw [hclnew, if_pos rfl]; exact hLN⟩
  · intro sz i hi p hp
    rw [hclnew] at hi
    by_cases hsz : sz = size
    · rw [if_pos hsz] at hi
      rcases hL i hi with h | rfl
      · rw [hold_at i (hswf.cache_sub size i h)] at hp
        rw [hsz]
        exact hswf.cache_cell size i h p hp
      · rw [hat_N] at hp
        exact absurd hp (by simp [newSlab])
    · rw [if_neg hsz] at hi
      rw [hold_at i (hswf.cache_sub sz i hi)] at hp
      exact hswf.cache_cell sz i hi p hp
  · intro sz i hi f hf
    rw [hclnew] at hi
    by_cases hsz : sz = size
    · rw [if_pos hsz] at hi
      rcases hL i hi with h | rfl
      · rw [hold_at i (hswf.cache_sub size i h)] at hf ⊢
        rw [hsz]
        exact hswf.cache_align size i h f hf
      · rw [hat_N] at hf ⊢
        have hfb : f = base := by simpa [newSlab] using hf
        subst hfb
        simp [newSlab]
    · rw [if_neg hsz] at hi
      rw [hold_at i (hswf.cache_sub sz i hi)] at hf ⊢
      exact hswf.cache_align sz i hi f hf
  · intro i hi
    rcases hmem' i hi with h | rfl
    · rw [hold_at i h]
      exact hswf.slab_size i h
    · rw [hat_N]
      rfl
  · intro i hi
    rcases hmem' i hi with h | rfl
    · rw [hold_at i h]
      exact hswf.slab_from i h
    · rw [hat_N]
      rfl
  · intro i hi
    rcases hmem' i hi with h | rfl
    · rw [hold_at i h]
      exact hswf.used_le i h
    · rw [hat_N]
      show 0 ≤ SlabMaxSize
      omega
  · intro i hi
    rcases hmem' i hi with h | rfl
    · rw [hold_at i h]
      exact hswf.used_eq i h
    · rw [hat_N]
      rfl
  · intro i hi
    rcases hmem' i hi with h | rfl
    · rw [hold_at i h]
      exact hswf.cell_keys i h
    · rw [hat_N]
      exact List.nodup_nil
  · intro i hi p hp
    rcases hmem' i hi with h | rfl
    · rw [hold_at i h] at hp ⊢
      exact hswf.cell_lo i h p hp
    · rw [hat_N] at hp
      exact absurd hp (by simp [newSlab])
  · intro i hi p hp
    rcases hmem' i hi with h | rfl
    · rw [hold_at i h] at hp ⊢
      exact hswf.cell_hi i h p hp
    · rw [hat_N] at hp
      exact absurd hp (by simp [newSlab])
  · intro i hi p hp
    rcases hmem' i hi with h | rfl
    · rw [hold_at i h] at hp ⊢
      exact hswf.cell_align i h p hp
    · rw [hat_N] at hp
      exact absurd hp (by simp [newSlab])
  · intro i hi
    rcases hmem' i hi with h | rfl
    · rw [hold_at i h]
      exact hswf.cell_disj i h
    · rw [hat_N]
      exact List.Pairwise.nil
  · intro i hi p hp
    rcases hmem' i hi with h | rfl
    · rw [hold_at i h] at hp ⊢
      exact hswf.cell_end_lt i h p hp
    · rw [hat_N] at hp
      exact absurd hp (by simp [newSlab])
  · intro i hi f hf
    rcases hmem' i hi with h | rfl
    · rw [hold_at i h] at hf ⊢
      exact hswf.freelist_lo i h f hf
    · rw [hat_N] at hf ⊢
      have hfb : f = base := by simpa [newSlab] using hf
      subst hfb
      exact le_refl _
  · intro i hi f hf
    rcases hmem' i hi with h | rfl
    · rw [hold_at i h] at hf ⊢
      exact hswf.freelist_hi i h f hf
    · rw [hat_N] at hf ⊢
      have hfb : f = base := by simpa [newSlab] using hf
      rw [hfb]
      show base < base + SlabMaxSize
      have hpos : 0 < SlabMaxSize := by decide
      omega

/-- Growing the arena by a fresh slab and then allocating from it: the
allocation succeeds at the slab base, the buddy state passes through, the
slab invariant holds, and exactly one cell is added while `SlabMaxSize`
new free space was brought in. -/
theorem grow_then_finish_spec {s : SlabAllocator} {b' : BuddyAllocator}
    {base size : Nat} {L : List Nat} {cnts : List (Nat × Nat)}
    (hswf : SlabWF s) (hsz : size ≤ SlabMaxSize)
    (hL : ∀ j ∈ L, j ∈ cacheList s size ∨ j = s.store.length)
    (hLnd : L.Nodup) (hLN : s.store.length ∈ L)
    (hLsup : ∀ j ∈ cacheList s size, j ∈ L) :
    (slabAllocFinish { store := s.store ++ [newSlab base SlabMaxSize true]
                       slabs := s.slabs ++ [s.store.length]
                       cache := alistSet s.cache size L
                       counts := cnts } b' size s.store.length).1 = .ok base ∧
    (slabAllocFinish { store := s.store ++ [newSlab base SlabMaxSize true]
                       slabs := s.slabs ++ [s.store.length]
                       cache := alistSet s.cache size L
                       counts := cnts } b' size s.store.length).2.2 = b' ∧
    SlabWF (slabAllocFinish { store := s.store ++ [newSlab base SlabMaxSize true]
                              slabs := s.slabs ++ [s.store.length]
                              cache := alistSet s.cache size L
                              counts := cnts } b' size s.store.length).2.1 ∧
    (slabAllocFinish { store := s.store ++ [newSlab base SlabMaxSize true]
                       slabs := s.slabs ++ [s.store.length]
                       cache := alistSet s.cache size L
                       counts := cnts } b' size s.store.length).2.1.slabs =
      s.slabs ++ [s.store.length] ∧
    (∀ i ∈ s.slabs,
      (slabAt (slabAllocFinish { store := s.store ++ [newSlab base SlabMaxSize true]
                                 slabs := s.slabs ++ [s.store.length]
                                 cache := alistSet s.cache size L
                                 counts := cnts } b' size s.store.length).2.1 i).start =
        (slabAt s i).start ∧
      (slabAt (slabAllocFinish { store := s.store ++ [newSlab base SlabMaxSize true]
                                 slabs := s.slabs ++ [s.store.length]
                                 cache := alistSet s.cache size L
                                 counts := cnts } b' size s.store.length).2.1 i).size =
        (slabAt s i).size) ∧
    (slabAt (slabAllocFinish { store := s.store ++ [newSlab base SlabMaxSize true]
                               slabs := s.slabs ++ [s.store.length]
                               cache := alistSet s.cache size L
                               counts := cnts } b' size s.store.length).2.1
      s.store.length).start = base ∧
    (slabCells (slabAllocFinish { store := s.store ++ [newSlab base SlabMaxSize true]
                                  slabs := s.slabs ++ [s.store.length]
                                  cache := alistSet s.cache size L
                                  counts := cnts } b' size s.store.length).2.1).Perm
      ((base, size) :: slabCells s) ∧
    slabFreeSize (slabAllocFinish { store := s.store ++ [newSlab base SlabMaxSize true]
                                    slabs := s.slabs ++ [s.store.length]
                                    cache := alistSet s.cache size L
                                    counts := cnts } b' size s.store.length).2.1 + size =
      slabFreeSize s + SlabMaxSize := by
  set s1 : SlabAllocator :=
    { store := s.store ++ [newSlab base SlabMaxSize true]
      slabs := s.slabs ++ [s.store.length]
      cache := alistSet s.cache size L
      counts := cnts } with hs1
  have hswf1 : SlabWF s1 := slabWF_grow hswf hL hLnd hLN hLsup
  have hN1 : s.store.length ∈ s1.slabs := by
    show s.store.length ∈ s.slabs ++ [s.store.length]
    exact List.mem_append.2 (Or.inr (by simp))
  have hgetN : s1.store.getD s.store.length emptySlab =
      newSlab base SlabMaxSize true := by
    show (s.store ++ [newSlab base SlabMaxSize true]).getD s.store.length emptySlab = _
    exact getD_append_self _ _
  have hcl1 : cacheList s1 size = L := by
    show (alistGet (alistSet s.cache size L) size).getD [] = L
    rw [alistGet_set_self]
    rfl
  have hcache1 : s.store.length ∈ cacheList s1 size := by
    rw [hcl1]
    exact hLN
  have hok := @slabAllocFinish_fresh_ok s1 b' _ _ _ hgetN hsz
  obtain ⟨f1, f2, f3, f4, f5, f6, f7, f8⟩ := slabAllocFinish_spec (b := b')
    hswf1 hN1 hcache1
  obtain ⟨fperm, ffree⟩ := f8 base hok
  have hold_at : ∀ i ∈ s.slabs, slabAt s1 i = slabAt s i := by
    intro i hi
    show (s.store ++ [newSlab base SlabMaxSize true]).getD i emptySlab = _
    exact getD_append_left (hswf.idx_lt i hi) _
  have hcells1 : slabCells s1 = slabCells s := by
    show ((s.slabs ++ [s.store.length]).map (fun i => (slabAt s1 i).allocated)).flatten =
      (s.slabs.map (fun i => (slabAt s i).allocated)).flatten
    rw [List.map_append, List.flatten_append]
    have h2 : (([s.store.length].map (fun i => (slabAt s1 i).allocated))).flatten = [] := by
      show (slabAt s1 s.store.length).allocated ++ [] = []
      rw [show slabAt s1 s.store.length = newSlab base SlabMaxSize true from hgetN]
      rfl
    rw [h2, List.append_nil]
    congr 1
    exact List.map_congr_left (fun i hi => by rw [hold_at i hi])
  have hfree1 : slabFreeSize s1 = slabFreeSize s + SlabMaxSize := by
    show ((s.slabs ++ [s.store.length]).map
      (fun i => (slabAt s1 i).size - (slabAt s1 i).used)).sum = _
    rw [List.map_append, List.sum_append]
    have h2 : (([s.store.length].map
        (fun i => (slabAt s1 i).size - (slabAt s1 i).used))).sum = SlabMaxSize := by
      show (slabAt s1 s.store.length).size - (slabAt s1 s.store.length).used + 0 =
        SlabMaxSize
      rw [show slabAt s1 s.store.length = newSlab base SlabMaxSize true from hgetN]
      rfl
    rw [h2]
    congr 1
    show (s.slabs.map (fun i => (slabAt s1 i).size - (slabAt s1 i).used)).sum =
      (s.slabs.map (fun i => (slabAt s i).size - (slabAt s i).used)).sum
    congr 1
    exact List.map_congr_left (fun i hi => by rw [hold_at i hi])
  refine ⟨hok, f1, f5, f2, ?_, ?_, ?_, ?_⟩
  · intro i hi
    obtain ⟨hst, hsz'⟩ := f6 i
    rw [hst, hsz', hold_at i hi]
    exact ⟨rfl, rfl⟩
  · rw [(f6 s.store.length).1]
    rw [show slabAt s1 s.store.length = newSlab base SlabMaxSize true from hgetN]
    rfl
  · rw [← hcells1]
    exact fperm
  · rw [← hfree1]
    exact ffree

theorem buddyAllocGo_error_cases : ∀ (rs : List BuddyRegion) (size : Nat) (e : AllocErr),
    (buddyAllocGo size rs).1 = .error e → e = .noSpace ∨ e = .panicDoubleAlloc := by
  intro rs
  induction rs with
  | nil =>
    intro size e h
    simp only [buddyAllocGo] at h
    simp only [Except.error.injEq] at h
    exact Or.inl h.symm
  | cons r t ih =>
    intro size e h
    cases hra : regionAllocate r size with
    | mk res r1 =>
      cases res with
      | ok a =>
        simp only [buddyAllocGo, hra] at h
        simp at h
      | error e1 =>
        by_cases hpd : e1 = AllocErr.panicDoubleAlloc
        · subst hpd
          simp only [buddyAllocGo, hra, if_pos rfl] at h
          have hpe : AllocErr.panicDoubleAlloc = e := by simpa using h
          exact Or.inr hpe.symm
        · cases hgo : buddyAllocGo size t with
          | mk res2 t2 =>
            simp only [buddyAllocGo, hra, if_neg hpd, hgo] at h
            exact ih size e (by rw [hgo]; exact h)

theorem buddyAllocate_error_cases {b : BuddyAllocator} {size : Nat} {e : AllocErr}
    (h : (buddyAllocate b size).1 = .error e) : e = .noSpace ∨ e = .panicDoubleAlloc := by
  cases hx : buddyAllocGo size b.regions with
  | mk res rs =>
    simp only [buddyAllocate, hx] at h
    exact buddyAllocGo_error_cases b.regions size e (by rw [hx]; exact h)

/-- `slabAllocCore` (the cached-hit / grow dispatch of
`SlabAllocator.Allocate`): errors are never `ErrSlabFull` and leave every
slab's cells untouched with the buddy state restored; a success either
reuses a cached slab (buddy untouched) or grows by one fresh slab backed
by a 1 MiB buddy allocation. -/
theorem slabAllocCore_spec {s : SlabAllocator} {b : BuddyAllocator} {size : Nat}
    (hswf : SlabWF s) (hsz : size ≤ SlabMaxSize) :
    (∀ e, (slabAllocCore s b size).1 = .error e →
      e ≠ .slabFull ∧ SlabWF (slabAllocCore s b size).2.1 ∧
      (slabAllocCore s b size).2.2 = b ∧
      (slabAllocCore s b size).2.1.slabs = s.slabs ∧
      (∀ i, (slabAt (slabAllocCore s b size).2.1 i).start = (slabAt s i).start ∧
        (slabAt (slabAllocCore s b size).2.1 i).size = (slabAt s i).size ∧
        (slabAt (slabAllocCore s b size).2.1 i).allocated = (slabAt s i).allocated ∧
        (slabAt (slabAllocCore s b size).2.1 i).used = (slabAt s i).used)) ∧
    (∀ addr, (slabAllocCore s b size).1 = .ok addr →
      SlabWF (slabAllocCore s b size).2.1 ∧
      (((slabAllocCore s b size).2.2 = b ∧
        (slabAllocCore s b size).2.1.slabs = s.slabs ∧
        (∀ i, (slabAt (slabAllocCore s b size).2.1 i).start = (slabAt s i).start ∧
          (slabAt (slabAllocCore s b size).2.1 i).size = (slabAt s i).size) ∧
        (slabCells (slabAllocCore s b size).2.1).Perm ((addr, size) :: slabCells s) ∧
        slabFreeSize (slabAllocCore s b size).2.1 + size = slabFreeSize s) ∨
       ((buddyAllocate b SlabMaxSize).1 = .ok addr ∧
        (slabAllocCore s b size).2.2 = (buddyAllocate b SlabMaxSize).2 ∧
        (slabAllocCore s b size).2.1.slabs = s.slabs ++ [s.store.length] ∧
        (∀ i ∈ s.slabs,
          (slabAt (slabAllocCore s b size).2.1 i).start = (slabAt s i).start ∧
          (slabAt (slabAllocCore s b size).2.1 i).size = (slabAt s i).size) ∧
        (slabAt (slabAllocCore s b size).2.1 s.store.length).start = addr ∧
        (slabCells (slabAllocCore s b size).2.1).Perm ((addr, size) :: slabCells s) ∧
        slabFreeSize (slabAllocCore s b size).2.1 + size =
          slabFreeSize s + SlabMaxSize))) := by
  cases hfind : ((alistGet s.cache size).getD []).find? (fun i =>
      decide ((s.store.getD i emptySlab).used + size ≤ (s.store.getD i emptySlab).size))
    with
  | some tIdx =>
    have htc : tIdx ∈ cacheList s size := List.mem_of_find?_eq_some hfind
    have hts : tIdx ∈ s.slabs := hswf.cache_sub size tIdx htc
    have hred : slabAllocCore s b size = slabAllocFinish s b size tIdx := by
      simp only [slabAllocCore, hfind]
    rw [hred]
    obtain ⟨f1, f2, f3, f4, f5, f6, f7, f8⟩ := slabAllocFinish_spec (b := b)
      hswf hts htc
    constructor
    · intro e he
      obtain ⟨hne, hunch⟩ := f7 e he
      refine ⟨hne, f5, f1, f2, ?_⟩
      intro i
      exact ⟨(f6 i).1, (f6 i).2, (hunch i).1, (hunch i).2⟩
    · intro addr ha
      obtain ⟨hperm, hfree⟩ := f8 addr ha
      exact ⟨f5, Or.inl ⟨f1, f2, fun i => f6 i, hperm, hfree⟩⟩
  | none =>
    cases hba : buddyAllocate b SlabMaxSize with
    | mk res b' =>
      cases res with
      | error e1 =>
        have hred : slabAllocCore s b size = (.error e1, s, b') := by
          simp only [slabAllocCore, hfind, hba]
        have hb' : b' = b := by
          have := @buddyAllocate_error_state b SlabMaxSize e1 (by rw [hba])
          rw [hba] at this
          exact this
        rw [hred, hb']
        constructor
        · intro e he
          simp only [Except.error.injEq] at he
          have hcases := @buddyAllocate_error_cases b SlabMaxSize e1 (by rw [hba])
          refine ⟨?_, hswf, rfl, rfl, fun i => ⟨rfl, rfl, rfl, rfl⟩⟩
          rw [← he]
          rcases hcases with h | h <;> (rw [h]; intro hc; exact AllocErr.noConfusion hc)
        · intro addr ha
          exact absurd ha (by simp)
      | ok base =>
        have hred : slabAllocCore s b size =
            slabAllocFinish
              { store := s.store ++ [newSlab base SlabMaxSize true]
                slabs := s.slabs ++ [s.store.length]
                cache := alistSet s.cache size
                  (((alistGet s.cache size).getD []) ++ [s.store.length])
                counts := alistSet s.counts size
                  ((alistGet s.counts size).getD 0 + 1) }
              b' size s.store.length := by
          simp only [slabAllocCore, hfind, hba]
        have hNnot : s.store.length ∉ cacheList s size := by
          intro hc
          have := hswf.idx_lt _ (hswf.cache_sub size _ hc)
          omega
        obtain ⟨g1, g2, g3, g4, g5, g6, g7, g8⟩ := @grow_then_finish_spec _ b' base _
          (((alistGet s.cache size).getD []) ++ [s.store.length])
          (alistSet s.counts size ((alistGet s.counts size).getD 0 + 1))
          hswf hsz
          (by
            intro j hj
            rcases List.mem_append.1 hj with h | h
            · exact Or.inl h
            · exact Or.inr (by simpa using h))
          (by
            rw [List.nodup_append]
            refine ⟨hswf.cache_nodup size, by simp, ?_⟩
            intro a ha hb2
            simp only [List.mem_singleton] at hb2
            subst hb2
            exact hNnot ha)
          (List.mem_append.2 (Or.inr (by simp)))
          (fun j hj => List.mem_append.2 (Or.inl hj))
        rw [hred]
        constructor
        · intro e he
          rw [g1] at he
          exact absurd he (by simp)
        · intro addr ha
          rw [g1] at ha
          simp only [Except.ok.injEq] at ha
          subst ha
          refine ⟨g3, Or.inr ⟨rfl, by rw [g2], g4, g5, g6, g7, g8⟩⟩

/-- `SlabAllocator.Allocate`: errors are never `ErrSlabFull` and leave
every slab's cells untouched with the buddy state unchanged; a success
either reuses a cached slab (buddy untouched) or grows by one fresh slab
backed by a 1 MiB buddy allocation whose base the call returns. -/
theorem slabAllocate_spec {s : SlabAllocator} {b : BuddyAllocator} {size : Nat}
    (hswf : SlabWF s) (hsz : size ≤ SlabMaxSize) :
    (∀ e, (slabAllocate s b size).1 = .error e →
      e ≠ .slabFull ∧ SlabWF (slabAllocate s b size).2.1 ∧
      (slabAllocate s b size).2.2 = b ∧
      (slabAllocate s b size).2.1.slabs = s.slabs ∧
      (∀ i, (slabAt (slabAllocate s b size).2.1 i).start = (slabAt s i).start ∧
        (slabAt (slabAllocate s b size).2.1 i).size = (slabAt s i).size ∧
        (slabAt (slabAllocate s b size).2.1 i).allocated = (slabAt s i).allocated ∧
        (slabAt (slabAllocate s b size).2.1 i).used = (slabAt s i).used)) ∧
    (∀ addr, (slabAllocate s b size).1 = .ok addr →
      SlabWF (slabAllocate s b size).2.1 ∧
      (((slabAllocate s b size).2.2 = b ∧
        (slabAllocate s b size).2.1.slabs = s.slabs ∧
        (∀ i, (slabAt (slabAllocate s b size).2.1 i).start = (slabAt s i).start ∧
          (slabAt (slabAllocate s b size).2.1 i).size = (slabAt s i).size) ∧
        (slabCells (slabAllocate s b size).2.1).Perm ((addr, size) :: slabCells s) ∧
        slabFreeSize (slabAllocate s b size).2.1 + size = slabFreeSize s) ∨
       ((buddyAllocate b SlabMaxSize).1 = .ok addr ∧
        (slabAllocate s b size).2.2 = (buddyAllocate b SlabMaxSize).2 ∧
        (slabAllocate s b size).2.1.slabs = s.slabs ++ [s.store.length] ∧
        (∀ i ∈ s.slabs,
          (slabAt (slabAllocate s b size).2.1 i).start = (slabAt s i).start ∧
          (slabAt (slabAllocate s b size).2.1 i).size = (slabAt s i).size) ∧
        (slabAt (slabAllocate s b size).2.1 s.store.length).start = addr ∧
        (slabCells (slabAllocate s b size).2.1).Perm ((addr, size) :: slabCells s) ∧
        slabFreeSize (slabAllocate s b size).2.1 + size =
          slabFreeSize s + SlabMaxSize))) := by
  cases hemp : ((alistGet s.cache size).getD []).isEmpty with
  | false =>
    have hred : slabAllocate s b size = slabAllocCore s b size := by
      simp only [slabAllocate, hemp]
      rfl
    rw [hred]
    exact slabAllocCore_spec hswf hsz
  | true =>
    cases hba : buddyAllocate b SlabMaxSize with
    | mk res b' =>
      cases res with
      | error e1 =>
        have hred : slabAllocate s b size = (.error e1, s, b') := by
          simp only [slabAllocate, hemp, hba]
          rw [if_pos trivial]
        have hb' : b' = b := by
          have := @buddyAllocate_error_state b SlabMaxSize e1 (by rw [hba])
          rw [hba] at this
          exact this
        rw [hred, hb']
        constructor
        · intro e he
          simp only [Except.error.injEq] at he
          have hcases := @buddyAllocate_error_cases b SlabMaxSize e1 (by rw [hba])
          refine ⟨?_, hswf, rfl, rfl, fun i => ⟨rfl, rfl, rfl, rfl⟩⟩
          rw [← he]
          rcases hcases with h | h <;> (rw [h]; intro hc; exact AllocErr.noConfusion hc)
        · intro addr ha
          exact absurd ha (by simp)
      | ok base =>
        have hclempty : cacheList s size = [] := by
          show (alistGet s.cache size).getD [] = []
          exact List.isEmpty_iff.1 hemp
        have hgetN : (s.store ++ [newSlab base SlabMaxSize true]).getD
            s.store.length emptySlab = newSlab base SlabMaxSize true :=
          getD_append_self _ _
        have hpred : (decide (((s.store ++ [newSlab base SlabMaxSize true]).getD
            s.store.length emptySlab).used + size ≤
            ((s.store ++ [newSlab base SlabMaxSize true]).getD
              s.store.length emptySlab).size)) = true := by
          rw [hgetN]
          exact decide_eq_true (by show 0 + size ≤ SlabMaxSize; omega)
        have hred : slabAllocate s b size = slabAllocFinish
            { store := s.store ++ [newSlab base SlabMaxSize true]
              slabs := s.slabs ++ [s.store.length]
              cache := alistSet s.cache size [s.store.length]
              counts := alistSet s.counts size 1 }
            b' size s.store.length := by
          simp only [slabAllocate, hemp, hba, slabAllocCore, alistGet_set_self,
            Option.getD_some, List.find?, hpred]
          rw [if_pos trivial]
        obtain ⟨g1, g2, g3, g4, g5, g6, g7, g8⟩ := @grow_then_finish_spec _ b' base _ [s.store.length]
          (alistSet s.counts size 1)
          hswf hsz
          (by
            intro j hj
            simp only [List.mem_singleton] at hj
            exact Or.inr hj)
          (by simp)
          (by simp)
          (by
            intro j hj
            rw [hclempty] at hj
            exact absurd hj (by simp))
        rw [hred]
        constructor
        · intro e he
          rw [g1] at he
          exact absurd he (by simp)
        · intro addr ha
          rw [g1] at ha
          simp only [Except.ok.injEq] at ha
          subst ha
          refine ⟨g3, Or.inr ⟨rfl, by rw [g2], g4, g5, g6, g7, g8⟩⟩

/-! #### Freeing a slab cell -/

theorem perm_flatten {l₁ l₂ : List (List α)} (h : l₁.Perm l₂) :
    l₁.flatten.Perm l₂.flatten := by
  induction h with
  | nil => exact List.Perm.refl _
  | cons x _ ih =>
    simp only [List.flatten_cons]
    exact ih.append_left x
  | swap x y l =>
    simp only [List.flatten_cons]
    rw [← List.append_assoc, ← List.append_assoc]
    exact List.perm_append_comm.append_right l.flatten
  | trans _ _ ih1 ih2 => exact ih1.trans ih2

theorem sizesSum_eq_zero {m : List (Nat × Nat)} (hpos : ∀ p ∈ m, 0 < p.2)
    (h : sizesSum m = 0) : m = [] := by
  cases m with
  | nil => rfl
  | cons p t =>
    rw [sizesSum_cons] at h
    have := hpos p (List.mem_cons_self _ _)
    omega

theorem pairwise_map_of_mem {l : List Nat} (hnd : l.Nodup) {f : Nat → Nat × Nat}
    (hpw : (l.map f).Pairwise Nonoverlap) {a b : Nat} (ha : a ∈ l) (hb : b ∈ l)
    (hne : a ≠ b) : Nonoverlap (f a) (f b) := by
  obtain ⟨i, hi, hgi⟩ := List.mem_iff_getElem.1 ha
  obtain ⟨j, hj, hgj⟩ := List.mem_iff_getElem.1 hb
  have hij : i ≠ j := by
    intro hc
    subst hc
    rw [hgi] at hgj
    exact hne hgj
  rw [List.pairwise_iff_getElem] at hpw
  rcases Nat.lt_or_ge i j with h | h
  · have := hpw i j (by simpa using hi) (by simpa using hj) h
    rw [List.getElem_map, List.getElem_map, hgi, hgj] at this
    exact this
  · have hji : j < i := by omega
    have := hpw j i (by simpa using hj) (by simpa using hi) hji
    rw [List.getElem_map, List.getElem_map, hgi, hgj] at this
    exact nonoverlap_symm this

theorem single_cell_of_used_eq {m : List (Nat × Nat)} {start size : Nat}
    (hs1 : 1 ≤ size) (hall : ∀ p ∈ m, p.2 = size) (hmem : (start, size) ∈ m)
    (hsum : sizesSum m = size) : m = [(start, size)] := by
  cases m with
  | nil => simp at hmem
  | cons p t =>
    cases t with
    | nil =>
      rcases List.mem_cons.1 hmem with h | h
      · rw [← h]
      · simp at h
    | cons q r =>
      have hp := hall p (by simp)
      have hq := hall q (by simp)
      rw [sizesSum_cons, sizesSum_cons] at hsum
      omega

/-- Removing one recorded cell from a cached slab (appending its address
to the free list, as the code does) keeps the slab allocator
well-formed. -/
theorem slabWF_remove_cell {s : SlabAllocator} {tIdx start size : Nat}
    (hswf : SlabWF s) (hmem : tIdx ∈ s.slabs)
    (hcell : (start, size) ∈ (slabAt s tIdx).allocated) :
    SlabWF { s with store := (s.store.set tIdx
      ⟨(slabAt s tIdx).start, (slabAt s tIdx).size, (slabAt s tIdx).used - size,
        alistErase (slabAt s tIdx).allocated start,
        (slabAt s tIdx).freeList ++ [start], (slabAt s tIdx).fromBuddy⟩) } := by
  have htlen : tIdx < s.store.length := hswf.idx_lt tIdx hmem
  have hsub : (alistErase (slabAt s tIdx).allocated start).Sublist
      (slabAt s tIdx).allocated := List.eraseP_sublist _
  have hap : (slabAt s tIdx).allocated.Perm
      ((start, size) :: alistErase (slabAt s tIdx).allocated start) :=
    alist_erase_perm (hswf.cell_keys tIdx hmem) hcell
  have hszc : ∀ sz, tIdx ∈ cacheList s sz → sz = size := by
    intro sz hsz
    exact (hswf.cache_cell sz tIdx hsz (start, size) hcell).symm
  have hat : ∀ i, slabAt { s with store := (s.store.set tIdx
      ⟨(slabAt s tIdx).start, (slabAt s tIdx).size, (slabAt s tIdx).used - size,
        alistErase (slabAt s tIdx).allocated start,
        (slabAt s tIdx).freeList ++ [start], (slabAt s tIdx).fromBuddy⟩) } i =
      if i = tIdx then
        ⟨(slabAt s tIdx).start, (slabAt s tIdx).size, (slabAt s tIdx).used - size,
          alistErase (slabAt s tIdx).allocated start,
          (slabAt s tIdx).freeList ++ [start], (slabAt s tIdx).fromBuddy⟩
      else slabAt s i := by
    intro i
    by_cases hi : i = tIdx
    · subst hi
      rw [if_pos rfl]
      exact getD_set_self htlen _ _
    · rw [if_neg hi]
      exact getD_set_other (fun hc => hi hc.symm) _ _
  have hflfacts : ∀ f ∈ (slabAt s tIdx).freeList ++ [start],
      (slabAt s tIdx).start ≤ f ∧
      f < (slabAt s tIdx).start + (slabAt s tIdx).size ∧
      ∀ sz, tIdx ∈ cacheList s sz →
        (f - (slabAt s tIdx).start) % modAlign sz = 0 := by
    intro f hf
    rcases List.mem_append.1 hf with hf | hf
    · exact ⟨hswf.freelist_lo tIdx hmem f hf, hswf.freelist_hi tIdx hmem f hf,
        fun sz hsz => hswf.cache_align sz tIdx hsz f hf⟩
    · simp only [List.mem_singleton] at hf
      subst hf
      refine ⟨hswf.cell_lo tIdx hmem _ hcell, hswf.cell_end_lt tIdx hmem _ hcell, ?_⟩
      intro sz hsz
      have := hswf.cell_align tIdx hmem _ hcell
      rw [hszc sz hsz]
      exact this
  refine ⟨?_, hswf.idx_nodup, hswf.cache_keys, hswf.cache_sub, hswf.cache_nodup,
    hswf.cache_unique, hswf.cache_mem, ?_, ?_, ?_, ?_, ?_, ?_, ?_, ?_, ?_, ?_, ?_, ?_,
    ?_, ?_⟩
  · intro i hi
    rw [List.length_set]
    exact hswf.idx_lt i hi
  · intro sz i hi p hp
    rw [hat i] at hp
    by_cases hit : i = tIdx
    · rw [if_pos hit] at hp
      subst hit
      exact hswf.cache_cell sz i hi p (hsub.mem hp)
    · rw [if_neg hit] at hp
      exact hswf.cache_cell sz i hi p hp
  · intro sz i hi f hf
    rw [hat i] at hf ⊢
    by_cases hit : i = tIdx
    · rw [if_pos hit] at hf ⊢
      subst hit
      exact (hflfacts f hf).2.2 sz hi
    · rw [if_neg hit] at hf ⊢
      exact hswf.cache_align sz i hi f hf
  · intro i hi
    rw [hat i]
    by_cases hit : i = tIdx
    · rw [if_pos hit]; subst hit; exact hswf.slab_size i hi
    · rw [if_neg hit]; exact hswf.slab_size i hi
  · intro i hi
    rw [hat i]
    by_cases hit : i = tIdx
    · rw [if_pos hit]; subst hit; exact hswf.slab_from i hi
    · rw [if_neg hit]; exact hswf.slab_from i hi
  · intro i hi
    rw [hat i]
    by_cases hit : i = tIdx
    · rw [if_pos hit]
      subst hit
      show (slabAt s i).used - size ≤ (slabAt s i).size
      have := hswf.used_le i hi
      omega
    · rw [if_neg hit]; exact hswf.used_le i hi
  · intro i hi
    rw [hat i]
    by_cases hit : i = tIdx
    · rw [if_pos hit]
      subst hit
      show (slabAt s i).used - size = sizesSum (alistErase (slabAt s i).allocated start)
      have h1 : sizesSum (slabAt s i).allocated =
          size + sizesSum (alistErase (slabAt s i).allocated start) := by
        rw [sizesSum_perm hap, sizesSum_cons]
      rw [hswf.used_eq i hi, h1]
      omega
    · rw [if_neg hit]; exact hswf.used_eq i hi
  · intro i hi
    rw [hat i]
    by_cases hit : i = tIdx
    · rw [if_pos hit]
      subst hit
      exact (hswf.cell_keys i hi).sublist (hsub.map _)
    · rw [if_neg hit]; exact hswf.cell_keys i hi
  · intro i hi p hp
    rw [hat i] at hp ⊢
    by_cases hit : i = tIdx
    · rw [if_pos hit] at hp ⊢
      subst hit
      exact hswf.cell_lo i hi p (hsub.mem hp)
    · rw [if_neg hit] at hp ⊢; exact hswf.cell_lo i hi p hp
  · intro i hi p hp
    rw [hat i] at hp ⊢
    by_cases hit : i = tIdx
    · rw [if_pos hit] at hp ⊢
      subst hit
      exact hswf.cell_hi i hi p (hsub.mem hp)
    · rw [if_neg hit] at hp ⊢; exact hswf.cell_hi i hi p hp
  · intro i hi p hp
    rw [hat i] at hp ⊢
    by_cases hit : i = tIdx
    · rw [if_pos hit] at hp ⊢
      subst hit
      exact hswf.cell_align i hi p (hsub.mem hp)
    · rw [if_neg hit] at hp ⊢; exact hswf.cell_align i hi p hp
  · intro i hi
    rw [hat i]
    by_cases hit : i = tIdx
    · rw [if_pos hit]
      subst hit
      exact (hswf.cell_disj i hi).sublist hsub
    · rw [if_neg hit]; exact hswf.cell_disj i hi
  · intro i hi p hp
    rw [hat i] at hp ⊢
    by_cases hit : i = tIdx
    · rw [if_pos hit] at hp ⊢
      subst hit
      exact hswf.cell_end_lt i hi p (hsub.mem hp)
    · rw [if_neg hit] at hp ⊢; exact hswf.cell_end_lt i hi p hp
  · intro i hi f hf
    rw [hat i] at hf ⊢
    by_cases hit : i = tIdx
    · rw [if_pos hit] at hf ⊢
      subst hit
      exact (hflfacts f hf).1
    · rw [if_neg hit] at hf ⊢; exact hswf.freelist_lo i hi f hf
  · intro i hi f hf
    rw [hat i] at hf ⊢
    by_cases hit : i = tIdx
    · rw [if_pos hit] at hf ⊢
      subst hit
      exact (hflfacts f hf).2.1
    · rw [if_neg hit] at hf ⊢; exact hswf.freelist_hi i hi f hf

/-- Destroying a slab: drop its index from `slabs`, replace the cache with
any table whose lists consist of old entries other than the destroyed
index, and overwrite the destroyed arena slot arbitrarily.  The slab
allocator stays well-formed. -/
theorem slabWF_destroy {s : SlabAllocator} {tIdx : Nat} {X : Slab}
    {C : List (Nat × List Nat)} {cnts : List (Nat × Nat)}
    (hswf : SlabWF s) (hmem : tIdx ∈ s.slabs)
    (hCkeys : (keysOf C).Nodup)
    (hCL : ∀ sz, ∀ i, i ∈ (alistGet C sz).getD [] → i ≠ tIdx ∧ i ∈ cacheList s sz)
    (hCnd : ∀ sz, ((alistGet C sz).getD []).Nodup)
    (hCmem : ∀ i ∈ s.slabs, i ≠ tIdx → ∃ sz, i ∈ (alistGet C sz).getD []) :
    SlabWF { store := s.store.set tIdx X, slabs := s.slabs.erase tIdx,
             cache := C, counts := cnts } := by
  have hperm : s.slabs.Perm (tIdx :: s.slabs.erase tIdx) := List.perm_cons_erase hmem
  have hnd' : (tIdx :: s.slabs.erase tIdx).Nodup := hperm.nodup_iff.1 hswf.idx_nodup
  have htnot : tIdx ∉ s.slabs.erase tIdx := (List.nodup_cons.1 hnd').1
  have hmem' : ∀ i ∈ s.slabs.erase tIdx, i ∈ s.slabs ∧ i ≠ tIdx := by
    intro i hi
    refine ⟨List.mem_of_mem_erase hi, ?_⟩
    intro hc
    subst hc
    exact htnot hi
  have hat : ∀ i, i ≠ tIdx →
      slabAt { store := s.store.set tIdx X, slabs := s.slabs.erase tIdx,
               cache := C, counts := cnts } i = slabAt s i := by
    intro i hi
    exact getD_set_other (fun hc => hi hc.symm) _ _
  have hclC : ∀ sz, cacheList { store := s.store.set tIdx X,
                                slabs := s.slabs.erase tIdx,
                                cache := C, counts := cnts } sz =
      (alistGet C sz).getD [] := fun _ => rfl
  refine ⟨?_, ?_, hCkeys, ?_, ?_, ?_, ?_, ?_, ?_, ?_, ?_, ?_, ?_, ?_, ?_, ?_, ?_, ?_,
    ?_, ?_, ?_⟩
  · intro i hi
    obtain ⟨hio, _⟩ := hmem' i hi
    show i < (s.store.set tIdx X).length
    rw [List.length_set]
    exact hswf.idx_lt i hio
  · exact hswf.idx_nodup.sublist (List.erase_sublist _ _)
  · intro sz i hi
    rw [hclC] at hi
    obtain ⟨hne, hold⟩ := hCL sz i hi
    show i ∈ s.slabs.erase tIdx
    rw [List.mem_erase_of_ne hne]
    exact hswf.cache_sub sz i hold
  · intro sz
    rw [hclC]
    exact hCnd sz
  · intro sz sz' i h1 h2
    rw [hclC] at h1 h2
    exact hswf.cache_unique sz sz' i (hCL sz i h1).2 (hCL sz' i h2).2
  · intro i hi
    obtain ⟨hio, hne⟩ := hmem' i hi
    obtain ⟨sz, hsz⟩ := hCmem i hio hne
    exact ⟨sz, by rw [hclC]; exact hsz⟩
  · intro sz i hi p hp
    rw [hclC] at hi
    obtain ⟨hne, hold⟩ := hCL sz i hi
    rw [hat i hne] at hp
    exact hswf.cache_cell sz i hold p hp
  · intro sz i hi f hf
    rw [hclC] at hi
    obtain ⟨hne, hold⟩ := hCL sz i hi
    rw [hat i hne] at hf ⊢
    exact hswf.cache_align sz i hold f hf
  · intro i hi
    obtain ⟨hio, hne⟩ := hmem' i hi
    rw [hat i hne]
    exact hswf.slab_size i hio
  · intro i hi
    obtain ⟨hio, hne⟩ := hmem' i hi
    rw [hat i hne]
    exact hswf.slab_from i hio
  · intro i hi
    obtain ⟨hio, hne⟩ := hmem' i hi
    rw [hat i hne]
    exact hswf.used_le i hio
  · intro i hi
    obtain ⟨hio, hne⟩ := hmem' i hi
    rw [hat i hne]
    exact hswf.used_eq i hio
  · intro i hi
    obtain ⟨hio, hne⟩ := hmem' i hi
    rw [hat i hne]
    exact hswf.cell_keys i hio
  · intro i hi p hp
    obtain ⟨hio, hne⟩ := hmem' i hi
    rw [hat i hne] at hp ⊢
    exact hswf.cell_lo i hio p hp
  · intro i hi p hp
    obtain ⟨hio, hne⟩ := hmem' i hi
    rw [hat i hne] at hp ⊢
    exact hswf.cell_hi i hio p hp
  · intro i hi p hp
    obtain ⟨hio, hne⟩ := hmem' i hi
    rw [hat i hne] at hp ⊢
    exact hswf.cell_align i hio p hp
  · intro i hi
    obtain ⟨hio, hne⟩ := hmem' i hi
    rw [hat i hne]
    exact hswf.cell_disj i hio
  · intro i hi p hp
    obtain ⟨hio, hne⟩ := hmem' i hi
    rw [hat i hne] at hp ⊢
    exact hswf.cell_end_lt i hio p hp
  · intro i hi f hf
    obtain ⟨hio, hne⟩ := hmem' i hi
    rw [hat i hne] at hf ⊢
    exact hswf.freelist_lo i hio f hf
  · intro i hi f hf
    obtain ⟨hio, hne⟩ := hmem' i hi
    rw [hat i hne] at hf ⊢
    exact hswf.freelist_hi i hio f hf

theorem flatten_update_perm2 {idxs : List Nat} {i : Nat} {x : α} (hmem : i ∈ idxs)
    (hnd : idxs.Nodup) (f g : Nat → List α) (hfg : ∀ j, j ≠ i → f j = g j)
    (hx : (g i).Perm (x :: f i)) :
    ((idxs.map g).flatten).Perm (x :: (idxs.map f).flatten) := by
  obtain ⟨pre, post, h1, h2⟩ := map_update_decomp hmem hnd f g hfg
  rw [h1, h2]
  rw [List.flatten_append, List.flatten_cons, List.flatten_append, List.flatten_cons]
  refine List.Perm.trans ((hx.append_right post.flatten).append_left pre.flatten) ?_
  have e1 : pre.flatten ++ ((x :: f i) ++ post.flatten) =
      pre.flatten ++ x :: (f i ++ post.flatten) := by simp
  rw [e1]
  refine List.perm_middle.trans ?_
  rw [← List.append_assoc]

/-- `SlabAllocator.Free` on a live cell `(start, size)` with `size ≥ 1`,
under the global invariants: the free succeeds; the target slab is the
one holding the cell, its cell is removed; if the slab still holds other
cells the buddy allocator is untouched and the slab's free space grows by
`size`, and if the slab becomes empty it is destroyed — removed from
`slabs` and from every cache list — and its 1 MiB base is returned to the
buddy allocator. -/
theorem slabFree_spec {s : SlabAllocator} {b : BuddyAllocator} {start size : Nat}
    (hswf : SlabWF s) (hbwf : BuddyWF b) (hs1 : 1 ≤ size)
    (hbasesPW : ((s.slabs.map (slabBase s))).Pairwise Nonoverlap)
    (hbases : ∀ i ∈ s.slabs, ((slabAt s i).start, SlabMaxSize) ∈ buddyAllocList b)
    (hcell : (start, size) ∈ slabCells s) :
    ∃ tIdx, tIdx ∈ s.slabs ∧ (start, size) ∈ (slabAt s tIdx).allocated ∧
    (slabFree s b start size).1 = .ok () ∧
    SlabWF (slabFree s b start size).2.1 ∧
    (slabCells s).Perm ((start, size) :: slabCells (slabFree s b start size).2.1) ∧
    ((slabAt s tIdx).used ≠ size →
      (slabFree s b start size).2.2 = b ∧
      (slabFree s b start size).2.1.slabs = s.slabs ∧
      (∀ i, (slabAt (slabFree s b start size).2.1 i).start = (slabAt s i).start ∧
        (slabAt (slabFree s b start size).2.1 i).size = (slabAt s i).size) ∧
      slabFreeSize (slabFree s b start size).2.1 = slabFreeSize s + size) ∧
    ((slabAt s tIdx).used = size →
      (slabFree s b start size).2.1.slabs = s.slabs.erase tIdx ∧
      (∀ i, i ≠ tIdx → slabAt (slabFree s b start size).2.1 i = slabAt s i) ∧
      (∀ sz, tIdx ∉ cacheList (slabFree s b start size).2.1 sz) ∧
      (slabFree s b start size).2.2 = (buddyFree b (slabAt s tIdx).start).2 ∧
      slabFreeSize (slabFree s b start size).2.1 + SlabMaxSize =
        slabFreeSize s + size) := by
  -- the slab holding the cell
  have hcell' : (start, size) ∈
      (s.slabs.map (fun i => (slabAt s i).allocated)).flatten := hcell
  obtain ⟨l, hl, hmem_l⟩ := List.mem_flatten.1 hcell'
  obtain ⟨tIdx, hts, htl⟩ := List.mem_map.1 hl
  have hcellt : (start, size) ∈ (slabAt s tIdx).allocated := by
    rw [htl]
    exact hmem_l
  have htlen : tIdx < s.store.length := hswf.idx_lt tIdx hts
  obtain ⟨sz0, hsz0⟩ := hswf.cache_mem tIdx hts
  have hzz : size = sz0 := hswf.cache_cell sz0 tIdx hsz0 _ hcellt
  have htc : tIdx ∈ cacheList s size := by rw [hzz]; exact hsz0
  have hS : (slabAt s tIdx).size = SlabMaxSize := hswf.slab_size tIdx hts
  have hlo : (slabAt s tIdx).start ≤ start := hswf.cell_lo tIdx hts _ hcellt
  have hhi : start + size ≤ (slabAt s tIdx).start + (slabAt s tIdx).size :=
    hswf.cell_hi tIdx hts _ hcellt
  -- the scan over cache[size] finds exactly this slab
  have hpred_t : (fun i =>
      let sl := s.store.getD i emptySlab
      decide (start ≥ sl.start) && decide (start < sl.start + sl.size)) tIdx = true := by
    show (decide (start ≥ (s.store.getD tIdx emptySlab).start) &&
      decide (start < (s.store.getD tIdx emptySlab).start +
        (s.store.getD tIdx emptySlab).size)) = true
    have hlo2 : (s.store.getD tIdx emptySlab).start ≤ start := hlo
    have hhi2 : start + size ≤ (s.store.getD tIdx emptySlab).start +
        (s.store.getD tIdx emptySlab).size := hhi
    rw [Bool.and_eq_true]
    constructor
    · exact decide_eq_true hlo2
    · exact decide_eq_true (by omega)
  have huniq : ∀ j ∈ cacheList s size, (fun i =>
      let sl := s.store.getD i emptySlab
      decide (start ≥ sl.start) && decide (start < sl.start + sl.size)) j = true →
      j = tIdx := by
    intro j hj hpj
    by_contra hne
    have hjs : j ∈ s.slabs := hswf.cache_sub size j hj
    have hnov : Nonoverlap (slabBase s j) (slabBase s tIdx) :=
      pairwise_map_of_mem hswf.idx_nodup hbasesPW hjs hts hne
    have hpj' : (decide (start ≥ (s.store.getD j emptySlab).start) &&
        decide (start < (s.store.getD j emptySlab).start +
          (s.store.getD j emptySlab).size)) = true := hpj
    rw [Bool.and_eq_true] at hpj'
    have h1 : start ≥ (slabAt s j).start := of_decide_eq_true hpj'.1
    have h2 : start < (slabAt s j).start + (slabAt s j).size :=
      of_decide_eq_true hpj'.2
    have hSj : (slabAt s j).size = SlabMaxSize := hswf.slab_size j hjs
    unfold slabBase Nonoverlap at hnov
    simp only at hnov
    have hMpos : 0 < SlabMaxSize := by decide
    omega
  have hfind : (((alistGet s.cache size).getD []).find? (fun i =>
      let sl := s.store.getD i emptySlab
      decide (start ≥ sl.start) && decide (start < sl.start + sl.size))) = some tIdx :=
    find?_eq_some_of_unique htc hpred_t huniq
  -- path conditions
  have hsz0' : ¬ size = 0 := by omega
  have haln : (start - (s.store.getD tIdx emptySlab).start) % size = 0 := by
    have := hswf.cell_align tIdx hts _ hcellt
    unfold modAlign at this
    rw [if_neg hsz0'] at this
    exact this
  have halloc : alistGet (s.store.getD tIdx emptySlab).allocated start = some size :=
    alistGet_eq_some_of_mem (hswf.cell_keys tIdx hts) hcellt
  have hfb : (s.store.getD tIdx emptySlab).fromBuddy = true := hswf.slab_from tIdx hts
  have hap : (slabAt s tIdx).allocated.Perm
      ((start, size) :: alistErase (slabAt s tIdx).allocated start) :=
    alist_erase_perm (hswf.cell_keys tIdx hts) hcellt
  have husedge : size ≤ (slabAt s tIdx).used := by
    rw [hswf.used_eq tIdx hts, sizesSum_perm hap, sizesSum_cons]
    omega
  have husedle : (slabAt s tIdx).used ≤ SlabMaxSize := by
    have := hswf.used_le tIdx hts
    omega
  by_cases hu : (slabAt s tIdx).used = size
  · -- the slab becomes empty and is destroyed
    have hone : (slabAt s tIdx).allocated = [(start, size)] :=
      single_cell_of_used_eq hs1
        (fun p hp => hswf.cache_cell size tIdx htc p hp) hcellt
        (by rw [← hswf.used_eq tIdx hts, hu])
    have hu0 : (s.store.getD tIdx emptySlab).used - size = 0 := by
      show (slabAt s tIdx).used - size = 0
      omega
    have hcond : (decide ((s.store.getD tIdx emptySlab).used - size = 0) &&
        (s.store.getD tIdx emptySlab).fromBuddy) = true := by
      rw [decide_eq_true hu0, hfb]
      rfl
    have hcont : ((alistGet s.cache size).getD []).contains tIdx = true :=
      List.elem_iff.2 htc
    have hmemb : ((slabAt s tIdx).start, SlabMaxSize) ∈ buddyAllocList b :=
      hbases tIdx hts
    obtain ⟨hbok, -, -, -⟩ := buddyFree_ok hbwf hmemb
    -- the common pieces of both destroy sub-cases
    have hpermsl : s.slabs.Perm (tIdx :: s.slabs.erase tIdx) :=
      List.perm_cons_erase hts
    have hnd' : (tIdx :: s.slabs.erase tIdx).Nodup :=
      hpermsl.nodup_iff.1 hswf.idx_nodup
    have htnot : tIdx ∉ s.slabs.erase tIdx := (List.nodup_cons.1 hnd').1
    have hmemE : ∀ i ∈ s.slabs.erase tIdx, i ∈ s.slabs ∧ i ≠ tIdx := by
      intro i hi
      refine ⟨List.mem_of_mem_erase hi, ?_⟩
      intro hc
      subst hc
      exact htnot hi
    cases hbf : buddyFree b ((s.store.getD tIdx emptySlab).start) with
    | mk r2 B2 =>
      have hr2 : r2 = .ok () := by
        have : (buddyFree b ((s.store.getD tIdx emptySlab).start)).1 = .ok () := hbok
        rw [hbf] at this
        exact this
      subst hr2
      have heq : slabFree s b start size =
          (.ok (), slabFreeDrop s tIdx start size, B2) := by
        simp only [slabFree, slabFreeDrop, hfind]
        rw [if_neg hsz0', if_neg (not_not_intro haln)]
        simp only [halloc]
        rw [if_neg (not_not_intro rfl)]
        dsimp only
        rw [if_pos hcond, if_pos hcont, hbf]
        simp only [apply_ite (fun t : SlabAllocator => t.store),
          apply_ite (fun t : SlabAllocator => t.slabs),
          apply_ite (fun t : SlabAllocator => t.cache),
          apply_ite (fun t : SlabAllocator => t.counts),
          ite_self, List.set_set]
      have hok : (slabFree s b start size).1 = Except.ok () := by rw [heq]
      have hres1 : (slabFree s b start size).2.1 = slabFreeDrop s tIdx start size := by
        rw [heq]
      have hres2 : (slabFree s b start size).2.2 = B2 := by rw [heq]
      have hdstore : (slabFreeDrop s tIdx start size).store =
          s.store.set tIdx ⟨(s.store.getD tIdx emptySlab).start,
            (s.store.getD tIdx emptySlab).size,
            (s.store.getD tIdx emptySlab).used - size,
            alistErase (s.store.getD tIdx emptySlab).allocated start, [],
            (s.store.getD tIdx emptySlab).fromBuddy⟩ := rfl
      have hdslabs : (slabFreeDrop s tIdx start size).slabs = s.slabs.erase tIdx := rfl
      have hCcache : (slabFreeDrop s tIdx start size).cache =
          (if ((alistGet s.cache size).getD []).length = 1 then alistErase s.cache size
           else alistSet s.cache size (((alistGet s.cache size).getD []).erase tIdx)) :=
        rfl
      have hat' : ∀ i, i ≠ tIdx →
          slabAt (slabFreeDrop s tIdx start size) i = slabAt s i := by
        intro i hi
        show (slabFreeDrop s tIdx start size).store.getD i emptySlab =
          s.store.getD i emptySlab
        rw [hdstore]
        exact getD_set_other (fun hc => hi hc.symm) _ _
      have hcache3 : (∀ sz, ∀ i,
            i ∈ (alistGet (slabFreeDrop s tIdx start size).cache sz).getD [] →
            i ≠ tIdx ∧ i ∈ cacheList s sz) ∧
          (∀ sz, ((alistGet (slabFreeDrop s tIdx start size).cache sz).getD []).Nodup) ∧
          (∀ i ∈ s.slabs, i ≠ tIdx →
            ∃ sz, i ∈ (alistGet (slabFreeDrop s tIdx start size).cache sz).getD []) ∧
          (keysOf (slabFreeDrop s tIdx start size).cache).Nodup := by
        rw [hCcache]
        by_cases hlen : ((alistGet s.cache size).getD []).length = 1
        · rw [if_pos hlen]
          obtain ⟨a, ha⟩ := List.length_eq_one.1 hlen
          have hta : tIdx ∈ [a] := by
            rw [← ha]
            exact htc
          have hat2 : a = tIdx := (List.mem_singleton.1 hta).symm
          have hcl1 : (alistGet s.cache size).getD [] = [tIdx] := by rw [ha, hat2]
          refine ⟨?_, ?_, ?_, keysOf_alistErase_nodup hswf.cache_keys size⟩
          · intro sz i hi
            by_cases hsz : sz = size
            · subst hsz
              rw [alistGet_erase_self hswf.cache_keys] at hi
              simp at hi
            · rw [alistGet_erase_other hsz] at hi
              refine ⟨?_, hi⟩
              intro hc
              subst hc
              exact hsz (hswf.cache_unique sz size i hi htc)
          · intro sz
            by_cases hsz : sz = size
            · subst hsz
              rw [alistGet_erase_self hswf.cache_keys]
              simp
            · rw [alistGet_erase_other hsz]
              exact hswf.cache_nodup sz
          · intro i hi hne
            obtain ⟨sz, hsz⟩ := hswf.cache_mem i hi
            have hszne : sz ≠ size := by
              intro hc
              subst hc
              have hsz' : i ∈ [tIdx] := by
                rw [← hcl1]
                exact hsz
              exact hne (List.mem_singleton.1 hsz')
            exact ⟨sz, by rw [alistGet_erase_other hszne]; exact hsz⟩
        · rw [if_neg hlen]
          refine ⟨?_, ?_, ?_, keysOf_alistSet_nodup hswf.cache_keys size _⟩
          · intro sz i hi
            by_cases hsz : sz = size
            · subst hsz
              rw [alistGet_set_self] at hi
              have hi' : i ∈ (cacheList s sz).erase tIdx := hi
              rw [(hswf.cache_nodup sz).mem_erase_iff] at hi'
              exact ⟨hi'.1, hi'.2⟩
            · rw [alistGet_set_other hsz] at hi
              refine ⟨?_, hi⟩
              intro hc
              subst hc
              exact hsz (hswf.cache_unique sz size i hi htc)
          · intro sz
            by_cases hsz : sz = size
            · subst hsz
              rw [alistGet_set_self]
              exact (hswf.cache_nodup sz).sublist (List.erase_sublist _ _)
            · rw [alistGet_set_other hsz]
              exact hswf.cache_nodup sz
          · intro i hi hne
            obtain ⟨sz, hsz⟩ := hswf.cache_mem i hi
            by_cases hszq : sz = size
            · subst hszq
              refine ⟨sz, ?_⟩
              rw [alistGet_set_self]
              show i ∈ ((alistGet s.cache sz).getD []).erase tIdx
              exact (List.mem_erase_of_ne hne).2 hsz
            · exact ⟨sz, by rw [alistGet_set_other hszq]; exact hsz⟩
      obtain ⟨hCL, hCnd, hCmem, hCkeys⟩ := hcache3
      have htnotc : ∀ sz,
          tIdx ∉ (alistGet (slabFreeDrop s tIdx start size).cache sz).getD [] := by
        intro sz hmem2
        exact (hCL sz tIdx hmem2).1 rfl
      have hwf3 : SlabWF (slabFreeDrop s tIdx start size) :=
        slabWF_destroy hswf hts hCkeys hCL hCnd hCmem
      have hmapeq : (s.slabs.erase tIdx).map
          (fun i => (slabAt (slabFreeDrop s tIdx start size) i).allocated) =
          (s.slabs.erase tIdx).map (fun i => (slabAt s i).allocated) := by
        refine List.map_congr_left ?_
        intro i hi
        show (slabAt (slabFreeDrop s tIdx start size) i).allocated =
          (slabAt s i).allocated
        rw [hat' i (hmemE i hi).2]
      have hcellsD : slabCells (slabFreeDrop s tIdx start size) =
          ((s.slabs.erase tIdx).map (fun i => (slabAt s i).allocated)).flatten := by
        rw [slabCells, hdslabs, hmapeq]
      have hcp0 : (slabCells s).Perm ((start, size) ::
          ((s.slabs.erase tIdx).map (fun i => (slabAt s i).allocated)).flatten) := by
        have h1 := perm_flatten (hpermsl.map (fun i => (slabAt s i).allocated))
        simp only [List.map_cons, List.flatten_cons, hone, List.singleton_append] at h1
        exact h1
      refine ⟨tIdx, hts, hcellt, hok, ?_, ?_, ?_, ?_⟩
      · rw [hres1]
        exact hwf3
      · rw [hres1, hcellsD]
        exact hcp0
      · intro hc
        exact absurd hu hc
      · intro _
        refine ⟨?_, ?_, ?_, ?_, ?_⟩
        · rw [hres1, hdslabs]
        · intro i hi
          rw [hres1]
          exact hat' i hi
        · intro sz
          rw [hres1]
          exact htnotc sz
        · rw [hres2]
          show B2 = (buddyFree b ((s.store.getD tIdx emptySlab).start)).2
          rw [hbf]
        · have husedle2 : (s.store.getD tIdx emptySlab).used ≤ SlabMaxSize := husedle
          have hug : (s.store.getD tIdx emptySlab).used = size := hu
          have hSg : (s.store.getD tIdx emptySlab).size = SlabMaxSize := hS
          have hfs1 : slabFreeSize s = ((s.slabs.map (fun i =>
              (s.store.getD i emptySlab).size -
                (s.store.getD i emptySlab).used)).sum) := rfl
          have hperm2 := (hpermsl.map (fun i =>
              (s.store.getD i emptySlab).size -
                (s.store.getD i emptySlab).used)).sum_eq
          simp only [List.map_cons, List.sum_cons] at hperm2
          have hfs2 : slabFreeSize (slabFreeDrop s tIdx start size) =
              ((s.slabs.erase tIdx).map (fun i =>
                (s.store.getD i emptySlab).size -
                  (s.store.getD i emptySlab).used)).sum := by
            have hstep : slabFreeSize (slabFreeDrop s tIdx start size) =
                (((slabFreeDrop s tIdx start size).slabs).map (fun i =>
                  ((slabFreeDrop s tIdx start size).store.getD i emptySlab).size -
                    ((slabFreeDrop s tIdx start size).store.getD i
                      emptySlab).used)).sum := rfl
            rw [hstep, hdslabs]
            refine congrArg List.sum ?_
            refine List.map_congr_left ?_
            intro i hi
            show ((slabFreeDrop s tIdx start size).store.getD i emptySlab).size -
                ((slabFreeDrop s tIdx start size).store.getD i emptySlab).used =
              (s.store.getD i emptySlab).size - (s.store.getD i emptySlab).used
            have hgd : (slabFreeDrop s tIdx start size).store.getD i emptySlab =
                s.store.getD i emptySlab := by
              rw [hdstore]
              exact getD_set_other (fun hc => (hmemE i hi).2 hc.symm) _ _
            rw [hgd]
          rw [hres1, hfs2, hfs1, hperm2]
          omega
  · -- the slab keeps other cells
    have hne0 : (s.store.getD tIdx emptySlab).used - size ≠ 0 := by
      show (slabAt s tIdx).used - size ≠ 0
      omega
    have hcondF : (decide ((s.store.getD tIdx emptySlab).used - size = 0) &&
        (s.store.getD tIdx emptySlab).fromBuddy) = false := by
      rw [decide_eq_false hne0, Bool.false_and]
    have heq : slabFree s b start size =
        (.ok (), slabFreeKeep s tIdx start size, b) := by
      simp only [slabFree, slabFreeKeep, hfind]
      rw [if_neg hsz0', if_neg (not_not_intro haln)]
      simp only [halloc]
      rw [if_neg (not_not_intro rfl)]
      dsimp only
      rw [if_neg (fun hc => Bool.false_ne_true (hcondF ▸ hc))]
    have hok : (slabFree s b start size).1 = Except.ok () := by rw [heq]
    have hres1 : (slabFree s b start size).2.1 = slabFreeKeep s tIdx start size := by
      rw [heq]
    have hres2 : (slabFree s b start size).2.2 = b := by rw [heq]
    have hkstore : (slabFreeKeep s tIdx start size).store = s.store.set tIdx
        ⟨(s.store.getD tIdx emptySlab).start, (s.store.getD tIdx emptySlab).size,
          (s.store.getD tIdx emptySlab).used - size,
          alistErase (s.store.getD tIdx emptySlab).allocated start,
          (s.store.getD tIdx emptySlab).freeList ++ [start],
          (s.store.getD tIdx emptySlab).fromBuddy⟩ := rfl
    have hkslabs : (slabFreeKeep s tIdx start size).slabs = s.slabs := rfl
    have hatK : ∀ i, i ≠ tIdx →
        slabAt (slabFreeKeep s tIdx start size) i = slabAt s i := by
      intro i hi
      show (slabFreeKeep s tIdx start size).store.getD i emptySlab =
        s.store.getD i emptySlab
      rw [hkstore]
      exact getD_set_other (fun hc => hi hc.symm) _ _
    have hatT : slabAt (slabFreeKeep s tIdx start size) tIdx =
        ⟨(s.store.getD tIdx emptySlab).start, (s.store.getD tIdx emptySlab).size,
          (s.store.getD tIdx emptySlab).used - size,
          alistErase (s.store.getD tIdx emptySlab).allocated start,
          (s.store.getD tIdx emptySlab).freeList ++ [start],
          (s.store.getD tIdx emptySlab).fromBuddy⟩ := by
      show (slabFreeKeep s tIdx start size).store.getD tIdx emptySlab = _
      rw [hkstore]
      exact getD_set_self htlen _ _
    have hwfK : SlabWF (slabFreeKeep s tIdx start size) :=
      slabWF_remove_cell hswf hts hcellt
    have hx : ((fun j => (slabAt s j).allocated) tIdx).Perm
        ((start, size) ::
          (fun j => (slabAt (slabFreeKeep s tIdx start size) j).allocated) tIdx) := by
      show (slabAt s tIdx).allocated.Perm
        ((start, size) :: (slabAt (slabFreeKeep s tIdx start size) tIdx).allocated)
      rw [hatT]
      exact hap
    have hcpK : (slabCells s).Perm
        ((start, size) :: slabCells (slabFreeKeep s tIdx start size)) :=
      flatten_update_perm2 hts hswf.idx_nodup
        (fun j => (slabAt (slabFreeKeep s tIdx start size) j).allocated)
        (fun j => (slabAt s j).allocated)
        (fun j hj => by
          show (slabAt (slabFreeKeep s tIdx start size) j).allocated =
            (slabAt s j).allocated
          rw [hatK j hj]) hx
    refine ⟨tIdx, hts, hcellt, hok, ?_, ?_, ?_, ?_⟩
    · rw [hres1]
      exact hwfK
    · rw [hres1]
      exact hcpK
    · intro _
      refine ⟨hres2, ?_, ?_, ?_⟩
      · rw [hres1, hkslabs]
      · intro i
        rw [hres1]
        by_cases hi : i = tIdx
        · subst hi
          rw [hatT]
          exact ⟨rfl, rfl⟩
        · rw [hatK i hi]
          exact ⟨rfl, rfl⟩
      · have h := sum_update_delta hts hswf.idx_nodup
          (fun i => (slabAt (slabFreeKeep s tIdx start size) i).size -
            (slabAt (slabFreeKeep s tIdx start size) i).used)
          (fun i => (slabAt s i).size - (slabAt s i).used)
          (fun j hj => by
            show (slabAt (slabFreeKeep s tIdx start size) j).size -
                (slabAt (slabFreeKeep s tIdx start size) j).used =
              (slabAt s j).size - (slabAt s j).used
            rw [hatK j hj])
        dsimp only at h
        have hnewT : (slabAt (slabFreeKeep s tIdx start size) tIdx).size -
            (slabAt (slabFreeKeep s tIdx start size) tIdx).used =
            (s.store.getD tIdx emptySlab).size -
              ((s.store.getD tIdx emptySlab).used - size) := by
          rw [hatT]
        rw [hnewT] at h
        have e1 : (slabAt s tIdx).size = (s.store.getD tIdx emptySlab).size := rfl
        have e2 : (slabAt s tIdx).used = (s.store.getD tIdx emptySlab).used := rfl
        have hgeg : size ≤ (s.store.getD tIdx emptySlab).used := husedge
        have hlev : (s.store.getD tIdx emptySlab).used ≤
            (s.store.getD tIdx emptySlab).size := hswf.used_le tIdx hts
        have hfsK : slabFreeSize (slabFreeKeep s tIdx start size) =
            (s.slabs.map (fun i => (slabAt (slabFreeKeep s tIdx start size) i).size -
              (slabAt (slabFreeKeep s tIdx start size) i).used)).sum := rfl
        have hfsS : slabFreeSize s =
            (s.slabs.map (fun i => (slabAt s i).size - (slabAt s i).used)).sum := rfl
        rw [hres1, hfsK, hfsS]
        omega
    · intro hc
      exact absurd hc hu

/-! ### The initial state satisfies the invariants -/

theorem getD_replicate_nil : ∀ (n j : Nat),
    (List.replicate n ([] : List Block)).getD j [] = [] := by
  intro n
  induction n with
  | zero => intro j; cases j <;> rfl
  | succ n ih =>
    intro j
    cases j with
    | zero => rfl
    | succ j => exact ih j

theorem flatten_replicate_nil : ∀ (n : Nat),
    (List.replicate n ([] : List Block)).flatten = [] := by
  intro n
  induction n with
  | zero => rfl
  | succ n ih =>
    rw [show List.replicate (n + 1) ([] : List Block) = [] :: List.replicate n [] from
      rfl]
    rw [List.flatten_cons, List.nil_append]
    exact ih

theorem flatten_replicate_set_single : ∀ (n k : Nat), k < n → ∀ (x : List Block),
    ((List.replicate n ([] : List Block)).set k x).flatten = x := by
  intro n
  induction n with
  | zero => intro k hk; omega
  | succ n ih =>
    intro k hk x
    cases k with
    | zero =>
      rw [show (List.replicate (n + 1) ([] : List Block)).set 0 x =
        x :: List.replicate n [] from rfl]
      rw [List.flatten_cons, flatten_replicate_nil, List.append_nil]
    | succ k =>
      rw [show (List.replicate (n + 1) ([] : List Block)).set (k + 1) x =
        [] :: (List.replicate n ([] : List Block)).set k x from rfl]
      rw [List.flatten_cons, List.nil_append]
      exact ih k (by omega) x

theorem blocksAt_replicate_set {n k : Nat} (hk : k < n) (x : List Block) (j : Nat) :
    blocksAt ((List.replicate n ([] : List Block)).set k x) j =
      if j = k then x else [] := by
  by_cases hj : j = k
  · subst hj
    rw [if_pos rfl]
    exact getD_set_self (by simpa using hk) _ _
  · rw [if_neg hj]
    show ((List.replicate n ([] : List Block)).set k x).getD j [] = []
    rw [getD_set_other (fun hc => hj hc.symm)]
    exact getD_replicate_nil n j

theorem regionWF_newRegion {i : Nat} (hi : i < buddyRegionCount) :
    RegionWF (newBuddyRegion i) := by
  have hi7 : i ≤ 7 := by
    have h8 : buddyRegionCount = 8 := rfl
    omega
  have hreg : regionSizeC = 137438953472 := by decide
  have hMB : MaxBlockSize = 1099511627776 := by decide
  have hstart : (newBuddyRegion i).startAddr = i * regionSizeC := rfl
  have hend : (newBuddyRegion i).endAddr =
      (if i = 7 then MaxBlockSize else i * regionSizeC + regionSizeC) := rfl
  have hsz : (newBuddyRegion i).endAddr - (newBuddyRegion i).startAddr =
      regionSizeC := by
    rw [hend, hstart]
    by_cases h7 : i = 7
    · rw [if_pos h7, h7]
      omega
    · rw [if_neg h7]
      omega
  have hendeq : (newBuddyRegion i).endAddr = i * regionSizeC + regionSizeC := by
    rw [hend]
    by_cases h7 : i = 7
    · rw [if_pos h7, h7]
      omega
    · rw [if_neg h7]
  have hord : getOrder ((newBuddyRegion i).endAddr - (newBuddyRegion i).startAddr) =
      17 := by
    rw [hsz]
    decide
  have hblocks : (newBuddyRegion i).blocks =
      (List.replicate (MaxOrder + 1) ([] : List Block)).set 17
        [⟨(newBuddyRegion i).startAddr,
          (newBuddyRegion i).endAddr - (newBuddyRegion i).startAddr⟩] := by
    show (List.replicate (MaxOrder + 1) ([] : List Block)).set
      (getOrder ((newBuddyRegion i).endAddr - (newBuddyRegion i).startAddr))
      [⟨(newBuddyRegion i).startAddr,
        (newBuddyRegion i).endAddr - (newBuddyRegion i).startAddr⟩] = _
    rw [hord]
  have hablocks : ∀ j, blocksAt (newBuddyRegion i).blocks j =
      if j = 17 then [⟨(newBuddyRegion i).startAddr,
        (newBuddyRegion i).endAddr - (newBuddyRegion i).startAddr⟩] else [] := by
    intro j
    rw [hblocks]
    exact blocksAt_replicate_set (by decide) _ j
  have halloc : (newBuddyRegion i).allocated = [] := rfl
  refine ⟨⟨?_, ?_, ?_, ?_⟩, ?_, ?_, ?_, ?_, ?_, ?_⟩
  · rw [hblocks, List.length_set, List.length_replicate]
  · intro j b hb
    rw [hablocks j] at hb
    by_cases hj : j = 17
    · rw [if_pos hj] at hb
      subst hj
      simp only [List.mem_singleton] at hb
      subst hb
      show (newBuddyRegion i).endAddr - (newBuddyRegion i).startAddr =
        2 ^ 17 * BuddyStartSize
      rw [hsz]
      decide
    · rw [if_neg hj] at hb
      exact absurd hb (List.not_mem_nil _)
  · intro j b hb
    rw [hablocks j] at hb
    by_cases hj : j = 17
    · rw [if_pos hj] at hb
      simp only [List.mem_singleton] at hb
      subst hb
      exact Nat.le_refl _
    · rw [if_neg hj] at hb
      exact absurd hb (List.not_mem_nil _)
  · intro j b hb
    rw [hablocks j] at hb
    by_cases hj : j = 17
    · rw [if_pos hj] at hb
      simp only [List.mem_singleton] at hb
      subst hb
      show (newBuddyRegion i).startAddr +
        ((newBuddyRegion i).endAddr - (newBuddyRegion i).startAddr) ≤
        (newBuddyRegion i).endAddr
      rw [hsz, hstart, hendeq]
    · rw [if_neg hj] at hb
      exact absurd hb (List.not_mem_nil _)
  · intro p hp
    rw [halloc] at hp
    exact absurd hp (List.not_mem_nil _)
  · intro p hp
    rw [halloc] at hp
    exact absurd hp (List.not_mem_nil _)
  · intro p hp
    rw [halloc] at hp
    exact absurd hp (List.not_mem_nil _)
  · rw [halloc]
    exact List.nodup_nil
  · show ((freePairs (newBuddyRegion i)) ++ (newBuddyRegion i).allocated).Pairwise
      Nonoverlap
    rw [halloc, List.append_nil]
    show (((newBuddyRegion i).blocks.flatten).map blockPair).Pairwise Nonoverlap
    rw [hblocks, flatten_replicate_set_single (MaxOrder + 1) 17 (by decide)]
    rw [List.map_singleton]
    exact List.pairwise_singleton _ _
  · show (0 : Nat) = sizesSum (newBuddyRegion i).allocated
    rw [halloc]
    rfl

theorem buddyWF_init : BuddyWF newBuddyAllocator := by
  refine ⟨by decide, by decide, ?_⟩
  intro r hr
  have hr' : r ∈ (List.range buddyRegionCount).map newBuddyRegion := hr
  obtain ⟨i, hi, rfl⟩ := List.mem_map.1 hr'
  exact regionWF_newRegion (List.mem_range.1 hi)

theorem slabWF_init : SlabWF newSlabAllocator := by
  refine ⟨?_, List.nodup_nil, List.nodup_nil, ?_, ?_, ?_, ?_, ?_, ?_, ?_, ?_, ?_,
    ?_, ?_, ?_, ?_, ?_, ?_, ?_, ?_, ?_⟩
  · intro i hi
    exact absurd hi (List.not_mem_nil _)
  · intro sz i hi
    exact absurd hi (List.not_mem_nil _)
  · intro sz
    exact List.nodup_nil
  · intro sz sz' i h1 h2
    exact absurd h1 (List.not_mem_nil _)
  · intro i hi
    exact absurd hi (List.not_mem_nil _)
  · intro sz i hi
    exact absurd hi (List.not_mem_nil _)
  · intro sz i hi
    exact absurd hi (List.not_mem_nil _)
  · intro i hi
    exact absurd hi (List.not_mem_nil _)
  · intro i hi
    exact absurd hi (List.not_mem_nil _)
  · intro i hi
    exact absurd hi (List.not_mem_nil _)
  · intro i hi
    exact absurd hi (List.not_mem_nil _)
  · intro i hi
    exact absurd hi (List.not_mem_nil _)
  · intro i hi
    exact absurd hi (List.not_mem_nil _)
  · intro i hi
    exact absurd hi (List.not_mem_nil _)
  · intro i hi
    exact absurd hi (List.not_mem_nil _)
  · intro i hi
    exact absurd hi (List.not_mem_nil _)
  · intro i hi
    exact absurd hi (List.not_mem_nil _)
  · intro i hi
    exact absurd hi (List.not_mem_nil _)
  · intro i hi
    exact absurd hi (List.not_mem_nil _)

/-! ### Reduction of the dispatcher to the routed layer -/

theorem allocatorAllocate_too_large {a : Allocator} {size : Nat}
    (h : size > MaxBlockSize) :
    allocatorAllocate a size = (.error .sizeTooLarge, a) := by
  simp only [allocatorAllocate]
  rw [if_pos h]

theorem allocatorAllocate_slab_route {a : Allocator} {size : Nat}
    (hsz : size ≤ SlabMaxSize)
    (hns : (slabAllocate a.slab a.buddy size).1 ≠ .error .slabFull) :
    allocatorAllocate a size =
      ((slabAllocate a.slab a.buddy size).1,
        ⟨(slabAllocate a.slab a.buddy size).2.2,
         (slabAllocate a.slab a.buddy size).2.1⟩) := by
  have hbig : ¬ size > MaxBlockSize := by
    have hle : SlabMaxSize ≤ MaxBlockSize := by decide
    omega
  cases hsa : slabAllocate a.slab a.buddy size with
  | mk res p =>
    cases p with
    | mk s' b' =>
      rw [hsa] at hns
      cases res with
      | ok addr =>
        simp only [allocatorAllocate, hsa]
        rw [if_neg hbig, if_pos hsz]
      | error e =>
        cases e <;>
          first
          | exact absurd rfl hns
          | (simp only [allocatorAllocate, hsa]
             rw [if_neg hbig, if_pos hsz])

theorem allocatorAllocate_buddy_route {a : Allocator} {size : Nat}
    (h1 : ¬ size > MaxBlockSize) (h2 : ¬ size ≤ SlabMaxSize) :
    allocatorAllocate a size =
      ((buddyAllocate a.buddy size).1, ⟨(buddyAllocate a.buddy size).2, a.slab⟩) := by
  cases hba : buddyAllocate a.buddy size with
  | mk res b' =>
    simp only [allocatorAllocate, hba]
    rw [if_neg h1, if_neg h2]

theorem allocatorFree_slab_route {a : Allocator} {start size : Nat}
    (hsz : size ≤ SlabMaxSize)
    (hns : (slabFree a.slab a.buddy start size).1 ≠ .error .slabNotFound) :
    allocatorFree a start size =
      ((slabFree a.slab a.buddy start size).1,
        ⟨(slabFree a.slab a.buddy start size).2.2,
         (slabFree a.slab a.buddy start size).2.1⟩) := by
  cases hsf : slabFree a.slab a.buddy start size with
  | mk res p =>
    cases p with
    | mk s' b' =>
      rw [hsf] at hns
      cases res with
      | ok u =>
        simp only [allocatorFree, hsf]
        rw [if_pos hsz]
      | error e =>
        cases e <;>
          first
          | exact absurd rfl hns
          | (simp only [allocatorFree, hsf]
             rw [if_pos hsz])

theorem allocatorFree_buddy_route {a : Allocator} {start size : Nat}
    (h2 : ¬ size ≤ SlabMaxSize) :
    allocatorFree a start size =
      ((buddyFree a.buddy start).1, ⟨(buddyFree a.buddy start).2, a.slab⟩) := by
  cases hbf : buddyFree a.buddy start with
  | mk res b' =>
    simp only [allocatorFree, hbf]
    rw [if_neg h2]

/-! ### Filters under erasure, and state congruences -/

theorem filter_erase_pos {p : Nat × Nat} (f : Nat × Nat → Bool)
    (hp : f p = true) : ∀ (l : List (Nat × Nat)),
    (l.erase p).filter f = (l.filter f).erase p := by
  intro l
  induction l with
  | nil => rfl
  | cons x t ih =>
    by_cases hx : x = p
    · subst hx
      rw [List.erase_cons_head, List.filter_cons_of_pos hp, List.erase_cons_head]
    · rw [List.erase_cons, if_neg (by simp [hx])]
      by_cases hfx : f x = true
      · rw [List.filter_cons_of_pos hfx, List.filter_cons_of_pos hfx,
          List.erase_cons, if_neg (by simp [hx]), ih]
      · rw [List.filter_cons_of_neg (by simpa using hfx),
          List.filter_cons_of_neg (by simpa using hfx), ih]

theorem filter_erase_neg {p : Nat × Nat} (f : Nat × Nat → Bool)
    (hp : f p = false) : ∀ (l : List (Nat × Nat)),
    (l.erase p).filter f = l.filter f := by
  intro l
  induction l with
  | nil => rfl
  | cons x t ih =>
    by_cases hx : x = p
    · subst hx
      rw [List.erase_cons_head, List.filter_cons_of_neg (by simp [hp])]
    · rw [List.erase_cons, if_neg (by simp [hx])]
      by_cases hfx : f x = true
      · rw [List.filter_cons_of_pos hfx, List.filter_cons_of_pos hfx, ih]
      · rw [List.filter_cons_of_neg (by simpa using hfx),
          List.filter_cons_of_neg (by simpa using hfx), ih]

theorem bases_eq_of_pres {s s' : SlabAllocator}
    (hsl : s'.slabs = s.slabs)
    (hst : ∀ i ∈ s.slabs, (slabAt s' i).start = (slabAt s i).start) :
    s'.slabs.map (slabBase s') = s.slabs.map (slabBase s) := by
  rw [hsl]
  refine List.map_congr_left ?_
  intro i hi
  show ((slabAt s' i).start, SlabMaxSize) = ((slabAt s i).start, SlabMaxSize)
  rw [hst i hi]

theorem cells_eq_of_pres {s s' : SlabAllocator}
    (hsl : s'.slabs = s.slabs)
    (hal : ∀ i ∈ s.slabs, (slabAt s' i).allocated = (slabAt s i).allocated) :
    slabCells s' = slabCells s := by
  show ((s'.slabs.map (fun i => (slabAt s' i).allocated)).flatten) = _
  rw [hsl]
  refine congrArg List.flatten ?_
  refine List.map_congr_left ?_
  intro i hi
  show (slabAt s' i).allocated = (slabAt s i).allocated
  exact hal i hi

/-- `SlabAllocator.Free` of a live zero-sized cell: the cache scan finds
the owning slab, and Go's `offset % targetSize` panics on the zero
modulus before any state is written. -/
theorem slabFree_zero {s : SlabAllocator} {b : BuddyAllocator} {start : Nat}
    (hswf : SlabWF s) (hcell : (start, 0) ∈ slabCells s) :
    slabFree s b start 0 = (.error .panicModZero, s, b) := by
  have hcell' : (start, 0) ∈
      (s.slabs.map (fun i => (slabAt s i).allocated)).flatten := hcell
  obtain ⟨l, hl, hmem_l⟩ := List.mem_flatten.1 hcell'
  obtain ⟨tIdx, hts, htl⟩ := List.mem_map.1 hl
  have hcellt : (start, 0) ∈ (slabAt s tIdx).allocated := by
    rw [htl]
    exact hmem_l
  obtain ⟨sz0, hsz0⟩ := hswf.cache_mem tIdx hts
  have hzz : (0 : Nat) = sz0 := hswf.cache_cell sz0 tIdx hsz0 _ hcellt
  have htc : tIdx ∈ cacheList s 0 := by
    rw [hzz]
    exact hsz0
  have hlo := hswf.cell_lo tIdx hts _ hcellt
  have hhiX := hswf.cell_end_lt tIdx hts _ hcellt
  have hpred : (fun i =>
      let sl := s.store.getD i emptySlab
      decide (start ≥ sl.start) && decide (start < sl.start + sl.size)) tIdx = true := by
    show (decide (start ≥ (s.store.getD tIdx emptySlab).start) &&
      decide (start < (s.store.getD tIdx emptySlab).start +
        (s.store.getD tIdx emptySlab).size)) = true
    have h1 : (s.store.getD tIdx emptySlab).start ≤ start := hlo
    have h2 : start < (s.store.getD tIdx emptySlab).start +
        (s.store.getD tIdx emptySlab).size := hhiX
    rw [Bool.and_eq_true]
    exact ⟨decide_eq_true h1, decide_eq_true h2⟩
  cases hf : (((alistGet s.cache 0).getD []).find? (fun i =>
      let sl := s.store.getD i emptySlab
      decide (start ≥ sl.start) && decide (start < sl.start + sl.size))) with
  | none =>
    exfalso
    have hnone := List.find?_eq_none.1 hf tIdx htc
    exact hnone hpred
  | some j =>
    simp only [slabFree, hf]
    rw [if_pos trivial]

theorem sysInv_init : SysInv initSys := by
  refine ⟨buddyWF_init, slabWF_init, ?_, ?_⟩
  · have h : buddyAllocList newBuddyAllocator = [] := by decide
    show (buddyAllocList newBuddyAllocator).Perm ([] ++ [])
    rw [h]
    exact List.Perm.nil
  · exact List.Perm.nil

theorem perm_cons_erase_pair : ∀ {l : List (Nat × Nat)} {p : Nat × Nat}, p ∈ l →
    l.Perm (p :: l.erase p) := by
  intro l
  induction l with
  | nil =>
    intro p h
    exact absurd h (List.not_mem_nil _)
  | cons x t ih =>
    intro p h
    by_cases hx : x = p
    · subst hx
      rw [List.erase_cons_head]
    · rw [List.erase_cons, if_neg (by simp [hx])]
      rcases List.mem_cons.1 h with h1 | h1
      · exact absurd h1.symm hx
      · exact ((ih h1).cons x).trans (List.Perm.swap p x _)

/-- One admitted step of a sequential run preserves the system
invariant. -/
theorem sysInv_step {st st' : Sys} {op : Op} (hinv : SysInv st)
    (hstep : stepOp st op = some st') : SysInv st' := by
  obtain ⟨hbwf, hswf, hba, hcells⟩ := hinv
  cases op with
  | alloc size =>
    by_cases hbig : size > MaxBlockSize
    · have hred : stepOp st (.alloc size) = some ⟨st.alctr, st.live⟩ := by
        simp only [stepOp, allocatorAllocate_too_large hbig]
      rw [hred, Option.some.injEq] at hstep
      rw [← hstep]
      exact ⟨hbwf, hswf, hba, hcells⟩
    · by_cases hsz : size ≤ SlabMaxSize
      · -- slab route
        have hspec := slabAllocate_spec (b := st.alctr.buddy) hswf hsz
        cases hsa : slabAllocate st.alctr.slab st.alctr.buddy size with
        | mk res p =>
          cases p with
          | mk s2 b2 =>
            cases res with
            | error e =>
              obtain ⟨hnsf, hwf2, hb2, hsl2, hpres⟩ := hspec.1 e (by rw [hsa])
              have hb2' : b2 = st.alctr.buddy := by
                rw [hsa] at hb2
                exact hb2
              have hwf2' : SlabWF s2 := by
                rw [hsa] at hwf2
                exact hwf2
              have hsl2' : s2.slabs = st.alctr.slab.slabs := by
                rw [hsa] at hsl2
                exact hsl2
              have hpres' : ∀ i,
                  (slabAt s2 i).start = (slabAt st.alctr.slab i).start ∧
                  (slabAt s2 i).size = (slabAt st.alctr.slab i).size ∧
                  (slabAt s2 i).allocated = (slabAt st.alctr.slab i).allocated ∧
                  (slabAt s2 i).used = (slabAt st.alctr.slab i).used := by
                intro i
                have h := hpres i
                rw [hsa] at h
                exact h
              have hroute := allocatorAllocate_slab_route (a := st.alctr) hsz
                (by
                  rw [hsa]
                  show Except.error e ≠ Except.error AllocErr.slabFull
                  intro hc
                  injection hc with hc2
                  exact hnsf hc2)
              have hstep' : stepOp st (.alloc size) = some ⟨⟨b2, s2⟩, st.live⟩ := by
                simp only [stepOp, hroute, hsa]
              rw [hstep', Option.some.injEq] at hstep
              rw [← hstep]
              refine ⟨?_, hwf2', ?_, ?_⟩
              · show BuddyWF b2
                rw [hb2']
                exact hbwf
              · show (buddyAllocList b2).Perm
                  (s2.slabs.map (slabBase s2) ++
                    (liveBuddyPart st.live).map buddyGrain)
                rw [hb2', bases_eq_of_pres hsl2' (fun i _ => (hpres' i).1)]
                exact hba
              · show (slabCells s2).Perm (liveSlabPart st.live)
                rw [cells_eq_of_pres hsl2' (fun i _ => (hpres' i).2.2.1)]
                exact hcells
            | ok addr =>
              obtain ⟨hwf2, hdisj⟩ := hspec.2 addr (by rw [hsa])
              have hwf2' : SlabWF s2 := by
                rw [hsa] at hwf2
                exact hwf2
              have hroute := allocatorAllocate_slab_route (a := st.alctr) hsz
                (by rw [hsa]; simp)
              have hstep' : stepOp st (.alloc size) =
                  some ⟨⟨b2, s2⟩, (addr, size) :: st.live⟩ := by
                simp only [stepOp, hroute, hsa]
              rw [hstep', Option.some.injEq] at hstep
              rw [← hstep]
              have hLS : liveSlabPart ((addr, size) :: st.live) =
                  (addr, size) :: liveSlabPart st.live :=
                List.filter_cons_of_pos (decide_eq_true hsz)
              have hLB : liveBuddyPart ((addr, size) :: st.live) =
                  liveBuddyPart st.live :=
                List.filter_cons_of_neg (by simp [hsz])
              rcases hdisj with ⟨hb2, hsl2, hpres, hcp, hfs⟩ |
                ⟨hba2, hb2, hsl2, hpres, hstartN, hcp, hfs⟩
              · have hb2' : b2 = st.alctr.buddy := by
                  rw [hsa] at hb2
                  exact hb2
                have hsl2' : s2.slabs = st.alctr.slab.slabs := by
                  rw [hsa] at hsl2
                  exact hsl2
                have hpres' : ∀ i,
                    (slabAt s2 i).start = (slabAt st.alctr.slab i).start ∧
                    (slabAt s2 i).size = (slabAt st.alctr.slab i).size := by
                  intro i
                  have h := hpres i
                  rw [hsa] at h
                  exact h
                have hcp' : (slabCells s2).Perm
                    ((addr, size) :: slabCells st.alctr.slab) := by
                  rw [hsa] at hcp
                  exact hcp
                refine ⟨?_, hwf2', ?_, ?_⟩
                · show BuddyWF b2
                  rw [hb2']
                  exact hbwf
                · show (buddyAllocList b2).Perm
                    (s2.slabs.map (slabBase s2) ++
                      (liveBuddyPart ((addr, size) :: st.live)).map buddyGrain)
                  rw [hb2', hLB, bases_eq_of_pres hsl2' (fun i _ => (hpres' i).1)]
                  exact hba
                · show (slabCells s2).Perm (liveSlabPart ((addr, size) :: st.live))
                  rw [hLS]
                  exact hcp'.trans (hcells.cons _)
              · have hba2' : (buddyAllocate st.alctr.buddy SlabMaxSize).1 = .ok addr :=
                  hba2
                have hb2' : b2 = (buddyAllocate st.alctr.buddy SlabMaxSize).2 := by
                  rw [hsa] at hb2
                  exact hb2
                have hsl2' : s2.slabs =
                    st.alctr.slab.slabs ++ [st.alctr.slab.store.length] := by
                  rw [hsa] at hsl2
                  exact hsl2
                have hpres' : ∀ i ∈ st.alctr.slab.slabs,
                    (slabAt s2 i).start = (slabAt st.alctr.slab i).start ∧
                    (slabAt s2 i).size = (slabAt st.alctr.slab i).size := by
                  intro i hi
                  have h := hpres i hi
                  rw [hsa] at h
                  exact h
                have hstartN' : (slabAt s2 st.alctr.slab.store.length).start = addr := by
                  rw [hsa] at hstartN
                  exact hstartN
                have hcp' : (slabCells s2).Perm
                    ((addr, size) :: slabCells st.alctr.slab) := by
                  rw [hsa] at hcp
                  exact hcp
                obtain ⟨hbwf2, hbperm, hbused⟩ := buddyAllocate_ok hbwf hba2'
                have hgr0 : 2 ^ getOrder SlabMaxSize * BuddyStartSize =
                    SlabMaxSize := by decide
                have hgr : ((addr, SlabMaxSize) : Nat × Nat) =
                    (addr, 2 ^ getOrder SlabMaxSize * BuddyStartSize) := by rw [hgr0]
                have hbases2 : s2.slabs.map (slabBase s2) =
                    st.alctr.slab.slabs.map (slabBase st.alctr.slab) ++
                      [(addr, SlabMaxSize)] := by
                  rw [hsl2', List.map_append]
                  congr 1
                  · refine List.map_congr_left ?_
                    intro i hi
                    show ((slabAt s2 i).start, SlabMaxSize) =
                      ((slabAt st.alctr.slab i).start, SlabMaxSize)
                    rw [(hpres' i hi).1]
                  · show [((slabAt s2 st.alctr.slab.store.length).start, SlabMaxSize)] = _
                    rw [hstartN']
                refine ⟨?_, hwf2', ?_, ?_⟩
                · show BuddyWF b2
                  rw [hb2']
                  exact hbwf2
                · show (buddyAllocList b2).Perm
                    (s2.slabs.map (slabBase s2) ++
                      (liveBuddyPart ((addr, size) :: st.live)).map buddyGrain)
                  rw [hLB, hbases2, hgr, hb2']
                  refine hbperm.trans ?_
                  refine ((hba).cons _).trans ?_
                  rw [List.append_assoc, List.singleton_append]
                  exact List.perm_middle.symm
                · show (slabCells s2).Perm (liveSlabPart ((addr, size) :: st.live))
                  rw [hLS]
                  exact hcp'.trans (hcells.cons _)
      · -- buddy route
        cases hba2 : buddyAllocate st.alctr.buddy size with
        | mk res b2 =>
          have hroute := allocatorAllocate_buddy_route (a := st.alctr) hbig hsz
          cases res with
          | ok addr =>
            obtain ⟨hbwf2, hbperm, hbused⟩ := buddyAllocate_ok hbwf
              (show (buddyAllocate st.alctr.buddy size).1 = .ok addr from by rw [hba2])
            have hbwf2' : BuddyWF b2 := by
              rw [hba2] at hbwf2
              exact hbwf2
            have hbperm' : (buddyAllocList b2).Perm
                ((addr, 2 ^ getOrder size * BuddyStartSize) ::
                  buddyAllocList st.alctr.buddy) := by
              rw [hba2] at hbperm
              exact hbperm
            have hstep' : stepOp st (.alloc size) =
                some ⟨⟨b2, st.alctr.slab⟩, (addr, size) :: st.live⟩ := by
              simp only [stepOp, hroute, hba2]
            rw [hstep', Option.some.injEq] at hstep
            rw [← hstep]
            have hLS : liveSlabPart ((addr, size) :: st.live) = liveSlabPart st.live :=
              List.filter_cons_of_neg (by simp [hsz])
            have hLB : liveBuddyPart ((addr, size) :: st.live) =
                (addr, size) :: liveBuddyPart st.live :=
              List.filter_cons_of_pos (by simp [hsz])
            refine ⟨hbwf2', hswf, ?_, ?_⟩
            · show (buddyAllocList b2).Perm
                (st.alctr.slab.slabs.map (slabBase st.alctr.slab) ++
                  (liveBuddyPart ((addr, size) :: st.live)).map buddyGrain)
              rw [hLB, List.map_cons]
              refine hbperm'.trans ?_
              refine ((hba).cons _).trans ?_
              exact List.perm_middle.symm
            · show (slabCells st.alctr.slab).Perm
                (liveSlabPart ((addr, size) :: st.live))
              rw [hLS]
              exact hcells
          | error e =>
            have hb2' : b2 = st.alctr.buddy := by
              have h := @buddyAllocate_error_state st.alctr.buddy size e (by rw [hba2])
              rw [hba2] at h
              exact h
            have hstep' : stepOp st (.alloc size) =
                some ⟨⟨b2, st.alctr.slab⟩, st.live⟩ := by
              simp only [stepOp, hroute, hba2]
            rw [hstep', Option.some.injEq] at hstep
            rw [← hstep]
            refine ⟨?_, hswf, ?_, ?_⟩
            · show BuddyWF b2
              rw [hb2']
              exact hbwf
            · show (buddyAllocList b2).Perm
                (st.alctr.slab.slabs.map (slabBase st.alctr.slab) ++
                  (liveBuddyPart st.live).map buddyGrain)
              rw [hb2']
              exact hba
            · exact hcells
  | free start size =>
    by_cases hlive : (start, size) ∈ st.live
    · by_cases hsz : size ≤ SlabMaxSize
      · -- slab route
        have hmemLS : (start, size) ∈ liveSlabPart st.live :=
          List.mem_filter.2 ⟨hlive, decide_eq_true hsz⟩
        have hcellmem : (start, size) ∈ slabCells st.alctr.slab :=
          hcells.mem_iff.2 hmemLS
        by_cases hs0 : size = 0
        · subst hs0
          have hzero := slabFree_zero (b := st.alctr.buddy) hswf hcellmem
          have hroute := allocatorFree_slab_route (a := st.alctr) hsz
            (by rw [hzero]; simp)
          have hstep' : stepOp st (.free start 0) =
              some ⟨⟨st.alctr.buddy, st.alctr.slab⟩, st.live⟩ := by
            simp only [stepOp, hroute, hzero]
            rw [if_pos hlive]
          rw [hstep', Option.some.injEq] at hstep
          rw [← hstep]
          exact ⟨hbwf, hswf, hba, hcells⟩
        · have hs1 : 1 ≤ size := by omega
          have hPW : ((st.alctr.slab.slabs.map (slabBase st.alctr.slab))).Pairwise
              Nonoverlap := by
            have hpwAll := pairwise_of_perm hba (buddyWF_allocList_pairwise hbwf)
            exact (List.pairwise_append.1 hpwAll).1
          have hbases : ∀ i ∈ st.alctr.slab.slabs,
              ((slabAt st.alctr.slab i).start, SlabMaxSize) ∈
                buddyAllocList st.alctr.buddy := by
            intro i hi
            exact hba.mem_iff.2 (List.mem_append_left _ (List.mem_map_of_mem _ hi))
          obtain ⟨tIdx, hts, hcellt, hok, hwf2, hcp, hkeep, hdrop⟩ :=
            slabFree_spec hswf hbwf hs1 hPW hbases hcellmem
          cases hsf : slabFree st.alctr.slab st.alctr.buddy start size with
          | mk res p =>
            cases p with
            | mk s2 b2 =>
              have hres : res = .ok () := by
                rw [hsf] at hok
                exact hok
              subst hres
              have hroute := allocatorFree_slab_route (a := st.alctr) hsz
                (by rw [hsf]; simp)
              have hstep' : stepOp st (.free start size) =
                  some ⟨⟨b2, s2⟩, st.live.erase (start, size)⟩ := by
                simp only [stepOp, hroute, hsf]
                rw [if_pos hlive]
              rw [hstep', Option.some.injEq] at hstep
              rw [← hstep]
              have hwf2' : SlabWF s2 := by
                rw [hsf] at hwf2
                exact hwf2
              have hcp' : (slabCells st.alctr.slab).Perm
                  ((start, size) :: slabCells s2) := by
                rw [hsf] at hcp
                exact hcp
              have hLSe : liveSlabPart (st.live.erase (start, size)) =
                  (liveSlabPart st.live).erase (start, size) :=
                filter_erase_pos _ (decide_eq_true hsz) _
              have hLBe : liveBuddyPart (st.live.erase (start, size)) =
                  liveBuddyPart st.live :=
                filter_erase_neg _ (by simp [hsz]) _
              have hcellperm : (slabCells s2).Perm
                  (liveSlabPart (st.live.erase (start, size))) := by
                rw [hLSe]
                have h1 : ((start, size) :: slabCells s2).Perm
                    ((start, size) :: (liveSlabPart st.live).erase (start, size)) :=
                  hcp'.symm.trans (hcells.trans (perm_cons_erase_pair hmemLS))
                exact h1.cons_inv
              by_cases hu : (slabAt st.alctr.slab tIdx).used = size
              · -- destroy path
                obtain ⟨hds, hpresd, hnotc, hb2eq, hfs⟩ := hdrop hu
                have hds' : s2.slabs = st.alctr.slab.slabs.erase tIdx := by
                  rw [hsf] at hds
                  exact hds
                have hpresd' : ∀ i, i ≠ tIdx →
                    slabAt s2 i = slabAt st.alctr.slab i := by
                  intro i hi
                  have h := hpresd i hi
                  rw [hsf] at h
                  exact h
                have hb2' : b2 =
                    (buddyFree st.alctr.buddy (slabAt st.alctr.slab tIdx).start).2 := by
                  rw [hsf] at hb2eq
                  exact hb2eq
                obtain ⟨hbok2, hbwf2, hbperm2, hbused2⟩ :=
                  buddyFree_ok hbwf (hbases tIdx hts)
                have hbwf2' : BuddyWF b2 := by
                  rw [hb2']
                  exact hbwf2
                have hpermsl : st.alctr.slab.slabs.Perm
                    (tIdx :: st.alctr.slab.slabs.erase tIdx) :=
                  List.perm_cons_erase hts
                have hbasemap : s2.slabs.map (slabBase s2) =
                    (st.alctr.slab.slabs.erase tIdx).map (slabBase st.alctr.slab) := by
                  rw [hds']
                  refine List.map_congr_left ?_
                  intro i hi
                  have hne : i ≠ tIdx := ((hswf.idx_nodup.mem_erase_iff).1 hi).1
                  show ((slabAt s2 i).start, SlabMaxSize) =
                    ((slabAt st.alctr.slab i).start, SlabMaxSize)
                  rw [hpresd' i hne]
                refine ⟨hbwf2', hwf2', ?_, ?_⟩
                · show (buddyAllocList b2).Perm
                    (s2.slabs.map (slabBase s2) ++
                      (liveBuddyPart (st.live.erase (start, size))).map buddyGrain)
                  rw [hLBe, hbasemap]
                  have h2 : (buddyAllocList st.alctr.buddy).Perm
                      (((slabAt st.alctr.slab tIdx).start, SlabMaxSize) ::
                        ((st.alctr.slab.slabs.erase tIdx).map (slabBase st.alctr.slab) ++
                          (liveBuddyPart st.live).map buddyGrain)) := by
                    refine hba.trans ?_
                    have h3 := (hpermsl.map (slabBase st.alctr.slab)).append_right
                      ((liveBuddyPart st.live).map buddyGrain)
                    refine h3.trans ?_
                    rw [List.map_cons]
                    exact List.Perm.refl _
                  rw [hb2']
                  exact (hbperm2.symm.trans h2).cons_inv
                · exact hcellperm
              · -- keep path
                obtain ⟨hb2eq, hsl2, hpresk, hfs⟩ := hkeep hu
                have hb2' : b2 = st.alctr.buddy := by
                  rw [hsf] at hb2eq
                  exact hb2eq
                have hsl2' : s2.slabs = st.alctr.slab.slabs := by
                  rw [hsf] at hsl2
                  exact hsl2
                have hpresk' : ∀ i,
                    (slabAt s2 i).start = (slabAt st.alctr.slab i).start ∧
                    (slabAt s2 i).size = (slabAt st.alctr.slab i).size := by
                  intro i
                  have h := hpresk i
                  rw [hsf] at h
                  exact h
                refine ⟨?_, hwf2', ?_, ?_⟩
                · show BuddyWF b2
                  rw [hb2']
                  exact hbwf
                · show (buddyAllocList b2).Perm
                    (s2.slabs.map (slabBase s2) ++
                      (liveBuddyPart (st.live.erase (start, size))).map buddyGrain)
                  rw [hb2', hLBe, bases_eq_of_pres hsl2' (fun i _ => (hpresk' i).1)]
                  exact hba
                · exact hcellperm
      · -- buddy route
        have hmemLB : (start, size) ∈ liveBuddyPart st.live :=
          List.mem_filter.2 ⟨hlive, by simp [hsz]⟩
        have hgmem : ((start, 2 ^ getOrder size * BuddyStartSize)) ∈
            buddyAllocList st.alctr.buddy := by
          refine hba.mem_iff.2 (List.mem_append_right _ ?_)
          exact List.mem_map_of_mem _ hmemLB
        obtain ⟨hbok, hbwf2, hbperm, hbused⟩ := buddyFree_ok hbwf hgmem
        cases hbf : buddyFree st.alctr.buddy start with
        | mk res b2 =>
          have hres : res = .ok () := by
            rw [hbf] at hbok
            exact hbok
          subst hres
          have hroute := @allocatorFree_buddy_route st.alctr start size hsz
          have hstep' : stepOp st (.free start size) =
              some ⟨⟨b2, st.alctr.slab⟩, st.live.erase (start, size)⟩ := by
            simp only [stepOp, hroute, hbf]
            rw [if_pos hlive]
          rw [hstep', Option.some.injEq] at hstep
          rw [← hstep]
          have hbwf2' : BuddyWF b2 := by
            rw [hbf] at hbwf2
            exact hbwf2
          have hbperm' : (buddyAllocList st.alctr.buddy).Perm
              ((start, 2 ^ getOrder size * BuddyStartSize) :: buddyAllocList b2) := by
            rw [hbf] at hbperm
            exact hbperm
          have hLSe : liveSlabPart (st.live.erase (start, size)) =
              liveSlabPart st.live :=
            filter_erase_neg _ (decide_eq_false hsz) _
          have hLBe : liveBuddyPart (st.live.erase (start, size)) =
              (liveBuddyPart st.live).erase (start, size) :=
            filter_erase_pos _ (by simp [hsz]) _
          refine ⟨hbwf2', hswf, ?_, ?_⟩
          · show (buddyAllocList b2).Perm
              (st.alctr.slab.slabs.map (slabBase st.alctr.slab) ++
                (liveBuddyPart (st.live.erase (start, size))).map buddyGrain)
            rw [hLBe]
            have h2 : (buddyAllocList st.alctr.buddy).Perm
                ((start, 2 ^ getOrder size * BuddyStartSize) ::
                  (st.alctr.slab.slabs.map (slabBase st.alctr.slab) ++
                    ((liveBuddyPart st.live).erase (start, size)).map buddyGrain)) := by
              refine hba.trans ?_
              have h3 : ((liveBuddyPart st.live).map buddyGrain).Perm
                  (buddyGrain (start, size) ::
                    ((liveBuddyPart st.live).erase (start, size)).map buddyGrain) := by
                have h4 := (perm_cons_erase_pair hmemLB).map buddyGrain
                rw [List.map_cons] at h4
                exact h4
              refine (h3.append_left _).trans ?_
              exact List.perm_middle
            exact (hbperm'.symm.trans h2).cons_inv
          · show (slabCells st.alctr.slab).Perm
              (liveSlabPart (st.live.erase (start, size)))
            rw [hLSe]
            exact hcells
    · have hred : stepOp st (.free start size) = none := by
        simp only [stepOp]
        rw [if_neg hlive]
      rw [hred] at hstep
      exact absurd hstep (by simp)

/-- The invariant holds after every admitted run. -/
theorem sysInv_runOps : ∀ (ops : List Op) (st st' : Sys), SysInv st →
    runOps st ops = some st' → SysInv st' := by
  intro ops
  induction ops with
  | nil =>
    intro st st' h hrun
    simp only [runOps, Option.some.injEq] at hrun
    rw [← hrun]
    exact h
  | cons op t ih =>
    intro st st' h hrun
    simp only [runOps] at hrun
    cases hstep : stepOp st op with
    | none =>
      rw [hstep] at hrun
      exact absurd hrun (by simp)
    | some st1 =>
      rw [hstep] at hrun
      exact ih st1 st' (sysInv_step h hstep) hrun

/-! ### The invariant entails the aliasing and accounting properties -/

/-- All live slab cells, across all slabs, are pairwise non-overlapping:
inside a slab by the cell invariant, across slabs because each slab's
cells sit inside its 1 MiB base and the bases are disjoint. -/
theorem slabCells_pairwise {s : SlabAllocator} (hswf : SlabWF s)
    (hbPW : (s.slabs.map (slabBase s)).Pairwise Nonoverlap) :
    (slabCells s).Pairwise Nonoverlap := by
  show ((s.slabs.map (fun i => (slabAt s i).allocated)).flatten).Pairwise Nonoverlap
  rw [List.pairwise_flatten]
  constructor
  · intro l hl
    obtain ⟨i, hi, rfl⟩ := List.mem_map.1 hl
    exact hswf.cell_disj i hi
  · rw [List.pairwise_iff_getElem]
    intro i j hi hj hij a ha b hb
    have hi' : i < s.slabs.length := by simpa using hi
    have hj' : j < s.slabs.length := by simpa using hj
    rw [List.getElem_map] at ha hb
    have hbase := (List.pairwise_iff_getElem.1 hbPW) i j (by simpa using hi')
      (by simpa using hj') hij
    rw [List.getElem_map, List.getElem_map] at hbase
    have hm1 : s.slabs[i] ∈ s.slabs := List.getElem_mem hi'
    have hm2 : s.slabs[j] ∈ s.slabs := List.getElem_mem hj'
    have ha1 : (slabAt s s.slabs[i]).start ≤ a.1 := hswf.cell_lo _ hm1 a ha
    have ha2 : a.1 + a.2 ≤ (slabAt s s.slabs[i]).start + SlabMaxSize := by
      have h := hswf.cell_hi _ hm1 a ha
      rw [hswf.slab_size _ hm1] at h
      exact h
    have hb1 : (slabAt s s.slabs[j]).start ≤ b.1 := hswf.cell_lo _ hm2 b hb
    have hb2 : b.1 + b.2 ≤ (slabAt s s.slabs[j]).start + SlabMaxSize := by
      have h := hswf.cell_hi _ hm2 b hb
      rw [hswf.slab_size _ hm2] at h
      exact h
    unfold slabBase Nonoverlap at hbase
    simp only at hbase
    unfold Nonoverlap
    omega

/-- Under the invariant, the live allocations expanded to their served
intervals are pairwise non-overlapping. -/
theorem live_pairwise_of_inv {st : Sys} (hinv : SysInv st) :
    ((st.live.map servedInterval).Pairwise Nonoverlap) := by
  obtain ⟨hbwf, hswf, hba, hcells⟩ := hinv
  have hsplit : (liveSlabPart st.live ++ liveBuddyPart st.live).Perm st.live :=
    List.filter_append_perm _ st.live
  have hmapsplit : ((liveSlabPart st.live).map servedInterval ++
      (liveBuddyPart st.live).map servedInterval).Perm
      (st.live.map servedInterval) := by
    have h := hsplit.map servedInterval
    rw [List.map_append] at h
    exact h
  have hLSid : (liveSlabPart st.live).map servedInterval = liveSlabPart st.live := by
    have h : ∀ p ∈ liveSlabPart st.live, servedInterval p = id p := by
      intro p hp
      have hple : p.2 ≤ SlabMaxSize := of_decide_eq_true (List.mem_filter.1 hp).2
      have hceil : ceilRequestSize p.2 = p.2 := by
        unfold ceilRequestSize
        rw [if_pos hple]
      show (p.1, ceilRequestSize p.2) = p
      rw [hceil]
    rw [List.map_congr_left h, List.map_id]
  have hLBgr : (liveBuddyPart st.live).map servedInterval =
      (liveBuddyPart st.live).map buddyGrain := by
    refine List.map_congr_left ?_
    intro p hp
    have hpgt : ¬ p.2 ≤ SlabMaxSize := by
      have h2 := (List.mem_filter.1 hp).2
      simpa using h2
    have hceil : ceilRequestSize p.2 = 2 ^ getOrder p.2 * BuddyStartSize := by
      unfold ceilRequestSize
      rw [if_neg hpgt]
    show (p.1, ceilRequestSize p.2) = (p.1, 2 ^ getOrder p.2 * BuddyStartSize)
    rw [hceil]
  have hwhole := pairwise_of_perm hba (buddyWF_allocList_pairwise hbwf)
  obtain ⟨hbasesPW, hGpw, hcrossBG⟩ := List.pairwise_append.1 hwhole
  have hLSpw : (liveSlabPart st.live).Pairwise Nonoverlap :=
    pairwise_of_perm hcells (slabCells_pairwise hswf hbasesPW)
  have hwithin : ∀ p ∈ liveSlabPart st.live,
      ∃ q ∈ st.alctr.slab.slabs.map (slabBase st.alctr.slab),
        q.1 ≤ p.1 ∧ p.1 + p.2 ≤ q.1 + q.2 := by
    intro p hp
    have hp' : p ∈ slabCells st.alctr.slab := hcells.mem_iff.2 hp
    obtain ⟨l, hl, hml⟩ := List.mem_flatten.1 hp'
    obtain ⟨i, hi, rfl⟩ := List.mem_map.1 hl
    refine ⟨slabBase st.alctr.slab i, List.mem_map_of_mem _ hi, ?_, ?_⟩
    · exact hswf.cell_lo i hi p hml
    · show p.1 + p.2 ≤ (slabAt st.alctr.slab i).start + SlabMaxSize
      have h := hswf.cell_hi i hi p hml
      rw [hswf.slab_size i hi] at h
      exact h
  have hcross : ∀ p ∈ liveSlabPart st.live,
      ∀ g ∈ (liveBuddyPart st.live).map buddyGrain, Nonoverlap p g := by
    intro p hp g hg
    obtain ⟨q, hq, hq1, hq2⟩ := hwithin p hp
    exact nonoverlap_of_within hq1 hq2 (hcrossBG q hq g hg)
  have hfull : ((liveSlabPart st.live) ++
      (liveBuddyPart st.live).map buddyGrain).Pairwise Nonoverlap :=
    List.pairwise_append.2 ⟨hLSpw, hGpw, hcross⟩
  refine pairwise_of_perm ?_ hfull
  refine List.Perm.trans ?_ hmapsplit
  rw [hLSid, hLBgr]

theorem sum_map_const (c : Nat) : ∀ (l : List Nat),
    (l.map (fun _ => c)).sum = l.length * c := by
  intro l
  induction l with
  | nil => simp
  | cons x t ih =>
    simp only [List.map_cons, List.sum_cons, List.length_cons, ih]
    rw [Nat.succ_mul, Nat.add_comm]

theorem sizesSum_map_base (s : SlabAllocator) : ∀ (l : List Nat),
    sizesSum (l.map (slabBase s)) = l.length * SlabMaxSize := by
  intro l
  induction l with
  | nil => simp [sizesSum]
  | cons i t ih =>
    rw [List.map_cons, sizesSum_cons, ih, List.length_cons]
    show SlabMaxSize + t.length * SlabMaxSize = (t.length + 1) * SlabMaxSize
    rw [Nat.succ_mul, Nat.add_comm]

theorem sum_sub_add (f g : Nat → Nat) : ∀ (l : List Nat), (∀ i ∈ l, g i ≤ f i) →
    (l.map (fun i => f i - g i)).sum + (l.map g).sum = (l.map f).sum := by
  intro l
  induction l with
  | nil =>
    intro h
    rfl
  | cons x t ih =>
    intro h
    simp only [List.map_cons, List.sum_cons]
    have hx := h x (List.mem_cons_self _ _)
    have ht := ih (fun i hi => h i (List.mem_cons_of_mem _ hi))
    simp only [List.map_cons, List.sum_cons] at ht
    omega

theorem slabUsedSize_eq_cells {s : SlabAllocator} (hswf : SlabWF s) :
    slabUsedSize s = sizesSum (slabCells s) := by
  show (s.slabs.map (fun i => (s.store.getD i emptySlab).used)).sum =
    sizesSum ((s.slabs.map (fun i => (slabAt s i).allocated)).flatten)
  rw [sizesSum_flatten, List.map_map]
  refine congrArg List.sum ?_
  refine List.map_congr_left ?_
  intro i hi
  show (s.store.getD i emptySlab).used = sizesSum (slabAt s i).allocated
  exact hswf.used_eq i hi

/-- Under the invariant, `GetUsedSize` is a true `uint64` difference and
equals the sum of the live allocations' served sizes. -/
theorem usedSize_eq_live_sum {st : Sys} (hinv : SysInv st) :
    slabFreeSize st.alctr.slab ≤ buddyUsedSize st.alctr.buddy ∧
    allocatorUsedSize st.alctr + slabFreeSize st.alctr.slab =
      buddyUsedSize st.alctr.buddy ∧
    allocatorUsedSize st.alctr =
      (st.live.map (fun p => ceilRequestSize p.2)).sum := by
  obtain ⟨hbwf, hswf, hba, hcells⟩ := hinv
  have hbu : buddyUsedSize st.alctr.buddy =
      st.alctr.slab.slabs.length * SlabMaxSize +
        sizesSum ((liveBuddyPart st.live).map buddyGrain) := by
    rw [buddyUsedSize_eq_sizesSum hbwf, sizesSum_perm hba, sizesSum_append,
      sizesSum_map_base]
  have h1 := sum_sub_add (fun i => (slabAt st.alctr.slab i).size)
    (fun i => (slabAt st.alctr.slab i).used) st.alctr.slab.slabs
    (fun i hi => hswf.used_le i hi)
  have h2 : (st.alctr.slab.slabs.map (fun i => (slabAt st.alctr.slab i).size)).sum =
      st.alctr.slab.slabs.length * SlabMaxSize := by
    have h3 : st.alctr.slab.slabs.map (fun i => (slabAt st.alctr.slab i).size) =
        st.alctr.slab.slabs.map (fun _ => SlabMaxSize) := by
      refine List.map_congr_left ?_
      intro i hi
      show (slabAt st.alctr.slab i).size = SlabMaxSize
      exact hswf.slab_size i hi
    rw [h3, sum_map_const]
  have hfu : slabFreeSize st.alctr.slab + slabUsedSize st.alctr.slab =
      st.alctr.slab.slabs.length * SlabMaxSize := by
    have hF : slabFreeSize st.alctr.slab = (st.alctr.slab.slabs.map (fun i =>
        (slabAt st.alctr.slab i).size - (slabAt st.alctr.slab i).used)).sum := rfl
    have hU : slabUsedSize st.alctr.slab = (st.alctr.slab.slabs.map (fun i =>
        (slabAt st.alctr.slab i).used)).sum := rfl
    rw [hF, hU, h1, h2]
  have hsu : slabUsedSize st.alctr.slab = sizesSum (liveSlabPart st.live) := by
    rw [slabUsedSize_eq_cells hswf, sizesSum_perm hcells]
  have hlivesum : (st.live.map (fun p => ceilRequestSize p.2)).sum =
      sizesSum (liveSlabPart st.live) +
        sizesSum ((liveBuddyPart st.live).map buddyGrain) := by
    have hsp := (List.filter_append_perm
      (fun p : Nat × Nat => decide (p.2 ≤ SlabMaxSize)) st.live).symm
    have hm := hsp.map (fun p => ceilRequestSize p.2)
    have hsum := hm.sum_eq
    rw [hsum, List.map_append, List.sum_append]
    congr 1
    · show _ = ((liveSlabPart st.live).map (fun p => p.2)).sum
      refine congrArg List.sum ?_
      refine List.map_congr_left ?_
      intro p hp
      have hple : p.2 ≤ SlabMaxSize := of_decide_eq_true (List.mem_filter.1 hp).2
      show ceilRequestSize p.2 = p.2
      unfold ceilRequestSize
      rw [if_pos hple]
    · show _ = (((liveBuddyPart st.live).map buddyGrain).map (fun p => p.2)).sum
      rw [List.map_map]
      refine congrArg List.sum ?_
      refine List.map_congr_left ?_
      intro p hp
      have hpgt : ¬ p.2 ≤ SlabMaxSize := by
        have h3 := (List.mem_filter.1 hp).2
        simpa using h3
      show ceilRequestSize p.2 = (buddyGrain p).2
      unfold ceilRequestSize
      rw [if_neg hpgt]
      rfl
  have hAU : allocatorUsedSize st.alctr =
      buddyUsedSize st.alctr.buddy - slabFreeSize st.alctr.slab := rfl
  refine ⟨?_, ?_, ?_⟩
  · omega
  · omega
  · omega

/-- C1: for every sequence of Allocate/Free calls executed sequentially
against a fresh Allocator, in which each Free passes an address returned
by a prior Allocate together with the size originally requested and no
address is freed twice, the set of live allocations is pairwise
non-overlapping at every point when each live allocation is expanded to
the interval `[addr, addr + ceil_request_size(size))`, where
`ceil_request_size` is the grain the allocator actually serves (the cell
size for slab allocations, `BUDDY_UNIT << k` for buddy allocations). -/
theorem C1_no_aliasing {ops : List Op} {st : Sys}
    (hrun : runOps initSys ops = some st) :
    ((st.live.map servedInterval).Pairwise Nonoverlap) :=
  live_pairwise_of_inv (sysInv_runOps ops initSys st sysInv_init hrun)

theorem C1_no_aliasing_witness :
    (((((runOps initSys [Op.alloc 4096, Op.alloc 4096,
        Op.alloc (3 * 1024 * 1024)]).getD initSys).live.map
      servedInterval).Pairwise Nonoverlap)) :=
  @C1_no_aliasing [Op.alloc 4096, Op.alloc 4096, Op.alloc (3 * 1024 * 1024)]
    ((runOps initSys [Op.alloc 4096, Op.alloc 4096,
      Op.alloc (3 * 1024 * 1024)]).getD initSys) (by decide)

/-- C3: at every quiescent point of a sequential run, `GetUsedSize()`
equals `buddy.used` minus the sum over all slabs of
`slab.size - slab.used` (the subtraction never truncates), and this
quantity equals the sum of the requested sizes of currently-live
allocations, each rounded to the grain the allocator actually used (the
exact requested size for slab cells, the allocated block size for buddy
blocks). -/
theorem C3_accounting {ops : List Op} {st : Sys}
    (hrun : runOps initSys ops = some st) :
    slabFreeSize st.alctr.slab ≤ buddyUsedSize st.alctr.buddy ∧
    allocatorUsedSize st.alctr =
      buddyUsedSize st.alctr.buddy - slabFreeSize st.alctr.slab ∧
    allocatorUsedSize st.alctr =
      (st.live.map (fun p => ceilRequestSize p.2)).sum := by
  have hinv := sysInv_runOps ops initSys st sysInv_init hrun
  obtain ⟨h1, h2, h3⟩ := usedSize_eq_live_sum hinv
  exact ⟨h1, rfl, h3⟩

theorem C3_accounting_witness :
    slabFreeSize ((runOps initSys [Op.alloc 4096,
        Op.alloc (2 * 1024 * 1024)]).getD initSys).alctr.slab ≤
      buddyUsedSize ((runOps initSys [Op.alloc 4096,
        Op.alloc (2 * 1024 * 1024)]).getD initSys).alctr.buddy ∧
    allocatorUsedSize ((runOps initSys [Op.alloc 4096,
        Op.alloc (2 * 1024 * 1024)]).getD initSys).alctr =
      buddyUsedSize ((runOps initSys [Op.alloc 4096,
        Op.alloc (2 * 1024 * 1024)]).getD initSys).alctr.buddy -
      slabFreeSize ((runOps initSys [Op.alloc 4096,
        Op.alloc (2 * 1024 * 1024)]).getD initSys).alctr.slab ∧
    allocatorUsedSize ((runOps initSys [Op.alloc 4096,
        Op.alloc (2 * 1024 * 1024)]).getD initSys).alctr =
      ((((runOps initSys [Op.alloc 4096,
        Op.alloc (2 * 1024 * 1024)]).getD initSys).live.map
          (fun p => ceilRequestSize p.2)).sum) :=
  @C3_accounting [Op.alloc 4096, Op.alloc (2 * 1024 * 1024)]
    ((runOps initSys [Op.alloc 4096, Op.alloc (2 * 1024 * 1024)]).getD initSys)
    (by decide)

/-- For C4's correction: size 0 is accepted by `Allocate` (it returns
address 0), but the paired `Free(0, 0)` does not succeed — Go's
`offset % targetSize` panics on the zero modulus — so the round-trip
contract fails for s = 0. -/
theorem C4_counterexample :
    (allocatorAllocate newAllocator 0).1 = .ok 0 ∧
    (allocatorFree (allocatorAllocate newAllocator 0).2 0 0).1 =
      .error .panicModZero := by
  decide

/-- C4 (amended): in every sequential run from a fresh allocator whose
frees return live allocations at their originally requested sizes — in
LIFO, FIFO, or any other order — once every live allocation has been
freed, `GetUsedSize()` is 0.  (The blanket claim fails for s = 0, whose
`Free` panics; see the counterexample.) -/
theorem C4_round_trip_used_zero {ops : List Op} {st : Sys}
    (hrun : runOps initSys ops = some st) (hempty : st.live = []) :
    allocatorUsedSize st.alctr = 0 := by
  have hinv := sysInv_runOps ops initSys st sysInv_init hrun
  have h := (usedSize_eq_live_sum hinv).2.2
  rw [h, hempty]
  rfl

theorem C4_round_trip_used_zero_witness :
    allocatorUsedSize ((runOps initSys
      [Op.alloc 4096, Op.free 0 4096]).getD initSys).alctr = 0 :=
  @C4_round_trip_used_zero [Op.alloc 4096, Op.free 0 4096]
    ((runOps initSys [Op.alloc 4096, Op.free 0 4096]).getD initSys)
    (by decide) (by decide)

/-- C5: whenever a `Free` brings a slab's used count to 0 (the slab being
buddy-sourced, as every slab of this implementation is), the same `Free`
succeeds, removes the slab from `slabs` and from every cache list, and
frees its 1 MiB range back to the buddy allocator, observable as buddy's
used size dropping by exactly 1 MiB — with no batching threshold. -/
theorem C5_empty_slab_returned {ops : List Op} {st : Sys} {start size tIdx : Nat}
    (hrun : runOps initSys ops = some st)
    (hts : tIdx ∈ st.alctr.slab.slabs)
    (hcell : (start, size) ∈ (slabAt st.alctr.slab tIdx).allocated)
    (hs1 : 1 ≤ size)
    (hused : (slabAt st.alctr.slab tIdx).used = size) :
    (slabFree st.alctr.slab st.alctr.buddy start size).1 = .ok () ∧
    (slabFree st.alctr.slab st.alctr.buddy start size).2.1.slabs =
      st.alctr.slab.slabs.erase tIdx ∧
    (∀ sz, tIdx ∉
      cacheList (slabFree st.alctr.slab st.alctr.buddy start size).2.1 sz) ∧
    (slabFree st.alctr.slab st.alctr.buddy start size).2.2 =
      (buddyFree st.alctr.buddy (slabAt st.alctr.slab tIdx).start).2 ∧
    buddyUsedSize (slabFree st.alctr.slab st.alctr.buddy start size).2.2 +
      SlabMaxSize = buddyUsedSize st.alctr.buddy := by
  obtain ⟨hbwf, hswf, hba, hcells⟩ := sysInv_runOps ops initSys st sysInv_init hrun
  have hPW : ((st.alctr.slab.slabs.map (slabBase st.alctr.slab))).Pairwise
      Nonoverlap := by
    have hpwAll := pairwise_of_perm hba (buddyWF_allocList_pairwise hbwf)
    exact (List.pairwise_append.1 hpwAll).1
  have hbases : ∀ i ∈ st.alctr.slab.slabs,
      ((slabAt st.alctr.slab i).start, SlabMaxSize) ∈
        buddyAllocList st.alctr.buddy := by
    intro i hi
    exact hba.mem_iff.2 (List.mem_append_left _ (List.mem_map_of_mem _ hi))
  have hcellmem : (start, size) ∈ slabCells st.alctr.slab := by
    show (start, size) ∈ (st.alctr.slab.slabs.map
      (fun i => (slabAt st.alctr.slab i).allocated)).flatten
    exact List.mem_flatten.2 ⟨_, List.mem_map_of_mem _ hts, hcell⟩
  obtain ⟨tIdx', hts', hcellt', hok, hwf2, hcp, hkeep, hdrop⟩ :=
    slabFree_spec hswf hbwf hs1 hPW hbases hcellmem
  have htt : tIdx' = tIdx := by
    by_contra hne
    have hnov := pairwise_map_of_mem hswf.idx_nodup hPW hts' hts hne
    unfold slabBase Nonoverlap at hnov
    simp only at hnov
    have h1 := hswf.cell_lo tIdx' hts' _ hcellt'
    have h2 := hswf.cell_end_lt tIdx' hts' _ hcellt'
    have h3 := hswf.cell_lo tIdx hts _ hcell
    have h4 := hswf.cell_end_lt tIdx hts _ hcell
    simp only at h1 h2 h3 h4
    have h5 := hswf.slab_size tIdx' hts'
    have h6 := hswf.slab_size tIdx hts
    have hMpos : 0 < SlabMaxSize := by decide
    omega
  subst htt
  obtain ⟨hds, hpresd, hnotc, hb2, hfs⟩ := hdrop hused
  refine ⟨hok, hds, hnotc, hb2, ?_⟩
  obtain ⟨hbok, hbwf2, hbperm, hbused⟩ := buddyFree_ok hbwf (hbases tIdx' hts')
  rw [hb2]
  exact hbused

theorem C5_empty_slab_returned_witness :
    (0 : Nat) ∈ ((runOps initSys [Op.alloc 4096]).getD initSys).alctr.slab.slabs ∧
    (slabFree ((runOps initSys [Op.alloc 4096]).getD initSys).alctr.slab
        ((runOps initSys [Op.alloc 4096]).getD initSys).alctr.buddy 0 4096).1 =
      Except.ok () :=
  ⟨by decide, (@C5_empty_slab_returned [Op.alloc 4096]
    ((runOps initSys [Op.alloc 4096]).getD initSys) 0 4096 0
    (by decide) (by decide) (by decide) (by decide) (by decide)).1⟩

end HybridAlloc
